import Mathlib

/-!
# eepytagger: a shallow embedding of `src/eepytagger.c`

The C program keeps a bounded array of tag entries (elapsed seconds and a text), reads one
line at a time and interprets it as a command or as the text of a new tag.

Conventions of the embedding.

* A C string is the list of its characters before the terminating NUL; a `Char` stands for
  one non-NUL byte.
* `int` is 32 bits and `long`/`time_t` are 64 bits (LP64).  Arithmetic is done on `Int` and
  reduced with `wrap32`/`wrap64` where the C expression has that type, so that a result that
  leaves the range wraps around (two's complement).
* The array `entries[0 .. entry_count)` is a `List TagEntry`; slots at and above
  `entry_count` are never read by the program before being rewritten.
* `time(NULL)` and the success of `fopen` are inputs of each loop iteration.
-/

namespace Eepytagger

/-! ## Constants and machine integers -/

@[reducible] def MAX_LINE : Nat := 1024
@[reducible] def MAX_ENTRIES : Nat := 1000

def INT_MAX : Int := 2147483647
def LONG_MAX : Int := 9223372036854775807
def LONG_MIN : Int := -9223372036854775808

/-- Reduction of an integer to the range of a 32-bit `int`. -/
def wrap32 (x : Int) : Int := (x + 2147483648) % 4294967296 - 2147483648

/-- Reduction of an integer to the range of a 64-bit `long` or `time_t`. -/
def wrap64 (x : Int) : Int :=
  (x + 9223372036854775808) % 18446744073709551616 - 9223372036854775808

/-! ## Characters -/

def NEWLINE : Char := Char.ofNat 10
def BACKSLASH : Char := Char.ofNat 92
def DOLLAR : Char := Char.ofNat 36

/-- The `isspace` of the C locale: space, `\t`, `\n`, `\v`, `\f`, `\r`. -/
def isspace (c : Char) : Bool := decide (c.toNat = 32 ∨ (9 ≤ c.toNat ∧ c.toNat ≤ 13))

/-- The `isdigit` of the C locale. -/
def isdigit (c : Char) : Bool := decide (48 ≤ c.toNat ∧ c.toNat ≤ 57)

/-! ## `printf` conversions -/

def digitChar (d : Nat) : Char := Char.ofNat (48 + d)

def natDigitsAux : Nat → Nat → List Char → List Char
  | 0, _, acc => acc
  | fuel + 1, n, acc =>
    if n < 10 then digitChar n :: acc
    else natDigitsAux fuel (n / 10) (digitChar (n % 10) :: acc)

/-- Decimal digits of a natural number, most significant first. -/
def natDigits (n : Nat) : List Char := natDigitsAux (n + 1) n []

/-- The conversions `%d` (`zero = false`, `width = 0`), `%2d` and `%02d` of `printf`:
sign, then digits, padded on the left to the field width with blanks, or with zeros
after the sign when the `0` flag is given. -/
def printf_d (zero : Bool) (width : Nat) (v : Int) : List Char :=
  let ds := natDigits v.natAbs
  let sign : List Char := if v < 0 then ['-'] else []
  let pad := width - (sign.length + ds.length)
  if zero then sign ++ (List.replicate pad '0' ++ ds)
  else List.replicate pad ' ' ++ (sign ++ ds)

/-- What `snprintf` leaves in a buffer of `buffer_size` bytes: at most `buffer_size - 1`
characters of the formatted text. -/
def snprintf (buffer_size : Nat) (s : List Char) : List Char := s.take (buffer_size - 1)

/-- The function `format_time` (lines 23-29): the text written to `buffer`.  After the clamp the
operands of `/` and `%` are non-negative, where C and `Int` division agree. -/
def format_time (seconds : Int) (buffer_size : Nat) : List Char :=
  let seconds := if seconds < 0 then 0 else seconds
  let h := seconds / 3600
  let m := (seconds % 3600) / 60
  let s := seconds % 60
  snprintf buffer_size
    (printf_d true 2 h ++ (':' :: (printf_d true 2 m ++ (':' :: printf_d true 2 s))))

/-! ## `sscanf` -/

/-- Directives of the `scanf` formats used by the program. -/
inductive Dir
  | lit (c : Char)
  | ws
  | d
  | c
  | s (w : Nat)
  | notnl
  deriving DecidableEq, Repr

/-- A converted value stored by `sscanf`. -/
inductive Val
  | int (v : Int)
  | chr (c : Char)
  | str (s : List Char)
  deriving DecidableEq, Repr

/-- Accumulate the leading decimal digits of the input. -/
def scanDigits : Nat → List Char → Nat × List Char
  | acc, [] => (acc, [])
  | acc, c :: cs =>
    if isdigit c then scanDigits (acc * 10 + (c.toNat - 48)) cs else (acc, c :: cs)

/-- Saturation of `strtol` at the ends of the `long` range. -/
def clampLong (v : Int) : Int :=
  if v > LONG_MAX then LONG_MAX else if v < LONG_MIN then LONG_MIN else v

/-- The digits of a number after its optional sign: at least one digit is required. -/
def scan_unsigned (neg : Bool) : List Char → Option (Int × List Char)
  | [] => none
  | c :: cs =>
    if isdigit c then
      let r := scanDigits 0 (c :: cs)
      some (clampLong (if neg then -(r.1 : Int) else (r.1 : Int)), r.2)
    else none

/-- A decimal integer as `strtol` reads it: leading white space, an optional sign, digits;
`none` when there is no digit. The value saturates at the `long` range. -/
def scan_long (inp : List Char) : Option (Int × List Char) :=
  match inp.dropWhile isspace with
  | [] => none
  | c :: cs =>
    if c = '-' then scan_unsigned true cs
    else if c = '+' then scan_unsigned false cs
    else scan_unsigned false (c :: cs)

/-- The conversion `%d`: the number is read as by `strtol` and stored in an `int`
(behaviour of glibc; a value outside the `int` range is reduced modulo 2^32). -/
def scan_d (inp : List Char) : Option (Int × List Char) :=
  match scan_long inp with
  | some (v, rest) => some (wrap32 v, rest)
  | none => none

/-- The call `strtol(s, &end, 10)`: value and the unread rest; `(0, s)` when nothing is converted. -/
def strtol (s : List Char) : Int × List Char :=
  match scan_long s with
  | some r => r
  | none => (0, s)

/-- The call `sscanf(inp, fmt, ...)`: the values stored, in order. The C return value is the length
of this list (or `EOF` instead of 0; the program only compares it with 1, 2 and 3). -/
def sscanf : List Dir → List Char → List Val
  | [], _ => []
  | Dir.lit c :: fmt, inp =>
    match inp with
    | [] => []
    | x :: xs => if x = c then sscanf fmt xs else []
  | Dir.ws :: fmt, inp => sscanf fmt (inp.dropWhile isspace)
  | Dir.d :: fmt, inp =>
    match scan_d inp with
    | some (v, rest) => Val.int v :: sscanf fmt rest
    | none => []
  | Dir.c :: fmt, inp =>
    match inp with
    | [] => []
    | x :: xs => Val.chr x :: sscanf fmt xs
  | Dir.s w :: fmt, inp =>
    let inp1 := inp.dropWhile isspace
    let tok := (inp1.takeWhile (fun x => !isspace x)).take w
    if tok = [] then [] else Val.str tok :: sscanf fmt (inp1.drop tok.length)
  | Dir.notnl :: fmt, inp =>
    let tok := inp.takeWhile (fun x => decide (x ≠ NEWLINE))
    if tok = [] then [] else Val.str tok :: sscanf fmt (inp.drop tok.length)

/-- The format `"%d:%d:%d"`. -/
def fmt_hms : List Dir := [Dir.d, Dir.lit ':', Dir.d, Dir.lit ':', Dir.d]

/-- The format `"!start %d:%d:%d"`. -/
def fmt_start : List Dir :=
  [Dir.lit '!', Dir.lit 's', Dir.lit 't', Dir.lit 'a', Dir.lit 'r', Dir.lit 't', Dir.ws,
   Dir.d, Dir.lit ':', Dir.d, Dir.lit ':', Dir.d]

/-- The format `"%d. %15s %[^\n]"`. -/
def fmt_indexed : List Dir := [Dir.d, Dir.lit '.', Dir.ws, Dir.s 15, Dir.ws, Dir.notnl]

/-- The format `"%15s %[^\n]"`. -/
def fmt_plain : List Dir := [Dir.s 15, Dir.ws, Dir.notnl]

/-- The format `"!offset %d %c%d"`. -/
def fmt_offset_n : List Dir :=
  [Dir.lit '!', Dir.lit 'o', Dir.lit 'f', Dir.lit 'f', Dir.lit 's', Dir.lit 'e', Dir.lit 't',
   Dir.ws, Dir.d, Dir.ws, Dir.c, Dir.d]

/-- The format `"!p %c%d"`. -/
def fmt_p : List Dir := [Dir.lit '!', Dir.lit 'p', Dir.ws, Dir.c, Dir.d]

/-- The format `"!previous %c%d"`. -/
def fmt_previous : List Dir :=
  [Dir.lit '!', Dir.lit 'p', Dir.lit 'r', Dir.lit 'e', Dir.lit 'v', Dir.lit 'i', Dir.lit 'o',
   Dir.lit 'u', Dir.lit 's', Dir.ws, Dir.c, Dir.d]

/-- The format `"!offset %15s %c%d"`. -/
def fmt_offset_s : List Dir :=
  [Dir.lit '!', Dir.lit 'o', Dir.lit 'f', Dir.lit 'f', Dir.lit 's', Dir.lit 'e', Dir.lit 't',
   Dir.ws, Dir.s 15, Dir.ws, Dir.c, Dir.d]

/-! ## Timestamp validation -/

inductive TsError
  | InvalidTimestamp
  | Overflow
  deriving DecidableEq, Repr

/-- Outcome of the validation of a timestamp: the seconds, or the diagnostic. -/
inductive TsResult
  | ok (seconds : Int)
  | error (e : TsError)
  deriving DecidableEq, Repr

/-- Lines 70-79 of `load_from_file`: range check of the three scanned fields, the total
computed in `long`, the `INT_MAX` check and the cast to `int`. -/
def load_validate (h m s : Int) : TsResult :=
  if h < 0 ∨ m < 0 ∨ m > 59 ∨ s < 0 ∨ s > 59 then TsResult.error TsError.InvalidTimestamp
  else
    let seconds := wrap64 (wrap64 (wrap64 (h * 3600) + wrap32 (m * 60)) + s)
    if seconds > INT_MAX then TsResult.error TsError.Overflow
    else TsResult.ok (wrap32 seconds)

/-- Lines 210-219 of `main`: the same checks, written a second time for `!start`. -/
def start_validate (h m s : Int) : TsResult :=
  if h < 0 ∨ m < 0 ∨ m > 59 ∨ s < 0 ∨ s > 59 then TsResult.error TsError.InvalidTimestamp
  else
    let seconds := wrap64 (wrap64 (wrap64 (h * 3600) + wrap32 (m * 60)) + s)
    if seconds > INT_MAX then TsResult.error TsError.Overflow
    else TsResult.ok (wrap32 seconds)

/-- Lines 69-79: the timestamp token of a loaded line; `none` when `sscanf` does not
convert three fields (the line is then skipped without a diagnostic). -/
def load_timestamp (ts : List Char) : Option (TsResult) :=
  match sscanf fmt_hms ts with
  | [Val.int h, Val.int m, Val.int s] => some (load_validate h m s)
  | _ => none

/-- Lines 209-219: the optional offset of a `!start` line; `none` when `sscanf` does not
convert three fields. -/
def start_timestamp (trimmed_input : List Char) : Option (TsResult) :=
  match sscanf fmt_start trimmed_input with
  | [Val.int h, Val.int m, Val.int s] => some (start_validate h m s)
  | _ => none

/-! ## Tag entries and the persistence layer -/

/-- The struct `TagEntry` (lines 17-20). -/
structure TagEntry where
  seconds : Int
  text : List Char
  deriving DecidableEq, Repr

instance : Inhabited TagEntry := ⟨⟨0, []⟩⟩

/-- One iteration of the loop of `save_to_file` (lines 39-45): the line written for
`entries[i]`, with `"%2d. %s %s\n"` or `"%s %s\n"`. -/
def save_line (include_index : Bool) (i : Nat) (e : TagEntry) : List Char :=
  let timestamp := format_time e.seconds 16
  if include_index then
    printf_d false 2 ((i : Int) + 1) ++ ('.' :: ' ' :: (timestamp ++ (' ' :: (e.text ++ [NEWLINE]))))
  else timestamp ++ (' ' :: (e.text ++ [NEWLINE]))

/-- The loop of `save_to_file` (lines 38-46) from index `i` on. -/
def save_loop (include_index : Bool) : Nat → List TagEntry → List Char
  | _, [] => []
  | i, e :: es => save_line include_index i e ++ save_loop include_index (i + 1) es

/-- The function `save_to_file` (lines 32-49) when `fopen` succeeds: the new content of the file. -/
def save_to_file (entries : List TagEntry) (include_index : Bool) : List Char :=
  save_loop include_index 0 entries

/-- The call `fgets` with room for `k` characters: the characters read, up to and including the
first newline, and the unread rest of the stream. -/
def fgets : Nat → List Char → List Char × List Char
  | 0, inp => ([], inp)
  | _ + 1, [] => ([], [])
  | k + 1, c :: cs =>
    if c = NEWLINE then ([c], cs)
    else ((c :: (fgets k cs).1), (fgets k cs).2)

/-- Lines 66-67: the two attempts to split a line into timestamp token and text. -/
def scan_line (line : List Char) : Option (List Char × List Char) :=
  match sscanf fmt_indexed line with
  | [Val.int _, Val.str ts, Val.str rest] => some (ts, rest)
  | _ =>
    match sscanf fmt_plain line with
    | [Val.str ts, Val.str rest] => some (ts, rest)
    | _ => none

/-- Body of the loop of `load_from_file` (lines 62-84) for one line read by `fgets`. -/
def load_line (line : List Char) (entries : List TagEntry) : List TagEntry :=
  match scan_line line with
  | some (ts, rest) =>
    match load_timestamp ts with
    | some (TsResult.ok seconds) => entries ++ [⟨seconds, rest.take (MAX_LINE - 1)⟩]
    | _ => entries
  | none => entries

/-- The loop of `load_from_file` (line 61). Every iteration reads at least one character,
so a fuel equal to the length of the stream is never exhausted before the end of file. -/
def load_loop : Nat → List Char → List TagEntry → List TagEntry
  | 0, _, entries => entries
  | fuel + 1, inp, entries =>
    if inp = [] then entries
    else if entries.length < MAX_ENTRIES then
      load_loop fuel (fgets (MAX_LINE - 1) inp).2 (load_line (fgets (MAX_LINE - 1) inp).1 entries)
    else entries

/-- The function `load_from_file` (lines 52-88): `none` is a file that cannot be opened. -/
def load_from_file (file : Option (List Char)) : List TagEntry :=
  match file with
  | none => []
  | some content => load_loop content.length content []

/-! ## The interactive loop -/

/-- The second loop of `trim_whitespace`, which deletes trailing white space. -/
def rstrip (s : List Char) : List Char := (s.reverse.dropWhile isspace).reverse

/-- The function `trim_whitespace` (lines 114-119). The second loop stops at the first character
(`end > str`), which is never deleted. -/
def trim_whitespace (str : List Char) : List Char :=
  match str.dropWhile isspace with
  | [] => []
  | c :: cs => c :: rstrip cs

/-- The local variables of `main` that survive an iteration of the loop, and the content of
the scratch file (`none` until the program has written it). -/
structure Session where
  entries : List TagEntry
  started : Bool
  start_time : Int
  paused : Bool
  pause_time : Int
  paused_duration : Int
  temp_file : Option (List Char)
  deriving DecidableEq, Repr

/-- What one iteration receives from outside: the line returned by `readline`, the value of
`time(NULL)`, and whether the scratch file can be opened for writing. -/
structure Input where
  line : List Char
  now : Int
  temp_ok : Bool
  deriving DecidableEq, Repr

/-- The messages printed by the loop. -/
inductive Msg
  | help
  | invalidTimestamp
  | timestampTooLarge
  | invalidStartFormat
  | startedFrom (initial_seconds : Int)
  | sessionNotStarted
  | alreadyPaused
  | pausedAt (elapsed : Int)
  | notPaused
  | resumedAt (elapsed : Int)
  | startFirst
  | noTags
  | clamped (tag : Nat)
  | adjustedAll (delta : Int)
  | invalidIndex
  | negativeResult
  | adjusted (tag : Int) (ts : List Char)
  | editUsage
  | edited (tag : Int)
  | deleted (tag : Int)
  | deleteUsage
  | unknownCommand (line : List Char)
  | pausedWarning
  | maxEntries
  deriving DecidableEq, Repr

/-- Result of one iteration: the new state, whether the loop is left, and the output. -/
structure Outcome where
  st : Session
  stop : Bool
  out : List Msg
  deriving DecidableEq, Repr

/-- An iteration that ends with `continue`. -/
def cont (st : Session) (out : List Msg) : Outcome := ⟨st, false, out⟩

/-- The call `save_to_file(temp_filename, entries, entry_count, 1)`. -/
def autosave (st : Session) (temp_ok : Bool) : Session :=
  if temp_ok then { st with temp_file := some (save_to_file st.entries true) } else st

/-- The expression `(int)(now - start_time - paused_duration)` floored at zero
(lines 241-242, 259-260, 395-396). -/
def elapsed_at (now start_time paused_duration : Int) : Int :=
  let elapsed := wrap32 (wrap64 (wrap64 (now - start_time) - paused_duration))
  if elapsed < 0 then 0 else elapsed

def cmd_help : List Char := ['!', 'h', 'e', 'l', 'p']
def cmd_end : List Char := ['!', 'e', 'n', 'd']
def cmd_start : List Char := ['!', 's', 't', 'a', 'r', 't']
def cmd_pause : List Char := ['!', 'p', 'a', 'u', 's', 'e']
def cmd_resume : List Char := ['!', 'r', 'e', 's', 'u', 'm', 'e']
def cmd_offset : List Char := ['!', 'o', 'f', 'f', 's', 'e', 't']
def cmd_delete : List Char := ['!', 'd', 'e', 'l', 'e', 't', 'e', ' ']
def cmd_e : List Char := ['!', 'e']
def word_all : List Char := ['a', 'l', 'l']

/-- Lines 206-228: a line whose first six characters are `!start`. -/
def handle_start (st : Session) (trimmed_input : List Char) (now : Int) : Outcome :=
  match start_timestamp trimmed_input with
  | some (TsResult.error TsError.InvalidTimestamp) => cont st [Msg.invalidTimestamp]
  | some (TsResult.error TsError.Overflow) => cont st [Msg.timestampTooLarge]
  | some (TsResult.ok initial_seconds) =>
    cont { st with start_time := wrap64 (now - initial_seconds), started := true }
      [Msg.startedFrom initial_seconds]
  | none =>
    if trimmed_input ≠ cmd_start then cont st [Msg.invalidStartFormat]
    else cont { st with start_time := wrap64 (now - 0), started := true } [Msg.startedFrom 0]

/-- Lines 230-245: the line `!pause`. -/
def handle_pause (st : Session) (now : Int) : Outcome :=
  if !st.started then cont st [Msg.sessionNotStarted]
  else if st.paused then cont st [Msg.alreadyPaused]
  else
    cont { st with pause_time := now, paused := true }
      [Msg.pausedAt (elapsed_at now st.start_time st.paused_duration)]

/-- Lines 247-263: the line `!resume`. -/
def handle_resume (st : Session) (now : Int) : Outcome :=
  if !st.started then cont st [Msg.sessionNotStarted]
  else if !st.paused then cont st [Msg.notPaused]
  else
    let paused_duration := wrap32 (st.paused_duration + wrap32 (wrap64 (now - st.pause_time)))
    cont { st with paused_duration := paused_duration, paused := false }
      [Msg.resumedAt (elapsed_at now st.start_time paused_duration)]

/-- The variables `n`, `sign`, `adj` and `offset_type` after the scans of line 275-278. -/
structure OffsetVars where
  n : Int
  sign : Char
  adj : Int
  offset_type : List Char
  deriving DecidableEq, Repr

/-- The condition of lines 275-278: the four `sscanf` attempts, in order, the first
success ending the evaluation. `offset_type` is zeroed at the start of each iteration and
only the fourth scan writes it. In the last three cases the C variable `n` is
indeterminate; it is then not read (see `handle_offset`) and the model puts 0. -/
def scan_offset (trimmed_input : List Char) : Option OffsetVars :=
  match sscanf fmt_offset_n trimmed_input with
  | [Val.int n, Val.chr sign, Val.int adj] => some ⟨n, sign, adj, []⟩
  | _ =>
    match sscanf fmt_p trimmed_input with
    | [Val.chr sign, Val.int adj] => some ⟨0, sign, adj, []⟩
    | _ =>
      match sscanf fmt_previous trimmed_input with
      | [Val.chr sign, Val.int adj] => some ⟨0, sign, adj, []⟩
      | _ =>
        match sscanf fmt_offset_s trimmed_input with
        | [Val.str offset_type, Val.chr sign, Val.int adj] => some ⟨0, sign, adj, offset_type⟩
        | _ => none

/-- The loop of lines 287-295 on one entry. -/
def offset_entry (delta : Int) (e : TagEntry) : TagEntry :=
  let new_time := wrap32 (e.seconds + delta)
  if new_time < 0 then { e with seconds := 0 } else { e with seconds := new_time }

/-- The messages of the loop of lines 287-295, for the entries from index `i` on. -/
def offset_all_out (delta : Int) : Nat → List TagEntry → List Msg
  | _, [] => []
  | i, e :: es =>
    if wrap32 (e.seconds + delta) < 0 then Msg.clamped (i + 1) :: offset_all_out delta (i + 1) es
    else offset_all_out delta (i + 1) es

/-- Lines 279-315: the body run when one of the offset scans succeeded. -/
def handle_offset (st : Session) (trimmed_input : List Char) (v : OffsetVars)
    (temp_ok : Bool) : Outcome :=
  let delta := if v.sign = '-' then wrap32 (-v.adj) else v.adj
  if trimmed_input.take 7 = cmd_offset ∧ v.offset_type = word_all then
    if st.entries.length = 0 then cont st [Msg.noTags]
    else
      cont (autosave { st with entries := st.entries.map (offset_entry delta) } temp_ok)
        (offset_all_out delta 0 st.entries ++ [Msg.adjustedAll delta])
  else
    let index : Int :=
      if trimmed_input.take 7 = cmd_offset ∧ v.offset_type = [] then wrap32 (v.n - 1)
      else (st.entries.length : Int) - 1
    if index < 0 ∨ index ≥ st.entries.length then cont st [Msg.invalidIndex]
    else
      let e := st.entries.getD index.toNat default
      if wrap32 (e.seconds + delta) < 0 then cont st [Msg.negativeResult]
      else
        let seconds := wrap32 (e.seconds + delta)
        let entries := st.entries.set index.toNat { e with seconds := seconds }
        cont (autosave { st with entries := entries } temp_ok)
          [Msg.adjusted (index + 1) (format_time seconds 16)]

/-- The loop of lines 341-351 that composes the new text: the unread part of `rest` and
the text composed so far (`new_pos` is its length). -/
def edit_loop (original : List Char) : List Char → List Char → List Char
  | [], new_text => new_text
  | [c], new_text =>
    if new_text.length < MAX_LINE - 1 then
      if c = DOLLAR ∧ new_text.length + original.length < MAX_LINE - 1 then new_text ++ original
      else new_text ++ [c]
    else new_text
  | c :: d :: cs, new_text =>
    if new_text.length < MAX_LINE - 1 then
      if c = BACKSLASH ∧ d = DOLLAR then edit_loop original cs (new_text ++ [DOLLAR])
      else if c = DOLLAR ∧ new_text.length + original.length < MAX_LINE - 1 then
        edit_loop original (d :: cs) (new_text ++ original)
      else edit_loop original (d :: cs) (new_text ++ [c])
    else new_text

/-- Lines 319-326: the target index and the replacement text of an edit line. -/
def edit_target (entry_count : Nat) (trimmed_input : List Char) : Int × List Char :=
  let rest := trim_whitespace (trimmed_input.drop 2)
  match rest with
  | [] => ((entry_count : Int) - 1, rest)
  | c :: _ =>
    if isdigit c then (wrap32 ((strtol rest).1 - 1), trim_whitespace (strtol rest).2)
    else ((entry_count : Int) - 1, rest)

/-- Lines 318-358: a line whose first two characters are `!e`. -/
def handle_edit (st : Session) (trimmed_input : List Char) (temp_ok : Bool) : Outcome :=
  let edit_index := (edit_target st.entries.length trimmed_input).1
  let rest := (edit_target st.entries.length trimmed_input).2
  if rest = [] then cont st [Msg.editUsage]
  else if edit_index < 0 ∨ edit_index ≥ st.entries.length then cont st [Msg.invalidIndex]
  else
    let e := st.entries.getD edit_index.toNat default
    let new_text := edit_loop e.text rest []
    let entries := st.entries.set edit_index.toNat { e with text := new_text.take (MAX_LINE - 1) }
    cont (autosave { st with entries := entries } temp_ok) [Msg.edited (edit_index + 1)]

/-- The loop of lines 368-370: `k` iterations of `entries[i] = entries[i + 1]` from `i`. -/
def shift_down : Nat → Nat → List TagEntry → List TagEntry
  | 0, _, entries => entries
  | k + 1, i, entries => shift_down k (i + 1) (entries.set i (entries.getD (i + 1) default))

/-- Lines 368-371: the entries after the deletion of `entries[del_index]`. -/
def delete_at (entries : List TagEntry) (del_index : Nat) : List TagEntry :=
  (shift_down (entries.length - 1 - del_index) del_index entries).take (entries.length - 1)

/-- Lines 360-379: a line whose first eight characters are `!delete `. -/
def handle_delete (st : Session) (trimmed_input : List Char) (temp_ok : Bool) : Outcome :=
  match sscanf [Dir.d] (trimmed_input.drop 8) with
  | [Val.int n] =>
    let del_index := wrap32 (n - 1)
    if del_index < 0 ∨ del_index ≥ st.entries.length then cont st [Msg.invalidIndex]
    else
      cont (autosave { st with entries := delete_at st.entries del_index.toNat } temp_ok)
        [Msg.deleted (del_index + 1)]
  | _ => cont st [Msg.deleteUsage]

/-- Lines 387-408: a new tag. -/
def handle_append (st : Session) (trimmed_input : List Char) (now : Int)
    (temp_ok : Bool) : Outcome :=
  let effective_paused_duration :=
    if st.paused then wrap32 (st.paused_duration + wrap32 (wrap64 (now - st.pause_time)))
    else st.paused_duration
  let warning := if st.paused then [Msg.pausedWarning] else []
  let elapsed := elapsed_at now st.start_time effective_paused_duration
  if st.entries.length ≥ MAX_ENTRIES then ⟨st, true, warning ++ [Msg.maxEntries]⟩
  else
    let entries := st.entries ++ [⟨elapsed, trimmed_input.take (MAX_LINE - 1)⟩]
    cont (autosave { st with entries := entries } temp_ok) warning

/-- Lines 270-408: what a started session does with a trimmed line that is none of
`!help`, `!end`, `!start...`, `!pause`, `!resume`. -/
def dispatch (st : Session) (trimmed_input : List Char) (now : Int) (temp_ok : Bool) :
    Outcome :=
  match scan_offset trimmed_input with
  | some v => handle_offset st trimmed_input v temp_ok
  | none =>
    if trimmed_input.take 2 = cmd_e then handle_edit st trimmed_input temp_ok
    else if trimmed_input.take 8 = cmd_delete then handle_delete st trimmed_input temp_ok
    else if trimmed_input.head? = some '!' then cont st [Msg.unknownCommand trimmed_input]
    else handle_append st trimmed_input now temp_ok

/-- One iteration of the loop of `main` (lines 182-408) on a line that `readline` returned. -/
def step (st : Session) (inp : Input) : Outcome :=
  let input := inp.line.take (MAX_LINE - 1)
  let trimmed_input := trim_whitespace input
  if trimmed_input = [] then cont st []
  else if trimmed_input = cmd_help then cont st [Msg.help]
  else if trimmed_input = cmd_end then ⟨st, true, []⟩
  else if trimmed_input.take 6 = cmd_start then handle_start st trimmed_input inp.now
  else if trimmed_input = cmd_pause then handle_pause st inp.now
  else if trimmed_input = cmd_resume then handle_resume st inp.now
  else if !st.started then cont st [Msg.startFirst]
  else dispatch st trimmed_input inp.now inp.temp_ok

/-- The loop of `main` (lines 181-409) on the lines that `readline` returns before the end
of input: the state with which the loop is left. -/
def run : Session → List Input → Session
  | st, [] => st
  | st, inp :: inps => if (step st inp).stop then (step st inp).st else run (step st inp).st inps

/-- The state of `main` when the loop is entered (lines 122-131, 157): `loaded` is the
result of `load_from_file` under `--resume`, and the empty list otherwise. -/
def initial (loaded : List TagEntry) : Session :=
  { entries := loaded, started := false, start_time := 0, paused := false, pause_time := 0,
    paused_duration := 0, temp_file := none }

/-- Lines 411-416: the content of the destination file after the final save; `previous` is
its content before, `output_ok` whether it can be opened for writing. -/
def final_save (st : Session) (output_ok : Bool) (previous : Option (List Char)) :
    Option (List Char) :=
  if st.entries.length > 0 then
    if output_ok then some (save_to_file st.entries false) else previous
  else previous

/-! ## Definitions used in the statements and proofs -/

/-- Zero padding followed by the digits of a number. -/
def paddedDigits (b n : Nat) : List Char := List.replicate b '0' ++ natDigits n

/-- The composed text of an edit as the specification words it: the replacement read left
to right, each pair backslash-dollar replaced by a literal `$`, each other `$` replaced by
the prior text of the entry, every other character kept. -/
def compose (original : List Char) : List Char → List Char
  | [] => []
  | [c] => if c = DOLLAR then original else [c]
  | c :: d :: cs =>
    if c = BACKSLASH ∧ d = DOLLAR then DOLLAR :: compose original cs
    else if c = DOLLAR then original ++ compose original (d :: cs)
    else c :: compose original (d :: cs)

/-- The guarded composition of an edit: the replacement read left to right onto the text
composed so far, each pair backslash-dollar giving a literal `$`, each other `$` giving the
prior text when the text so far plus the prior text is shorter than 1023 characters and a
literal `$` otherwise, every other character kept. Nothing is cut off here. -/
def compose_guarded (original : List Char) : List Char → List Char → List Char
  | [], sofar => sofar
  | [c], sofar =>
    if c = DOLLAR ∧ sofar.length + original.length < 1023 then sofar ++ original
    else sofar ++ [c]
  | c :: d :: cs, sofar =>
    if c = BACKSLASH ∧ d = DOLLAR then compose_guarded original cs (sofar ++ [DOLLAR])
    else if c = DOLLAR ∧ sofar.length + original.length < 1023 then
      compose_guarded original (d :: cs) (sofar ++ original)
    else compose_guarded original (d :: cs) (sofar ++ [c])

/-- A started session whose only tag has a text of 600 characters. -/
def long_session : Session :=
  { entries := [⟨0, List.replicate 600 'a'⟩], started := true, start_time := 0,
    paused := false, pause_time := 0, paused_duration := 0, temp_file := none }

/-- The session in which `entries[k]` has a new text and nothing else is changed. -/
def with_text (st : Session) (k : Nat) (text : List Char) : Session :=
  { st with entries := st.entries.set k { st.entries.getD k default with text := text } }

/-- The line `!e <n> <r>`. -/
def edit_line (n : Int) (r : List Char) : List Char :=
  cmd_e ++ (' ' :: (printf_d false 0 n ++ (' ' :: r)))

/-- The line `!e <r>`, without a target index. -/
def edit_last_line (r : List Char) : List Char := cmd_e ++ (' ' :: r)

/-- An entry that the indexed format can carry at position `i`: seconds in `[0, 2^31-1]`, a
text that is not empty, does not begin with white space and holds no newline, and a
written line (newline included) of at most 1023 characters, the most `fgets` reads at
once into `line[MAX_LINE]`. -/
def LineOK (i : Nat) (e : TagEntry) : Prop :=
  0 ≤ e.seconds ∧ e.seconds ≤ 2147483647 ∧
  (∃ c cs, e.text = c :: cs ∧ isspace c = false) ∧ NEWLINE ∉ e.text ∧
  (save_line true i e).length ≤ 1023

/-- A store that the indexed format can carry. -/
def Resumable (entries : List TagEntry) : Prop :=
  entries.length ≤ MAX_ENTRIES ∧
  ∀ (i : Nat) (e : TagEntry), entries[i]? = some e → LineOK i e

/-- The invariant of the Tag Store: at most `MAX_ENTRIES` entries, every `seconds` in
`[0, 2^31-1]`, every text of at most `MAX_LINE - 1` characters. -/
def StoreInv (entries : List TagEntry) : Prop :=
  entries.length ≤ MAX_ENTRIES ∧
  ∀ e ∈ entries, 0 ≤ e.seconds ∧ e.seconds ≤ 2147483647 ∧ e.text.length ≤ MAX_LINE - 1

/-- A started session with three tags, used to instantiate the theorems. -/
def sample_session : Session :=
  { entries := [⟨10, ['h', 'i']⟩, ⟨20, ['w', 'o', 'r', 'l', 'd']⟩, ⟨30, ['x']⟩],
    started := true, start_time := 0, paused := false, pause_time := 0,
    paused_duration := 0, temp_file := none }

/-- A started session whose only tag is stamped with the largest `int`. -/
def overflow_session : Session :=
  { entries := [⟨2147483647, ['x']⟩], started := true, start_time := 0, paused := false,
    pause_time := 0, paused_duration := 0, temp_file := none }

/-- The text of a signed amount as the user types it: `+n` or `-n`. -/
def signed_text (delta : Int) : List Char :=
  (if delta < 0 then '-' else '+') :: printf_d false 0 (delta.natAbs : Int)

/-- The line `!offset <i> <±n>`. -/
def offset_line (i delta : Int) : List Char :=
  cmd_offset ++ (' ' :: (printf_d false 0 i ++ (' ' :: signed_text delta)))

/-- The line `!p <±n>`. -/
def p_line (delta : Int) : List Char := '!' :: 'p' :: ' ' :: signed_text delta

/-- The line `!previous <±n>`. -/
def previous_line (delta : Int) : List Char :=
  '!' :: 'p' :: 'r' :: 'e' :: 'v' :: 'i' :: 'o' :: 'u' :: 's' :: ' ' :: signed_text delta

/-- The line `!offset all <±n>`. -/
def offset_all_line (delta : Int) : List Char :=
  cmd_offset ++ (' ' :: (word_all ++ (' ' :: signed_text delta)))

/-- OffsetOne as the specification words it, on the 1-based `index`, with the sum taken in
the integers: `InvalidIndex` and no change outside `[1, count]`, `NegativeResult` and no
change when `seconds + delta < 0`, otherwise that entry's seconds become `seconds + delta`
and the scratch file is rewritten. -/
def OffsetOne_spec (st : Session) (index delta : Int) (temp_ok : Bool) : Outcome :=
  if index < 1 ∨ index > st.entries.length then cont st [Msg.invalidIndex]
  else
    let e := st.entries.getD (index - 1).toNat default
    if e.seconds + delta < 0 then cont st [Msg.negativeResult]
    else
      let entries := st.entries.set (index - 1).toNat { e with seconds := e.seconds + delta }
      cont (autosave { st with entries := entries } temp_ok)
        [Msg.adjusted index (format_time (e.seconds + delta) 16)]

/-- Two decimal digits of a number below 100. -/
def two_digits (n : Nat) : List Char := [Nat.digitChar (n / 10), Nat.digitChar (n % 10)]

/-- A number in decimal, padded with zeros on the left to at least two digits. -/
def hours_field (h : Nat) : List Char :=
  List.replicate (2 - (Nat.toDigits 10 h).length) '0' ++ Nat.toDigits 10 h

/-- The plain serialization of a store as the specification words it: for each entry in
order the line `HH:MM:SS`, one space, the text, a newline. -/
def plain_format (entries : List TagEntry) : List Char :=
  (entries.map fun e => format_time e.seconds 16 ++ (' ' :: (e.text ++ [NEWLINE]))).flatten

/-- A text padded with blanks on the left to a width. -/
def pad_left (width : Nat) (s : List Char) : List Char :=
  List.replicate (width - s.length) ' ' ++ s

/-- A text padded with blanks on the right to a width. -/
def pad_right (width : Nat) (s : List Char) : List Char :=
  s ++ List.replicate (width - s.length) ' '

/-- One line of the indexed serialization: the 1-based index in decimal, padded on the
left to width 2, then `. `, the `HH:MM:SS` form of the seconds, one space, the text and a
newline. -/
def indexed_line (i : Nat) (e : TagEntry) : List Char :=
  pad_left 2 (Nat.toDigits 10 (i + 1)) ++
    ('.' :: ' ' :: (format_time e.seconds 16 ++ (' ' :: (e.text ++ [NEWLINE]))))

/-- The indexed serialization of a store: the lines of its entries, in order. -/
def indexed_format (entries : List TagEntry) : List Char :=
  (entries.enum.map fun p => indexed_line p.1 p.2).flatten

/-- The line of the indexed serialization with the index padded on the right instead. -/
def indexed_line_right_padded (i : Nat) (e : TagEntry) : List Char :=
  pad_right 2 (Nat.toDigits 10 (i + 1)) ++
    ('.' :: ' ' :: (format_time e.seconds 16 ++ (' ' :: (e.text ++ [NEWLINE]))))

/-- The indexed serialization with every index padded on the right. -/
def indexed_format_right_padded (entries : List TagEntry) : List Char :=
  (entries.enum.map fun p => indexed_line_right_padded p.1 p.2).flatten

/-- The messages that acknowledge a change of the store. -/
def reports_mutation : Msg → Bool
  | Msg.adjusted _ _ => true
  | Msg.adjustedAll _ => true
  | Msg.edited _ => true
  | Msg.deleted _ => true
  | _ => false

/-- An iteration that performed a successful mutating command: it acknowledged an
adjustment, an edit or a deletion, or it appended an entry (which prints nothing). -/
def succeeded (st : Session) (r : Outcome) : Prop :=
  r.out.any reports_mutation = true ∨ r.st.entries.length = st.entries.length + 1

/-- The two ways an iteration can end, seen from the store and the scratch file: nothing
of them is touched and no change is acknowledged, or the entries are replaced, the
autosave is called, and the change is acknowledged or an entry was appended. -/
def StepShape (st : Session) (temp_ok : Bool) (r : Outcome) : Prop :=
  (r.st.entries = st.entries ∧ r.st.temp_file = st.temp_file ∧
    r.out.any reports_mutation = false) ∨
  (r.st.temp_file = (if temp_ok then some (save_to_file r.st.entries true) else st.temp_file) ∧
    (r.out.any reports_mutation = true ∨ r.st.entries.length = st.entries.length + 1))

/-- The line `!start HH:MM:SS` for the initial offset `o`. -/
def start_line (o : Int) : List Char := cmd_start ++ (' ' :: format_time o 16)

/-- The input lines of completed pause/resume pairs, each pair given by its two instants. -/
def pause_resume_inputs : List (Int × Int) → List Input
  | [] => []
  | (p, r) :: rest => ⟨cmd_pause, p, true⟩ :: ⟨cmd_resume, r, true⟩ :: pause_resume_inputs rest

/-- The sum of the durations `r - p` of the pauses. -/
def paused_total : List (Int × Int) → Int
  | [] => 0
  | (p, r) :: rest => (r - p) + paused_total rest

/-- The session reached from the empty store by `!start` at instant 0 and `!pause` at
instant 100: paused, with a frozen elapsed time of 100 seconds. -/
def paused_session : Session :=
  run (initial []) [⟨cmd_start, 0, true⟩, ⟨cmd_pause, 100, true⟩]

/-- The command word of a trimmed line: its characters up to the first white space. -/
def command_word (t : List Char) : List Char := t.takeWhile fun c => !isspace c

/-- The ten command words of the command grammar. -/
def known_commands : List (List Char) :=
  [cmd_start, cmd_end, cmd_pause, cmd_resume, cmd_offset,
   ['!', 'p', 'r', 'e', 'v', 'i', 'o', 'u', 's'], ['!', 'p'], cmd_e,
   ['!', 'd', 'e', 'l', 'e', 't', 'e'], cmd_help]

/-- The line `!offset <±n>`, with a signed amount and no target. -/
def bare_offset_line (delta : Int) : List Char := cmd_offset ++ (' ' :: signed_text delta)

/-! ## Theorems: decimal digits, printing and scanning -/

theorem natDigitsAux_eq (n : Nat) : ∀ fuel acc, n < fuel →
    natDigitsAux fuel n acc = natDigitsAux (n + 1) n [] ++ acc := by
  induction n using Nat.strong_induction_on with
  | _ n ih =>
    intro fuel acc hf
    obtain ⟨f, rfl⟩ : ∃ f, fuel = f + 1 := ⟨fuel - 1, by omega⟩
    by_cases hn : n < 10
    · simp [natDigitsAux, hn]
    · have h10 : n / 10 < n := by omega
      have h1 := ih (n / 10) h10 f (digitChar (n % 10) :: acc) (by omega)
      have h2 := ih (n / 10) h10 n [digitChar (n % 10)] h10
      simp only [natDigitsAux, hn, if_false]
      rw [h1, h2]
      simp

theorem natDigits_lt (n : Nat) (h : n < 10) : natDigits n = [digitChar n] := by
  simp [natDigits, natDigitsAux, h]

theorem natDigits_ge (n : Nat) (h : 10 ≤ n) :
    natDigits n = natDigits (n / 10) ++ [digitChar (n % 10)] := by
  have hn : ¬ n < 10 := by omega
  have h10 : n / 10 < n := by omega
  show natDigitsAux (n + 1) n [] = natDigitsAux (n / 10 + 1) (n / 10) [] ++ _
  simp only [natDigitsAux, hn, if_false]
  exact natDigitsAux_eq (n / 10) n _ h10

theorem digitChar_toNat (d : Nat) (h : d < 10) : (digitChar d).toNat = 48 + d := by
  interval_cases d <;> rfl

theorem isdigit_digitChar (d : Nat) (h : d < 10) : isdigit (digitChar d) = true := by
  interval_cases d <;> rfl

theorem natDigits_ne_nil (n : Nat) : natDigits n ≠ [] := by
  by_cases h : n < 10
  · simp [natDigits_lt n h]
  · simp [natDigits_ge n (by omega)]

theorem natDigits_isdigit (n : Nat) : ∀ c ∈ natDigits n, isdigit c = true := by
  induction n using Nat.strong_induction_on with
  | _ n ih =>
    by_cases h : n < 10
    · simp [natDigits_lt n h, isdigit_digitChar n h]
    · rw [natDigits_ge n (by omega)]
      intro c hc
      rcases List.mem_append.1 hc with hc | hc
      · exact ih (n / 10) (by omega) c hc
      · simp only [List.mem_singleton] at hc
        subst hc
        exact isdigit_digitChar _ (Nat.mod_lt _ (by decide))

theorem natDigits_length_le (k : Nat) : ∀ n, n < 10 ^ (k + 1) → (natDigits n).length ≤ k + 1 := by
  induction k with
  | zero => intro n hn; simp [natDigits_lt n (by simpa using hn)]
  | succ k ih =>
    intro n hn
    by_cases h : n < 10
    · simp [natDigits_lt n h]
    · rw [natDigits_ge n (by omega)]
      have : n / 10 < 10 ^ (k + 1) := by
        rw [Nat.div_lt_iff_lt_mul (by decide)]
        rw [pow_succ] at hn
        exact hn
      have := ih (n / 10) this
      simp
      omega

theorem scanDigits_natDigits (n : Nat) : ∀ acc rest,
    scanDigits acc (natDigits n ++ rest) =
      scanDigits (acc * 10 ^ (natDigits n).length + n) rest := by
  induction n using Nat.strong_induction_on with
  | _ n ih =>
    intro acc rest
    by_cases h : n < 10
    · simp [natDigits_lt n h, scanDigits, isdigit_digitChar n h, digitChar_toNat n h]
    · rw [natDigits_ge n (by omega), List.append_assoc, ih (n / 10) (by omega)]
      have hd := Nat.mod_lt n (show 10 > 0 by decide)
      simp only [List.singleton_append, scanDigits, isdigit_digitChar _ hd, if_true,
        digitChar_toNat _ hd, List.length_append, List.length_singleton]
      congr 1
      rw [pow_succ]
      have := Nat.div_add_mod n 10
      have e : 48 + n % 10 - 48 = n % 10 := by omega
      rw [e]
      generalize 10 ^ (natDigits (n / 10)).length = p at *
      nlinarith [Nat.div_add_mod n 10]

theorem scanDigits_zeros (k : Nat) (l : List Char) :
    scanDigits 0 (List.replicate k '0' ++ l) = scanDigits 0 l := by
  induction k with
  | zero => simp
  | succ k ih =>
    rw [List.replicate_succ, List.cons_append, scanDigits]
    have : isdigit '0' = true := by rfl
    simp [this, ih]

theorem scanDigits_stop (acc : Nat) (rest : List Char)
    (h : ∀ c, rest.head? = some c → isdigit c = false) : scanDigits acc rest = (acc, rest) := by
  cases rest with
  | nil => rfl
  | cons c cs => simp [scanDigits, h c rfl]

theorem isdigit_not_space (c : Char) (h : isdigit c = true) : isspace c = false := by
  simp only [isdigit, isspace, decide_eq_true_eq, decide_eq_false_iff_not] at *
  omega

theorem isdigit_ne_minus (c : Char) (h : isdigit c = true) : c ≠ '-' := by
  intro e; subst e; revert h; decide

theorem isdigit_ne_plus (c : Char) (h : isdigit c = true) : c ≠ '+' := by
  intro e; subst e; revert h; decide

theorem dropWhile_isspace_cons (c : Char) (l : List Char) (h : isspace c = false) :
    (c :: l).dropWhile isspace = c :: l := by
  simp [List.dropWhile, h]

theorem scan_long_cons (c : Char) (l : List Char) (h : isspace c = false) :
    scan_long (c :: l) =
      if c = '-' then scan_unsigned true l
      else if c = '+' then scan_unsigned false l
      else scan_unsigned false (c :: l) := by
  unfold scan_long
  rw [dropWhile_isspace_cons c l h]

theorem paddedDigits_cons (b n : Nat) :
    ∃ c cs, paddedDigits b n = c :: cs ∧ isdigit c = true := by
  cases b with
  | zero =>
    have hne := natDigits_ne_nil n
    have hd := natDigits_isdigit n
    cases hl : natDigits n with
    | nil => exact absurd hl hne
    | cons c cs =>
      refine ⟨c, cs, by simp [paddedDigits, hl], hd c (by simp [hl])⟩
  | succ b =>
    exact ⟨'0', List.replicate b '0' ++ natDigits n, by simp [paddedDigits, List.replicate_succ], by rfl⟩

theorem scanDigits_padded (b n : Nat) (rest : List Char)
    (h : ∀ c, rest.head? = some c → isdigit c = false) :
    scanDigits 0 (paddedDigits b n ++ rest) = (n, rest) := by
  rw [paddedDigits, List.append_assoc, scanDigits_zeros, scanDigits_natDigits,
    scanDigits_stop _ _ h]
  simp

theorem scan_unsigned_padded (neg : Bool) (b n : Nat) (rest : List Char)
    (h : ∀ c, rest.head? = some c → isdigit c = false) :
    scan_unsigned neg (paddedDigits b n ++ rest) =
      some (clampLong (if neg then -(n : Int) else (n : Int)), rest) := by
  obtain ⟨c, cs, hc, hd⟩ := paddedDigits_cons b n
  have hs := scanDigits_padded b n rest h
  rw [hc] at hs ⊢
  simp only [List.cons_append] at hs ⊢
  simp only [scan_unsigned, hd, if_true, hs]

theorem scan_long_padded (b n : Nat) (rest : List Char)
    (h : ∀ c, rest.head? = some c → isdigit c = false) :
    scan_long (paddedDigits b n ++ rest) = some (clampLong (n : Int), rest) := by
  have hu := scan_unsigned_padded false b n rest h
  obtain ⟨c, cs, hc, hd⟩ := paddedDigits_cons b n
  rw [hc] at hu ⊢
  simp only [List.cons_append] at hu ⊢
  rw [scan_long_cons c _ (isdigit_not_space c hd), if_neg (isdigit_ne_minus c hd),
    if_neg (isdigit_ne_plus c hd), hu]
  simp

theorem scan_long_minus (b n : Nat) (rest : List Char)
    (h : ∀ c, rest.head? = some c → isdigit c = false) :
    scan_long ('-' :: (paddedDigits b n ++ rest)) = some (clampLong (-(n : Int)), rest) := by
  have hu := scan_unsigned_padded true b n rest h
  have hsp : isspace '-' = false := by rfl
  rw [scan_long_cons _ _ hsp, if_pos rfl, hu]
  simp

theorem scan_long_blanks (a : Nat) (l : List Char) :
    scan_long (List.replicate a ' ' ++ l) = scan_long l := by
  have hsp : isspace ' ' = true := by rfl
  induction a with
  | zero => simp
  | succ a ih =>
    rw [List.replicate_succ, List.cons_append]
    rw [scan_long] at ih ⊢
    simp only [List.dropWhile_cons, hsp, if_true]
    exact ih

theorem printf_d_nonneg (zero : Bool) (width : Nat) (v : Int) (hv : 0 ≤ v) :
    ∃ a b, printf_d zero width v = List.replicate a ' ' ++ paddedDigits b v.toNat := by
  have hn : ¬ v < 0 := by omega
  have habs : v.natAbs = v.toNat := by omega
  cases zero with
  | true => exact ⟨0, width - (0 + (natDigits v.toNat).length), by simp [printf_d, hn, habs, paddedDigits]⟩
  | false => exact ⟨width - (0 + (natDigits v.toNat).length), 0, by simp [printf_d, hn, habs, paddedDigits]⟩

theorem printf_d_neg (zero : Bool) (width : Nat) (v : Int) (hv : v < 0) :
    ∃ a b, printf_d zero width v =
      List.replicate a ' ' ++ ('-' :: paddedDigits b v.natAbs) := by
  cases zero with
  | true => exact ⟨0, width - (1 + (natDigits v.natAbs).length), by simp [printf_d, hv, paddedDigits]⟩
  | false => exact ⟨width - (1 + (natDigits v.natAbs).length), 0, by simp [printf_d, hv, paddedDigits]⟩

theorem clampLong_id (v : Int) (h1 : LONG_MIN ≤ v) (h2 : v ≤ LONG_MAX) : clampLong v = v := by
  unfold clampLong
  rw [if_neg (by omega), if_neg (by omega)]

theorem wrap32_id (v : Int) (h1 : -2147483648 ≤ v) (h2 : v ≤ 2147483647) : wrap32 v = v := by
  unfold wrap32
  omega

theorem wrap64_id (v : Int) (h1 : -9223372036854775808 ≤ v) (h2 : v ≤ 9223372036854775807) :
    wrap64 v = v := by
  unfold wrap64
  omega

/-- Reading back a printed number: `strtol` on the output of `printf("%d")` (with any
width and flag) followed by a non-digit returns the number, clamped to `long`. -/
theorem scan_long_printf_d (zero : Bool) (width : Nat) (v : Int) (rest : List Char)
    (h : ∀ c, rest.head? = some c → isdigit c = false) :
    scan_long (printf_d zero width v ++ rest) = some (clampLong v, rest) := by
  by_cases hv : v < 0
  · obtain ⟨a, b, e⟩ := printf_d_neg zero width v hv
    rw [e, List.append_assoc, scan_long_blanks, List.cons_append, scan_long_minus _ _ _ h]
    congr 3
    omega
  · obtain ⟨a, b, e⟩ := printf_d_nonneg zero width v (by omega)
    rw [e, List.append_assoc, scan_long_blanks, scan_long_padded _ _ _ h]
    congr 3
    omega

/-- The conversion `%d` reads back an `int` printed by `printf`. -/
theorem scan_d_printf_d (zero : Bool) (width : Nat) (v : Int) (rest : List Char)
    (h1 : -2147483648 ≤ v) (h2 : v ≤ 2147483647)
    (h : ∀ c, rest.head? = some c → isdigit c = false) :
    scan_d (printf_d zero width v ++ rest) = some (v, rest) := by
  simp only [scan_d, scan_long_printf_d zero width v rest h]
  rw [clampLong_id v (by unfold LONG_MIN; omega) (by unfold LONG_MAX; omega), wrap32_id v h1 h2]

theorem printf_d_length_le (v : Int) (k : Nat) (h0 : 0 ≤ v) (hk : v.toNat < 10 ^ (k + 1)) :
    (printf_d true 2 v).length ≤ max 2 (k + 1) := by
  have hn : ¬ v < 0 := by omega
  have habs : v.natAbs = v.toNat := by omega
  have := natDigits_length_le k v.toNat hk
  simp only [printf_d, hn, if_false, habs, if_true, List.nil_append, List.length_append,
    List.length_replicate, List.length_nil]
  omega

theorem not_isdigit_colon : ∀ c, (':' :: l : List Char).head? = some c → isdigit c = false := by
  intro c hc
  simp only [List.head?_cons, Option.some.injEq] at hc
  subst hc
  rfl

theorem not_isdigit_nil : ∀ c, ([] : List Char).head? = some c → isdigit c = false := by
  intro c hc
  simp at hc

/-- The three fields written by `format_time` are read back by `"%d:%d:%d"`. -/
theorem sscanf_hms_printf (h m s : Int) (hh : 0 ≤ h ∧ h ≤ 2147483647)
    (hm : 0 ≤ m ∧ m ≤ 2147483647) (hs : 0 ≤ s ∧ s ≤ 2147483647) :
    sscanf fmt_hms (printf_d true 2 h ++ (':' :: (printf_d true 2 m ++ (':' :: printf_d true 2 s))))
      = [Val.int h, Val.int m, Val.int s] := by
  have e3 : scan_d (printf_d true 2 s) = some (s, []) := by
    have := scan_d_printf_d true 2 s [] (by omega) hs.2 not_isdigit_nil
    simpa using this
  simp only [fmt_hms, sscanf,
    scan_d_printf_d true 2 h _ (by omega) hh.2 not_isdigit_colon,
    scan_d_printf_d true 2 m _ (by omega) hm.2 not_isdigit_colon, e3, if_true]

theorem format_time_eq (seconds : Int) (h0 : 0 ≤ seconds) (h1 : seconds ≤ 2147483647) :
    format_time seconds 16 =
      printf_d true 2 (seconds / 3600) ++
        (':' :: (printf_d true 2 (seconds % 3600 / 60) ++ (':' :: printf_d true 2 (seconds % 60)))) := by
  have hn : ¬ seconds < 0 := by omega
  have lh := printf_d_length_le (seconds / 3600) 5 (by omega) (by norm_num; omega)
  have lm := printf_d_length_le (seconds % 3600 / 60) 1 (by omega) (by norm_num; omega)
  have ls := printf_d_length_le (seconds % 60) 1 (by omega) (by norm_num; omega)
  simp only [format_time, hn, if_false, snprintf]
  apply List.take_of_length_le
  simp only [List.length_append, List.length_cons]
  simp at lh lm ls
  omega

theorem load_validate_hms (seconds : Int) (h0 : 0 ≤ seconds) (h1 : seconds ≤ 2147483647) :
    load_validate (seconds / 3600) (seconds % 3600 / 60) (seconds % 60) = TsResult.ok seconds := by
  have c : ¬ (seconds / 3600 < 0 ∨ seconds % 3600 / 60 < 0 ∨ seconds % 3600 / 60 > 59 ∨
      seconds % 60 < 0 ∨ seconds % 60 > 59) := by omega
  have e1 : wrap64 (seconds / 3600 * 3600) = seconds / 3600 * 3600 := wrap64_id _ (by omega) (by omega)
  have e2 : wrap32 (seconds % 3600 / 60 * 60) = seconds % 3600 / 60 * 60 := wrap32_id _ (by omega) (by omega)
  have e3 : seconds / 3600 * 3600 + seconds % 3600 / 60 * 60 + seconds % 60 = seconds := by omega
  have e4 : wrap64 (seconds / 3600 * 3600 + seconds % 3600 / 60 * 60) =
      seconds / 3600 * 3600 + seconds % 3600 / 60 * 60 := wrap64_id _ (by omega) (by omega)
  simp only [load_validate, c, if_false, e1, e2, e4, e3, INT_MAX]
  rw [wrap64_id _ (by omega) (by omega), if_neg (by omega), wrap32_id _ (by omega) h1]

theorem dropWhile_isspace_idem (l : List Char) :
    (l.dropWhile isspace).dropWhile isspace = l.dropWhile isspace := by
  induction l with
  | nil => rfl
  | cons c cs ih =>
    by_cases h : isspace c = true
    · simp only [List.dropWhile_cons, h, if_true, ih]
    · simp only [List.dropWhile_cons, h, if_false, Bool.false_eq_true]

theorem scan_d_dropWhile (l : List Char) : scan_d (l.dropWhile isspace) = scan_d l := by
  simp only [scan_d, scan_long, dropWhile_isspace_idem]

/-- White space in a format before `%d` is redundant: `%d` skips it by itself. -/
theorem sscanf_ws_d (fmt : List Dir) (l : List Char) :
    sscanf (Dir.ws :: Dir.d :: fmt) l = sscanf (Dir.d :: fmt) l := by
  simp only [sscanf, scan_d_dropWhile]

theorem sscanf_start_line (l : List Char) :
    sscanf fmt_start (cmd_start ++ (' ' :: l)) = sscanf fmt_hms l := by
  have hsp : isspace ' ' = true := by rfl
  have e : sscanf fmt_start (cmd_start ++ (' ' :: l)) =
      sscanf (Dir.ws :: fmt_hms) (' ' :: l) := by
    simp [fmt_start, fmt_hms, cmd_start, sscanf]
  rw [e, fmt_hms, sscanf_ws_d]
  simp only [sscanf, scan_d, scan_long, List.dropWhile_cons, hsp, if_true]

theorem start_validate_eq (h m s : Int) : start_validate h m s = load_validate h m s := rfl

/-- The loader reads back a timestamp written by `format_time`. -/
theorem load_timestamp_format_time (seconds : Int) (h0 : 0 ≤ seconds)
    (h1 : seconds ≤ 2147483647) :
    load_timestamp (format_time seconds 16) = some (TsResult.ok seconds) := by
  have hsc := sscanf_hms_printf (seconds / 3600) (seconds % 3600 / 60) (seconds % 60)
    (by omega) (by omega) (by omega)
  rw [format_time_eq seconds h0 h1, load_timestamp, hsc]
  exact congrArg some (load_validate_hms seconds h0 h1)

/-- The command `!start` reads back a timestamp written by `format_time`. -/
theorem start_timestamp_format_time (seconds : Int) (h0 : 0 ≤ seconds)
    (h1 : seconds ≤ 2147483647) :
    start_timestamp (cmd_start ++ (' ' :: format_time seconds 16)) =
      some (TsResult.ok seconds) := by
  have hsc := sscanf_hms_printf (seconds / 3600) (seconds % 3600 / 60) (seconds % 60)
    (by omega) (by omega) (by omega)
  rw [start_timestamp, sscanf_start_line, format_time_eq seconds h0 h1, hsc]
  exact congrArg some (load_validate_hms seconds h0 h1)

/-- Claim C1. Timestamp round trip: for every `seconds` in `[0, 2^31-1]`, the text written by
`format_time` is accepted by the timestamp validation of the loader (`"%d:%d:%d"` and
lines 70-79) and by that of `!start` (`"!start %d:%d:%d"` and lines 210-219), and both
return exactly `seconds`. -/
theorem format_time_roundtrip (seconds : Int) (h0 : 0 ≤ seconds) (h1 : seconds ≤ 2147483647) :
    load_timestamp (format_time seconds 16) = some (TsResult.ok seconds) ∧
    start_timestamp (cmd_start ++ (' ' :: format_time seconds 16)) =
      some (TsResult.ok seconds) :=
  ⟨load_timestamp_format_time seconds h0 h1, start_timestamp_format_time seconds h0 h1⟩

theorem format_time_roundtrip_witness :
    load_timestamp (format_time 3661 16) = some (TsResult.ok 3661) ∧
    start_timestamp (cmd_start ++ (' ' :: format_time 3661 16)) = some (TsResult.ok 3661) :=
  format_time_roundtrip 3661 (by decide) (by decide)

/-! ## Theorems: timestamp validation -/

theorem load_validate_eq (h m s : Int) (hh : -2147483648 ≤ h ∧ h ≤ 2147483647) :
    load_validate h m s =
      if h < 0 ∨ m < 0 ∨ m > 59 ∨ s < 0 ∨ s > 59 then TsResult.error TsError.InvalidTimestamp
      else if h * 3600 + m * 60 + s > 2147483647 then TsResult.error TsError.Overflow
      else TsResult.ok (h * 3600 + m * 60 + s) := by
  unfold load_validate
  by_cases c : h < 0 ∨ m < 0 ∨ m > 59 ∨ s < 0 ∨ s > 59
  · rw [if_pos c, if_pos c]
  · rw [if_neg c, if_neg c]
    have e1 : wrap64 (h * 3600) = h * 3600 := wrap64_id _ (by omega) (by omega)
    have e2 : wrap32 (m * 60) = m * 60 := wrap32_id _ (by omega) (by omega)
    have e3 : wrap64 (h * 3600 + m * 60) = h * 3600 + m * 60 := wrap64_id _ (by omega) (by omega)
    have e4 : wrap64 (h * 3600 + m * 60 + s) = h * 3600 + m * 60 + s :=
      wrap64_id _ (by omega) (by omega)
    simp only [e1, e2, e3, e4, INT_MAX]
    by_cases o : h * 3600 + m * 60 + s > 2147483647
    · rw [if_pos o, if_pos o]
    · rw [if_neg o, if_neg o, wrap32_id _ (by omega) (by omega)]

/-- Claim C2. Timestamp parse validation. For three scanned fields, the first in the `int` range, the
validation of the loader succeeds exactly when `h ≥ 0`, `0 ≤ m, s ≤ 59` and
`h*3600 + m*60 + s ≤ 2^31-1`, and then returns that total; it answers `InvalidTimestamp`
exactly when a field is out of range and `Overflow` exactly when the fields are in range
and the total exceeds `2^31-1`. The validation of `!start` is the same function. -/
theorem timestamp_validation (h m s : Int) (hh : -2147483648 ≤ h ∧ h ≤ 2147483647) :
    (∀ v, load_validate h m s = TsResult.ok v ↔
      (0 ≤ h ∧ 0 ≤ m ∧ m ≤ 59 ∧ 0 ≤ s ∧ s ≤ 59 ∧ h * 3600 + m * 60 + s ≤ 2147483647 ∧
        v = h * 3600 + m * 60 + s)) ∧
    (load_validate h m s = TsResult.error TsError.InvalidTimestamp ↔
      (h < 0 ∨ m < 0 ∨ m > 59 ∨ s < 0 ∨ s > 59)) ∧
    (load_validate h m s = TsResult.error TsError.Overflow ↔
      (0 ≤ h ∧ 0 ≤ m ∧ m ≤ 59 ∧ 0 ≤ s ∧ s ≤ 59 ∧ h * 3600 + m * 60 + s > 2147483647)) ∧
    start_validate h m s = load_validate h m s := by
  rw [load_validate_eq h m s hh]
  refine ⟨?_, ?_, ?_, (start_validate_eq h m s).trans (load_validate_eq h m s hh)⟩
  · intro v
    by_cases c : h < 0 ∨ m < 0 ∨ m > 59 ∨ s < 0 ∨ s > 59
    · rw [if_pos c]
      constructor
      · intro e; cases e
      · intro e; omega
    · rw [if_neg c]
      by_cases o : h * 3600 + m * 60 + s > 2147483647
      · rw [if_pos o]
        constructor
        · intro e; cases e
        · intro e; omega
      · rw [if_neg o]
        constructor
        · intro e
          injection e with e
          omega
        · intro e
          rw [e.2.2.2.2.2.2]
  · by_cases c : h < 0 ∨ m < 0 ∨ m > 59 ∨ s < 0 ∨ s > 59
    · rw [if_pos c]
      exact ⟨fun _ => c, fun _ => rfl⟩
    · rw [if_neg c]
      by_cases o : h * 3600 + m * 60 + s > 2147483647
      · rw [if_pos o]
        exact ⟨fun e => (by cases e), fun e => absurd e c⟩
      · rw [if_neg o]
        exact ⟨fun e => (by cases e), fun e => absurd e c⟩
  · by_cases c : h < 0 ∨ m < 0 ∨ m > 59 ∨ s < 0 ∨ s > 59
    · rw [if_pos c]
      constructor
      · intro e; cases e
      · intro e; omega
    · rw [if_neg c]
      by_cases o : h * 3600 + m * 60 + s > 2147483647
      · rw [if_pos o]
        exact ⟨fun _ => by omega, fun _ => rfl⟩
      · rw [if_neg o]
        constructor
        · intro e; cases e
        · intro e; omega

theorem timestamp_validation_witness :
    (∀ v, load_validate 596523 14 8 = TsResult.ok v ↔
      ((0 : Int) ≤ 596523 ∧ (0 : Int) ≤ 14 ∧ (14 : Int) ≤ 59 ∧ (0 : Int) ≤ 8 ∧ (8 : Int) ≤ 59 ∧
        (596523 : Int) * 3600 + 14 * 60 + 8 ≤ 2147483647 ∧
        v = 596523 * 3600 + 14 * 60 + 8)) ∧
    (load_validate 596523 14 8 = TsResult.error TsError.InvalidTimestamp ↔
      ((596523 : Int) < 0 ∨ (14 : Int) < 0 ∨ (14 : Int) > 59 ∨ (8 : Int) < 0 ∨ (8 : Int) > 59)) ∧
    (load_validate 596523 14 8 = TsResult.error TsError.Overflow ↔
      ((0 : Int) ≤ 596523 ∧ (0 : Int) ≤ 14 ∧ (14 : Int) ≤ 59 ∧ (0 : Int) ≤ 8 ∧ (8 : Int) ≤ 59 ∧
        (596523 : Int) * 3600 + 14 * 60 + 8 > 2147483647)) ∧
    start_validate 596523 14 8 = load_validate 596523 14 8 :=
  timestamp_validation 596523 14 8 (by decide)

/-! ## Theorems: lines and trimming -/

theorem rstrip_concat (l : List Char) (x : Char) (hx : isspace x = false) :
    rstrip (l ++ [x]) = l ++ [x] := by
  simp [rstrip, List.dropWhile, hx]

theorem rstrip_id (l : List Char) (h : ∀ x, l.getLast? = some x → isspace x = false) :
    rstrip l = l := by
  rcases List.eq_nil_or_concat l with e | ⟨L, b, e⟩
  · subst e; rfl
  · subst e
    rw [List.concat_eq_append] at h ⊢
    exact rstrip_concat L b (h b (by simp))

/-- A line that neither starts nor ends with white space is left unchanged by
`trim_whitespace`. -/
theorem trim_whitespace_id (c : Char) (cs : List Char) (hc : isspace c = false)
    (hl : ∀ x, cs.getLast? = some x → isspace x = false) :
    trim_whitespace (c :: cs) = c :: cs := by
  unfold trim_whitespace
  rw [dropWhile_isspace_cons c cs hc]
  simp only
  rw [rstrip_id cs hl]

theorem printf_d_concat (zero : Bool) (width : Nat) (v : Int) :
    ∃ l d, printf_d zero width v = l ++ [d] ∧ isdigit d = true := by
  have hnd : ∃ l d, natDigits v.natAbs = l ++ [d] ∧ isdigit d = true := by
    by_cases h : v.natAbs < 10
    · exact ⟨[], digitChar v.natAbs, by simp [natDigits_lt _ h], isdigit_digitChar _ h⟩
    · exact ⟨natDigits (v.natAbs / 10), digitChar (v.natAbs % 10), natDigits_ge _ (by omega),
        isdigit_digitChar _ (Nat.mod_lt _ (by decide))⟩
  obtain ⟨l, d, e, hd⟩ := hnd
  by_cases hv : v < 0
  · obtain ⟨a, b, e1⟩ := printf_d_neg zero width v hv
    exact ⟨List.replicate a ' ' ++ ('-' :: (List.replicate b '0' ++ l)), d,
      by rw [e1, paddedDigits, e]; simp, hd⟩
  · obtain ⟨a, b, e1⟩ := printf_d_nonneg zero width v (by omega)
    have e2 : v.toNat = v.natAbs := by omega
    exact ⟨List.replicate a ' ' ++ (List.replicate b '0' ++ l), d,
      by rw [e1, paddedDigits, e2, e]; simp, hd⟩

theorem printf_d_getLast (zero : Bool) (width : Nat) (v : Int) (pre : List Char) :
    ∀ x, (pre ++ printf_d zero width v).getLast? = some x → isspace x = false := by
  obtain ⟨l, d, e, hd⟩ := printf_d_concat zero width v
  intro x hx
  rw [e, ← List.append_assoc, List.getLast?_append] at hx
  simp at hx
  subst hx
  exact isdigit_not_space _ hd

theorem printf_d_plain_length (v : Int) (h1 : -2147483648 ≤ v) (h2 : v ≤ 2147483647) :
    (printf_d false 0 v).length ≤ 11 := by
  have := natDigits_length_le 9 v.natAbs (by norm_num; omega)
  by_cases hv : v < 0 <;> simp [printf_d, hv] <;> omega

/-- A started session passes a trimmed line that is not one of the session commands to
the dispatch of lines 270-408. -/
theorem step_eq_dispatch (st : Session) (inp : Input) (t : List Char)
    (ht : trim_whitespace (inp.line.take (MAX_LINE - 1)) = t) (hs : st.started = true)
    (h0 : t ≠ []) (h1 : t ≠ cmd_help) (h2 : t ≠ cmd_end) (h3 : t.take 6 ≠ cmd_start)
    (h4 : t ≠ cmd_pause) (h5 : t ≠ cmd_resume) :
    step st inp = dispatch st t inp.now inp.temp_ok := by
  simp only [step, ht, h0, h1, h2, h3, h4, h5, hs, if_false, Bool.not_true, Bool.false_eq_true]

/-! ## Theorems: delete -/

theorem shift_down_length (k : Nat) : ∀ i es, (shift_down k i es).length = es.length := by
  induction k with
  | zero => intro i es; rfl
  | succ k ih => intro i es; simp [shift_down, ih]

theorem shift_down_getElem? (k : Nat) : ∀ i (es : List TagEntry) (j : Nat), i + k < es.length →
    (shift_down k i es)[j]? = if i ≤ j ∧ j < i + k then es[j + 1]? else es[j]? := by
  induction k with
  | zero =>
    intro i es j _
    rw [shift_down, if_neg (by omega)]
  | succ k ih =>
    intro i es j h
    rw [shift_down, ih (i + 1) _ j (by simp; omega)]
    have hx : es.getD (i + 1) default = es[i + 1] := by
      rw [List.getD_eq_getElem?_getD, List.getElem?_eq_getElem (by omega)]
      rfl
    by_cases c1 : i + 1 ≤ j ∧ j < i + 1 + k
    · rw [if_pos c1, if_pos (by omega), List.getElem?_set_ne (by omega)]
    · rw [if_neg c1]
      by_cases c2 : j = i
      · subst c2
        rw [if_pos (by omega), List.getElem?_set_self (by omega), hx,
          List.getElem?_eq_getElem (by omega)]
      · rw [if_neg (by omega), List.getElem?_set_ne (by omega)]

/-- The shifting loop and the decrement of `entry_count` remove exactly the entry at
`del_index`. -/
theorem delete_at_eq_eraseIdx (es : List TagEntry) (k : Nat) (hk : k < es.length) :
    delete_at es k = es.eraseIdx k := by
  apply List.ext_getElem?
  intro j
  rw [delete_at, List.getElem?_take, List.getElem?_eraseIdx,
    shift_down_getElem? _ _ _ _ (by omega)]
  by_cases c : j < es.length - 1
  · rw [if_pos c]
    by_cases c2 : j < k
    · rw [if_neg (by omega), if_pos c2]
    · rw [if_pos (by omega), if_neg c2]
  · rw [if_neg c]
    by_cases c2 : j < k
    · omega
    · rw [if_neg c2, List.getElem?_eq_none (by omega)]

theorem delete_line_trim (i : Int) (h1 : -2147483648 ≤ i) (h2 : i ≤ 2147483647) :
    trim_whitespace ((cmd_delete ++ printf_d false 0 i).take (MAX_LINE - 1)) =
      cmd_delete ++ printf_d false 0 i := by
  have hl := printf_d_plain_length i h1 h2
  rw [List.take_of_length_le (by simp [cmd_delete]; omega)]
  have hlast := printf_d_getLast false 0 i ['d', 'e', 'l', 'e', 't', 'e', ' ']
  exact trim_whitespace_id '!' _ (by rfl) hlast

theorem dispatch_delete (st : Session) (l : List Char) (now : Int) (ok : Bool) :
    dispatch st (cmd_delete ++ l) now ok = handle_delete st (cmd_delete ++ l) ok := by
  simp [dispatch, cmd_delete, scan_offset, sscanf, fmt_offset_n, fmt_p, fmt_previous,
    fmt_offset_s, cmd_e]

/-- In a started session the line `!delete <i>` reaches lines 360-379 with `del_index`
equal to `i - 1`. -/
theorem step_delete_line (st : Session) (i : Int) (now : Int) (ok : Bool)
    (hs : st.started = true) (h1 : -2147483648 ≤ i) (h2 : i ≤ 2147483647) :
    step st ⟨cmd_delete ++ printf_d false 0 i, now, ok⟩ =
      if wrap32 (i - 1) < 0 ∨ wrap32 (i - 1) ≥ st.entries.length then cont st [Msg.invalidIndex]
      else cont (autosave { st with entries := delete_at st.entries (wrap32 (i - 1)).toNat } ok)
        [Msg.deleted (wrap32 (i - 1) + 1)] := by
  rw [step_eq_dispatch st _ _ (delete_line_trim i h1 h2) hs (by simp [cmd_delete])
    (by simp [cmd_delete, cmd_help]) (by simp [cmd_delete, cmd_end])
    (by simp [cmd_delete, cmd_start]) (by simp [cmd_delete, cmd_pause])
    (by simp [cmd_delete, cmd_resume]), dispatch_delete]
  have e : sscanf [Dir.d] ((cmd_delete ++ printf_d false 0 i).drop 8) = [Val.int i] := by
    rw [List.drop_left' (by rfl)]
    have := scan_d_printf_d false 0 i [] h1 h2 not_isdigit_nil
    simp only [List.append_nil] at this
    simp only [sscanf, this]
  simp only [handle_delete, e]

@[simp] theorem autosave_entries (st : Session) (ok : Bool) :
    (autosave st ok).entries = st.entries := by
  unfold autosave
  split <;> rfl

/-- Claim C3, amended. Delete. In a started session whose store holds `count ≤ 1000`
entries, the line `!delete <i>` (with `i` any integer that fits a 32-bit `int`, written in
decimal) prints "Invalid tag index."
and leaves the whole state unchanged when `i` is outside `[1, count]`; otherwise the new
store has `count - 1` entries, the entry at each 1-based position `j < i` is unchanged and
the entry formerly at each position `j > i` is now at position `j - 1`. -/
theorem delete_command (st : Session) (i : Int) (now : Int) (ok : Bool)
    (hs : st.started = true) (hc : st.entries.length ≤ MAX_ENTRIES)
    (h1 : -2147483648 ≤ i) (h2 : i ≤ 2147483647) :
    ((i < 1 ∨ i > st.entries.length) →
      step st ⟨cmd_delete ++ printf_d false 0 i, now, ok⟩ = cont st [Msg.invalidIndex]) ∧
    ((1 ≤ i ∧ i ≤ st.entries.length) →
      (step st ⟨cmd_delete ++ printf_d false 0 i, now, ok⟩).st.entries.length
          = st.entries.length - 1 ∧
      (∀ j : Nat, 1 ≤ j → (j : Int) < i →
        (step st ⟨cmd_delete ++ printf_d false 0 i, now, ok⟩).st.entries[j - 1]?
          = st.entries[j - 1]?) ∧
      (∀ j : Nat, i < (j : Int) → j ≤ st.entries.length →
        (step st ⟨cmd_delete ++ printf_d false 0 i, now, ok⟩).st.entries[j - 2]?
          = st.entries[j - 1]?)) := by
  rw [step_delete_line st i now ok hs h1 h2]
  simp only [MAX_ENTRIES] at hc
  constructor
  · intro h
    rw [if_pos]
    unfold wrap32
    omega
  · intro h
    have e : wrap32 (i - 1) = i - 1 := wrap32_id _ (by omega) (by omega)
    have hk : (i - 1).toNat < st.entries.length := by omega
    rw [e, if_neg (by omega)]
    simp only [cont, autosave_entries, delete_at_eq_eraseIdx _ _ hk]
    refine ⟨?_, ?_, ?_⟩
    · rw [List.length_eraseIdx, if_pos hk]
    · intro j hj1 hj2
      rw [List.getElem?_eraseIdx, if_pos (by omega)]
    · intro j hj1 hj2
      rw [List.getElem?_eraseIdx, if_neg (by omega)]
      congr 1
      omega

set_option maxRecDepth 100000 in
/-- Claim C3, counterexample. On the sample store of three entries the line
`!delete 4294967297` names an index outside `[1, 3]`, so the claim has it rejected with the
invalid-index diagnostic and the store unchanged. The index is read with `%d` into an `int`,
where 4294967297 becomes 1: the line is accepted and tag 1 is deleted. -/
theorem delete_index_overflow_counterexample :
    cmd_delete ++ printf_d false 0 4294967297 =
      ['!', 'd', 'e', 'l', 'e', 't', 'e', ' ', '4', '2', '9', '4', '9', '6', '7', '2', '9', '7'] ∧
    sample_session.entries.length = 3 ∧
    ((4294967297 : Int) < 1 ∨ (4294967297 : Int) > sample_session.entries.length) ∧
    step sample_session ⟨cmd_delete ++ printf_d false 0 4294967297, 0, true⟩ ≠
      cont sample_session [Msg.invalidIndex] ∧
    (step sample_session ⟨cmd_delete ++ printf_d false 0 4294967297, 0, true⟩).out =
      [Msg.deleted 1] ∧
    (step sample_session ⟨cmd_delete ++ printf_d false 0 4294967297, 0, true⟩).st.entries =
      [⟨20, ['w', 'o', 'r', 'l', 'd']⟩, ⟨30, ['x']⟩] := by
  decide

/-! ## Theorems: offset of one entry -/

theorem natAbs_cast_bounds (d : Int) (h1 : -2147483647 ≤ d) (h2 : d ≤ 2147483647) :
    -2147483648 ≤ (d.natAbs : Int) ∧ (d.natAbs : Int) ≤ 2147483647 := by
  omega

theorem sscanf_signed_text (delta : Int) (h1 : -2147483647 ≤ delta) (h2 : delta ≤ 2147483647) :
    sscanf [Dir.c, Dir.d] (signed_text delta) =
      [Val.chr (if delta < 0 then '-' else '+'), Val.int (delta.natAbs : Int)] := by
  have hb := natAbs_cast_bounds delta h1 h2
  have := scan_d_printf_d false 0 (delta.natAbs : Int) [] hb.1 hb.2 not_isdigit_nil
  simp only [List.append_nil] at this
  simp only [signed_text, sscanf, this]

theorem signed_text_getLast (delta : Int) (pre : List Char) :
    ∀ x, (pre ++ signed_text delta).getLast? = some x → isspace x = false := by
  have := printf_d_getLast false 0 (delta.natAbs : Int) (pre ++ [if delta < 0 then '-' else '+'])
  simpa [signed_text] using this

theorem signed_text_length (delta : Int) (h1 : -2147483647 ≤ delta) (h2 : delta ≤ 2147483647) :
    (signed_text delta).length ≤ 12 := by
  have hb := natAbs_cast_bounds delta h1 h2
  have := printf_d_plain_length (delta.natAbs : Int) hb.1 hb.2
  simp only [signed_text, List.length_cons]
  omega

/-- The amount computed at line 279 from the scanned sign and digits. -/
theorem delta_of_signed (delta : Int) (h1 : -2147483647 ≤ delta) (h2 : delta ≤ 2147483647) :
    (if (if delta < 0 then '-' else '+') = '-' then wrap32 (-(delta.natAbs : Int))
      else (delta.natAbs : Int)) = delta := by
  by_cases h : delta < 0
  · simp only [h, if_true]
    rw [wrap32_id _ (by omega) (by omega)]
    omega
  · simp only [h, if_false]
    rw [if_neg (by decide)]
    omega

theorem scan_offset_offset_line (i delta : Int) (hi1 : -2147483648 ≤ i) (hi2 : i ≤ 2147483647)
    (h1 : -2147483647 ≤ delta) (h2 : delta ≤ 2147483647) :
    scan_offset (offset_line i delta) =
      some ⟨i, if delta < 0 then '-' else '+', (delta.natAbs : Int), []⟩ := by
  have hsp : isspace ' ' = true := by rfl
  have hrest : ∀ c, (' ' :: signed_text delta).head? = some c → isdigit c = false := by
    intro c hc
    simp only [List.head?_cons, Option.some.injEq] at hc
    subst hc
    rfl
  have hd := scan_d_printf_d false 0 i (' ' :: signed_text delta) hi1 hi2 hrest
  have hsg : (signed_text delta).dropWhile isspace = signed_text delta := by
    unfold signed_text
    apply dropWhile_isspace_cons
    split <;> rfl
  have hs := sscanf_signed_text delta h1 h2
  have e : sscanf fmt_offset_n (offset_line i delta) =
      [Val.int i, Val.chr (if delta < 0 then '-' else '+'), Val.int (delta.natAbs : Int)] := by
    have e1 : sscanf fmt_offset_n (offset_line i delta) =
        sscanf [Dir.ws, Dir.d, Dir.ws, Dir.c, Dir.d]
          (' ' :: (printf_d false 0 i ++ (' ' :: signed_text delta))) := by
      simp [fmt_offset_n, offset_line, cmd_offset, sscanf]
    rw [e1, sscanf_ws_d]
    have e2 : scan_d (' ' :: (printf_d false 0 i ++ (' ' :: signed_text delta))) =
        some (i, ' ' :: signed_text delta) := by
      rw [← hd, ← scan_d_dropWhile (' ' :: _), List.dropWhile_cons, if_pos hsp, scan_d_dropWhile]
    rw [sscanf, e2]
    simp only
    rw [sscanf, List.dropWhile_cons, if_pos hsp, hsg, hs]
  rw [scan_offset, e]

theorem signed_text_dropWhile (delta : Int) :
    (signed_text delta).dropWhile isspace = signed_text delta := by
  unfold signed_text
  apply dropWhile_isspace_cons
  split <;> rfl

theorem scan_offset_p_line (delta : Int) (h1 : -2147483647 ≤ delta) (h2 : delta ≤ 2147483647) :
    scan_offset (p_line delta) =
      some ⟨0, if delta < 0 then '-' else '+', (delta.natAbs : Int), []⟩ := by
  have hsp : isspace ' ' = true := by rfl
  have hs := sscanf_signed_text delta h1 h2
  have e1 : sscanf fmt_offset_n (p_line delta) = [] := by
    simp [fmt_offset_n, p_line, sscanf]
  have e2 : sscanf fmt_p (p_line delta) =
      [Val.chr (if delta < 0 then '-' else '+'), Val.int (delta.natAbs : Int)] := by
    have : sscanf fmt_p (p_line delta) = sscanf [Dir.ws, Dir.c, Dir.d] (' ' :: signed_text delta) := by
      simp [fmt_p, p_line, sscanf]
    rw [this, sscanf, List.dropWhile_cons, if_pos hsp, signed_text_dropWhile, hs]
  rw [scan_offset, e1, e2]

theorem scan_d_letter (c : Char) (l : List Char) (h1 : isspace c = false) (h2 : isdigit c = false)
    (h3 : c ≠ '-') (h4 : c ≠ '+') : scan_d (c :: l) = none := by
  rw [scan_d, scan_long_cons c l h1, if_neg h3, if_neg h4]
  simp [scan_unsigned, h2]

theorem scan_offset_previous_line (delta : Int) (h1 : -2147483647 ≤ delta)
    (h2 : delta ≤ 2147483647) :
    scan_offset (previous_line delta) =
      some ⟨0, if delta < 0 then '-' else '+', (delta.natAbs : Int), []⟩ := by
  have hsp : isspace ' ' = true := by rfl
  have hs := sscanf_signed_text delta h1 h2
  have e1 : sscanf fmt_offset_n (previous_line delta) = [] := by
    simp [fmt_offset_n, previous_line, sscanf]
  have e2 : sscanf fmt_p (previous_line delta) = [Val.chr 'r'] := by
    have hr : isspace 'r' = false := by rfl
    have : sscanf fmt_p (previous_line delta) = sscanf [Dir.c, Dir.d]
        ('r' :: 'e' :: 'v' :: 'i' :: 'o' :: 'u' :: 's' :: ' ' :: signed_text delta) := by
      simp [fmt_p, previous_line, sscanf, List.dropWhile_cons, hr]
    rw [this, sscanf, sscanf, scan_d_letter 'e' _ (by rfl) (by rfl) (by decide) (by decide)]
  have e3 : sscanf fmt_previous (previous_line delta) =
      [Val.chr (if delta < 0 then '-' else '+'), Val.int (delta.natAbs : Int)] := by
    have : sscanf fmt_previous (previous_line delta) =
        sscanf [Dir.ws, Dir.c, Dir.d] (' ' :: signed_text delta) := by
      simp [fmt_previous, previous_line, sscanf]
    rw [this, sscanf, List.dropWhile_cons, if_pos hsp, signed_text_dropWhile, hs]
  rw [scan_offset, e1, e2, e3]

theorem offset_line_trim (i delta : Int) (hi1 : -2147483648 ≤ i) (hi2 : i ≤ 2147483647)
    (h1 : -2147483647 ≤ delta) (h2 : delta ≤ 2147483647) :
    trim_whitespace ((offset_line i delta).take (MAX_LINE - 1)) = offset_line i delta := by
  have hl := printf_d_plain_length i hi1 hi2
  have hl2 := signed_text_length delta h1 h2
  rw [List.take_of_length_le (by simp [offset_line, cmd_offset]; omega)]
  have hlast := signed_text_getLast delta
    (['o', 'f', 'f', 's', 'e', 't', ' '] ++ (printf_d false 0 i ++ [' ']))
  have e : offset_line i delta = '!' ::
      ((['o', 'f', 'f', 's', 'e', 't', ' '] ++ (printf_d false 0 i ++ [' '])) ++
        signed_text delta) := by
    simp [offset_line, cmd_offset]
  rw [e]
  exact trim_whitespace_id '!' _ (by rfl) hlast

theorem p_line_trim (delta : Int) (h1 : -2147483647 ≤ delta) (h2 : delta ≤ 2147483647) :
    trim_whitespace ((p_line delta).take (MAX_LINE - 1)) = p_line delta := by
  have hl2 := signed_text_length delta h1 h2
  rw [List.take_of_length_le (by simp [p_line]; omega)]
  exact trim_whitespace_id '!' _ (by rfl) (signed_text_getLast delta ['p', ' '])

theorem previous_line_trim (delta : Int) (h1 : -2147483647 ≤ delta) (h2 : delta ≤ 2147483647) :
    trim_whitespace ((previous_line delta).take (MAX_LINE - 1)) = previous_line delta := by
  have hl2 := signed_text_length delta h1 h2
  rw [List.take_of_length_le (by simp [previous_line]; omega)]
  exact trim_whitespace_id '!' _ (by rfl)
    (signed_text_getLast delta ['p', 'r', 'e', 'v', 'i', 'o', 'u', 's', ' '])

/-- A started session passes a line on which one of the offset scans succeeds to the
body of lines 279-315. -/
theorem step_eq_handle_offset (st : Session) (inp : Input) (t : List Char) (v : OffsetVars)
    (ht : trim_whitespace (inp.line.take (MAX_LINE - 1)) = t) (hs : st.started = true)
    (hv : scan_offset t = some v)
    (h0 : t ≠ []) (h1 : t ≠ cmd_help) (h2 : t ≠ cmd_end) (h3 : t.take 6 ≠ cmd_start)
    (h4 : t ≠ cmd_pause) (h5 : t ≠ cmd_resume) :
    step st inp = handle_offset st t v inp.temp_ok := by
  rw [step_eq_dispatch st inp t ht hs h0 h1 h2 h3 h4 h5, dispatch, hv]

theorem getD_mem (es : List TagEntry) (k : Nat) (hk : k < es.length) :
    es.getD k default ∈ es := by
  rw [List.getD_eq_getElem?_getD, List.getElem?_eq_getElem hk]
  exact List.getElem_mem hk

/-- The body of lines 297-312 agrees with the specification of OffsetOne at the 1-based
index `i` whenever the C index is `(int)(i - 1)` and the sum stays in the `int` range. -/
theorem handle_offset_eq_spec (st : Session) (t : List Char) (v : OffsetVars) (ok : Bool)
    (i delta : Int) (hc : st.entries.length ≤ MAX_ENTRIES)
    (hsec : ∀ e ∈ st.entries, 0 ≤ e.seconds ∧ e.seconds ≤ 2147483647)
    (hi : -2147483648 ≤ i ∧ i ≤ 2147483647) (hd : -2147483647 ≤ delta ∧ delta ≤ 2147483647)
    (hall : ¬ (t.take 7 = cmd_offset ∧ v.offset_type = word_all))
    (hdelta : (if v.sign = '-' then wrap32 (-v.adj) else v.adj) = delta)
    (hidx : (if t.take 7 = cmd_offset ∧ v.offset_type = [] then wrap32 (v.n - 1)
      else (st.entries.length : Int) - 1) = wrap32 (i - 1))
    (hov : 1 ≤ i → i ≤ st.entries.length →
      (st.entries.getD (i - 1).toNat default).seconds + delta ≤ 2147483647) :
    handle_offset st t v ok = OffsetOne_spec st i delta ok := by
  simp only [MAX_ENTRIES] at hc
  simp only [handle_offset, hdelta, hidx, if_neg hall, OffsetOne_spec]
  by_cases c : i < 1 ∨ i > st.entries.length
  · rw [if_pos c, if_pos]
    unfold wrap32
    omega
  · have e : wrap32 (i - 1) = i - 1 := wrap32_id _ (by omega) (by omega)
    rw [if_neg c, e, if_neg (by omega)]
    have hm := hsec _ (getD_mem st.entries (i - 1).toNat (by omega))
    have ho := hov (by omega) (by omega)
    have e2 : wrap32 ((st.entries.getD (i - 1).toNat default).seconds + delta) =
        (st.entries.getD (i - 1).toNat default).seconds + delta :=
      wrap32_id _ (by omega) (by omega)
    simp only [e2]
    have e3 : i - 1 + 1 = i := by omega
    rw [e3]

/-- What the line `!offset <i> <±n>` does in a started session. -/
theorem step_offset_line (st : Session) (i delta : Int) (now : Int) (ok : Bool)
    (hs : st.started = true) (hi : -2147483648 ≤ i ∧ i ≤ 2147483647)
    (hd : -2147483647 ≤ delta ∧ delta ≤ 2147483647) :
    step st ⟨offset_line i delta, now, ok⟩ =
      handle_offset st (offset_line i delta)
        ⟨i, if delta < 0 then '-' else '+', (delta.natAbs : Int), []⟩ ok := by
  exact step_eq_handle_offset st _ _ _ (offset_line_trim i delta hi.1 hi.2 hd.1 hd.2) hs
    (scan_offset_offset_line i delta hi.1 hi.2 hd.1 hd.2)
    (by simp [offset_line, cmd_offset]) (by simp [offset_line, cmd_offset, cmd_help])
    (by simp [offset_line, cmd_offset, cmd_end]) (by simp [offset_line, cmd_offset, cmd_start])
    (by simp [offset_line, cmd_offset, cmd_pause]) (by simp [offset_line, cmd_offset, cmd_resume])

/-- What the line `!p <±n>` does in a started session. -/
theorem step_p_line (st : Session) (delta : Int) (now : Int) (ok : Bool)
    (hs : st.started = true) (hd : -2147483647 ≤ delta ∧ delta ≤ 2147483647) :
    step st ⟨p_line delta, now, ok⟩ =
      handle_offset st (p_line delta)
        ⟨0, if delta < 0 then '-' else '+', (delta.natAbs : Int), []⟩ ok := by
  exact step_eq_handle_offset st _ _ _ (p_line_trim delta hd.1 hd.2) hs
    (scan_offset_p_line delta hd.1 hd.2)
    (by simp [p_line]) (by simp [p_line, cmd_help])
    (by simp [p_line, cmd_end]) (by simp [p_line, cmd_start])
    (by simp [p_line, cmd_pause]) (by simp [p_line, cmd_resume])

/-- What the line `!previous <±n>` does in a started session. -/
theorem step_previous_line (st : Session) (delta : Int) (now : Int) (ok : Bool)
    (hs : st.started = true) (hd : -2147483647 ≤ delta ∧ delta ≤ 2147483647) :
    step st ⟨previous_line delta, now, ok⟩ =
      handle_offset st (previous_line delta)
        ⟨0, if delta < 0 then '-' else '+', (delta.natAbs : Int), []⟩ ok := by
  exact step_eq_handle_offset st _ _ _ (previous_line_trim delta hd.1 hd.2) hs
    (scan_offset_previous_line delta hd.1 hd.2)
    (by simp [previous_line]) (by simp [previous_line, cmd_help])
    (by simp [previous_line, cmd_end]) (by simp [previous_line, cmd_start])
    (by simp [previous_line, cmd_pause]) (by simp [previous_line, cmd_resume])

/-- Claim C4, amended. OffsetOne and OffsetLast reject rather than clamp. In a started
session whose store satisfies the store invariant, for every 32-bit 1-based index `i`
and every amount `delta` with `|delta| ≤ 2^31-1`, and provided the sum `seconds + delta`
of the targeted entry does not exceed `2^31-1`: the line `!offset <i> <±n>` does exactly
what the specification of OffsetOne says (invalid index: diagnostic and no change; negative
sum: diagnostic and no change; otherwise only that entry's seconds become `seconds + delta`),
and the lines `!p <±n>` and `!previous <±n>` do the same on the last index. -/
theorem offset_one_command (st : Session) (i delta : Int) (now : Int) (ok : Bool)
    (hs : st.started = true) (hc : st.entries.length ≤ MAX_ENTRIES)
    (hsec : ∀ e ∈ st.entries, 0 ≤ e.seconds ∧ e.seconds ≤ 2147483647)
    (hi : -2147483648 ≤ i ∧ i ≤ 2147483647) (hd : -2147483647 ≤ delta ∧ delta ≤ 2147483647) :
    ((1 ≤ i → i ≤ st.entries.length →
        (st.entries.getD (i - 1).toNat default).seconds + delta ≤ 2147483647) →
      step st ⟨offset_line i delta, now, ok⟩ = OffsetOne_spec st i delta ok) ∧
    ((1 ≤ st.entries.length →
        (st.entries.getD (st.entries.length - 1) default).seconds + delta ≤ 2147483647) →
      step st ⟨p_line delta, now, ok⟩ = OffsetOne_spec st st.entries.length delta ok ∧
      step st ⟨previous_line delta, now, ok⟩ = OffsetOne_spec st st.entries.length delta ok) := by
  have hc2 := hc
  simp only [MAX_ENTRIES] at hc2
  have hdl := delta_of_signed delta hd.1 hd.2
  constructor
  · intro hov
    rw [step_offset_line st i delta now ok hs hi hd]
    apply handle_offset_eq_spec st _ _ ok i delta hc hsec hi hd
    · simp [word_all]
    · exact hdl
    · rw [if_pos]
      exact ⟨by simp [offset_line, cmd_offset], rfl⟩
    · exact hov
  · intro hov
    have hov2 : 1 ≤ (st.entries.length : Int) → (st.entries.length : Int) ≤ st.entries.length →
        (st.entries.getD ((st.entries.length : Int) - 1).toNat default).seconds + delta
          ≤ 2147483647 := by
      intro h _
      have e : ((st.entries.length : Int) - 1).toNat = st.entries.length - 1 := by omega
      rw [e]
      exact hov (by omega)
    have hw : (st.entries.length : Int) - 1 = wrap32 ((st.entries.length : Int) - 1) :=
      (wrap32_id _ (by omega) (by omega)).symm
    constructor
    · rw [step_p_line st delta now ok hs hd]
      apply handle_offset_eq_spec st _ _ ok _ delta hc hsec (by omega) hd
      · simp [p_line, cmd_offset]
      · exact hdl
      · rw [if_neg (by simp [p_line, cmd_offset])]
        exact hw
      · exact hov2
    · rw [step_previous_line st delta now ok hs hd]
      apply handle_offset_eq_spec st _ _ ok _ delta hc hsec (by omega) hd
      · simp [previous_line, cmd_offset]
      · exact hdl
      · rw [if_neg (by simp [previous_line, cmd_offset])]
        exact hw
      · exact hov2

set_option maxRecDepth 100000 in
/-- Claim C4, counterexample. On a tag stamped `2147483647` the line `!offset 1 +1` has a
valid index and a sum `2147483648` that is not negative, yet the command is rejected with
the negative-result diagnostic and nothing changes, where the claim says the seconds
become `seconds + delta`. On the sample store of three entries the line
`!offset 4294967297 +5` names an index outside `[1, 3]`, where the claim says InvalidIndex,
yet tag 1 is moved from 10 to 15: the index is read with `%d` into an `int`, where it
becomes 1. The line `!offset 1 +4294967297` moves tag 1 from 10 to 11, not to
`10 + 4294967297`: the amount is read into an `int` as well. -/
theorem offset_one_overflow_counterexample :
    ¬ ((overflow_session.entries.getD 0 default).seconds + 1 < 0) ∧
    step overflow_session ⟨offset_line 1 1, 0, true⟩ =
      cont overflow_session [Msg.negativeResult] ∧
    step overflow_session ⟨offset_line 1 1, 0, true⟩ ≠ OffsetOne_spec overflow_session 1 1 true ∧
    offset_line 4294967297 5 =
      ['!', 'o', 'f', 'f', 's', 'e', 't', ' ', '4', '2', '9', '4', '9', '6', '7', '2', '9', '7',
        ' ', '+', '5'] ∧
    OffsetOne_spec sample_session 4294967297 5 true = cont sample_session [Msg.invalidIndex] ∧
    (step sample_session ⟨offset_line 4294967297 5, 0, true⟩).out =
      [Msg.adjusted 1 ['0', '0', ':', '0', '0', ':', '1', '5']] ∧
    (step sample_session ⟨offset_line 4294967297 5, 0, true⟩).st.entries =
      [⟨15, ['h', 'i']⟩, ⟨20, ['w', 'o', 'r', 'l', 'd']⟩, ⟨30, ['x']⟩] ∧
    offset_line 1 4294967297 =
      ['!', 'o', 'f', 'f', 's', 'e', 't', ' ', '1', ' ', '+', '4', '2', '9', '4', '9', '6', '7',
        '2', '9', '7'] ∧
    (OffsetOne_spec sample_session 1 4294967297 true).st.entries =
      [⟨4294967307, ['h', 'i']⟩, ⟨20, ['w', 'o', 'r', 'l', 'd']⟩, ⟨30, ['x']⟩] ∧
    (step sample_session ⟨offset_line 1 4294967297, 0, true⟩).st.entries =
      [⟨11, ['h', 'i']⟩, ⟨20, ['w', 'o', 'r', 'l', 'd']⟩, ⟨30, ['x']⟩] := by
  decide

theorem delete_command_witness :
    sample_session.started = true ∧ sample_session.entries.length ≤ MAX_ENTRIES ∧
    (1 ≤ (2 : Int) ∧ (2 : Int) ≤ sample_session.entries.length) ∧
    ((step sample_session ⟨cmd_delete ++ printf_d false 0 2, 0, true⟩).st.entries.length
          = sample_session.entries.length - 1 ∧
      (∀ j : Nat, 1 ≤ j → (j : Int) < 2 →
        (step sample_session ⟨cmd_delete ++ printf_d false 0 2, 0, true⟩).st.entries[j - 1]?
          = sample_session.entries[j - 1]?) ∧
      (∀ j : Nat, 2 < (j : Int) → j ≤ sample_session.entries.length →
        (step sample_session ⟨cmd_delete ++ printf_d false 0 2, 0, true⟩).st.entries[j - 2]?
          = sample_session.entries[j - 1]?)) :=
  ⟨rfl, by decide, by decide,
    (delete_command sample_session 2 0 true rfl (by decide) (by decide) (by decide)).2
      (by decide)⟩

theorem offset_one_command_witness :
    sample_session.started = true ∧ sample_session.entries.length ≤ MAX_ENTRIES ∧
    (∀ e ∈ sample_session.entries, 0 ≤ e.seconds ∧ e.seconds ≤ 2147483647) ∧
    step sample_session ⟨offset_line 2 (-5), 0, true⟩ = OffsetOne_spec sample_session 2 (-5) true ∧
    step sample_session ⟨p_line (-5), 0, true⟩ =
      OffsetOne_spec sample_session sample_session.entries.length (-5) true ∧
    step sample_session ⟨previous_line (-5), 0, true⟩ =
      OffsetOne_spec sample_session sample_session.entries.length (-5) true :=
  ⟨rfl, by decide, by decide,
    (offset_one_command sample_session 2 (-5) 0 true rfl (by decide) (by decide) (by decide)
      (by decide)).1 (fun _ _ => by decide),
    (offset_one_command sample_session 2 (-5) 0 true rfl (by decide) (by decide) (by decide)
      (by decide)).2 (fun _ => by decide)⟩

/-! ## Theorems: offset of all entries -/

theorem scan_offset_all_line (delta : Int) (h1 : -2147483647 ≤ delta) (h2 : delta ≤ 2147483647) :
    scan_offset (offset_all_line delta) =
      some ⟨0, if delta < 0 then '-' else '+', (delta.natAbs : Int), word_all⟩ := by
  have hsp : isspace ' ' = true := by rfl
  have ha : isspace 'a' = false := by rfl
  have hl : isspace 'l' = false := by rfl
  have hs := sscanf_signed_text delta h1 h2
  have e1 : sscanf fmt_offset_n (offset_all_line delta) = [] := by
    have : sscanf fmt_offset_n (offset_all_line delta) =
        sscanf [Dir.d, Dir.ws, Dir.c, Dir.d] ('a' :: 'l' :: 'l' :: ' ' :: signed_text delta) := by
      simp [fmt_offset_n, offset_all_line, cmd_offset, word_all, sscanf, List.dropWhile_cons,
        hsp, ha]
    rw [this, sscanf, scan_d_letter 'a' _ (by rfl) (by rfl) (by decide) (by decide)]
  have e2 : sscanf fmt_p (offset_all_line delta) = [] := by
    simp [fmt_p, offset_all_line, cmd_offset, sscanf]
  have e3 : sscanf fmt_previous (offset_all_line delta) = [] := by
    simp [fmt_previous, offset_all_line, cmd_offset, sscanf]
  have e4 : sscanf fmt_offset_s (offset_all_line delta) =
      [Val.str word_all, Val.chr (if delta < 0 then '-' else '+'),
        Val.int (delta.natAbs : Int)] := by
    have : sscanf fmt_offset_s (offset_all_line delta) =
        Val.str word_all :: sscanf [Dir.ws, Dir.c, Dir.d] (' ' :: signed_text delta) := by
      simp [fmt_offset_s, offset_all_line, cmd_offset, word_all, sscanf, List.dropWhile_cons,
        List.takeWhile_cons, hsp, ha, hl]
    rw [this, sscanf, List.dropWhile_cons, if_pos hsp, signed_text_dropWhile, hs]
  rw [scan_offset, e1, e2, e3, e4]

theorem offset_all_line_trim (delta : Int) (h1 : -2147483647 ≤ delta) (h2 : delta ≤ 2147483647) :
    trim_whitespace ((offset_all_line delta).take (MAX_LINE - 1)) = offset_all_line delta := by
  have hl2 := signed_text_length delta h1 h2
  rw [List.take_of_length_le (by simp [offset_all_line, cmd_offset, word_all]; omega)]
  exact trim_whitespace_id '!' _ (by rfl)
    (signed_text_getLast delta ['o', 'f', 'f', 's', 'e', 't', ' ', 'a', 'l', 'l', ' '])

/-- What the line `!offset all <±n>` does in a started session. -/
theorem step_offset_all_line (st : Session) (delta : Int) (now : Int) (ok : Bool)
    (hs : st.started = true) (hd : -2147483647 ≤ delta ∧ delta ≤ 2147483647) :
    step st ⟨offset_all_line delta, now, ok⟩ =
      if st.entries.length = 0 then cont st [Msg.noTags]
      else cont (autosave { st with entries := st.entries.map (offset_entry delta) } ok)
        (offset_all_out delta 0 st.entries ++ [Msg.adjustedAll delta]) := by
  rw [step_eq_handle_offset st _ _ _ (offset_all_line_trim delta hd.1 hd.2) hs
    (scan_offset_all_line delta hd.1 hd.2)
    (by simp [offset_all_line, cmd_offset]) (by simp [offset_all_line, cmd_offset, cmd_help])
    (by simp [offset_all_line, cmd_offset, cmd_end])
    (by simp [offset_all_line, cmd_offset, cmd_start])
    (by simp [offset_all_line, cmd_offset, cmd_pause])
    (by simp [offset_all_line, cmd_offset, cmd_resume])]
  have h7 : (offset_all_line delta).take 7 = cmd_offset := by
    rw [offset_all_line, List.take_left' (by rfl)]
  simp only [handle_offset, h7, true_and, if_true, delta_of_signed delta hd.1 hd.2]

theorem wrap32_range (x : Int) : -2147483648 ≤ wrap32 x ∧ wrap32 x ≤ 2147483647 := by
  unfold wrap32
  omega

theorem offset_entry_text (delta : Int) (e : TagEntry) : (offset_entry delta e).text = e.text := by
  unfold offset_entry
  simp only
  split <;> rfl

theorem offset_entry_range (delta : Int) (e : TagEntry) :
    0 ≤ (offset_entry delta e).seconds ∧ (offset_entry delta e).seconds ≤ 2147483647 := by
  have := wrap32_range (e.seconds + delta)
  unfold offset_entry
  simp only
  split
  · simp
  · simp only
    omega

theorem offset_entry_seconds (delta : Int) (e : TagEntry) (h0 : -2147483648 ≤ e.seconds + delta)
    (h1 : e.seconds + delta ≤ 2147483647) :
    (offset_entry delta e).seconds = if e.seconds + delta < 0 then 0 else e.seconds + delta := by
  unfold offset_entry
  simp only [wrap32_id _ h0 h1]
  split <;> rfl

/-- Claim C5, amended. OffsetAll clamps. In a started session whose entries have
non-negative seconds, for every amount `delta` with `|delta| ≤ 2^31-1`: on an empty store
`!offset all <±n>` prints "No tags to adjust." and changes nothing; on a non-empty store
it keeps the count, the order and every text, leaves every entry's seconds in
`[0, 2^31-1]`, and for every entry whose sum `s + delta` does not exceed `2^31-1` the new
seconds are `s + delta` when that is non-negative and `0` otherwise. -/
theorem offset_all_command (st : Session) (delta : Int) (now : Int) (ok : Bool)
    (hs : st.started = true) (hsec : ∀ e ∈ st.entries, 0 ≤ e.seconds)
    (hd : -2147483647 ≤ delta ∧ delta ≤ 2147483647) :
    (st.entries = [] → step st ⟨offset_all_line delta, now, ok⟩ = cont st [Msg.noTags]) ∧
    (st.entries ≠ [] →
      (step st ⟨offset_all_line delta, now, ok⟩).stop = false ∧
      (step st ⟨offset_all_line delta, now, ok⟩).st.entries.length = st.entries.length ∧
      ∀ (k : Nat) (e : TagEntry), st.entries[k]? = some e →
        ∃ e1, (step st ⟨offset_all_line delta, now, ok⟩).st.entries[k]? = some e1 ∧
          e1.text = e.text ∧ 0 ≤ e1.seconds ∧ e1.seconds ≤ 2147483647 ∧
          (e.seconds + delta ≤ 2147483647 →
            e1.seconds = if e.seconds + delta < 0 then 0 else e.seconds + delta)) := by
  rw [step_offset_all_line st delta now ok hs hd]
  constructor
  · intro h
    rw [if_pos (by simp [h])]
  · intro h
    rw [if_neg (by simpa using h)]
    refine ⟨rfl, by simp [cont], ?_⟩
    intro k e hk
    refine ⟨offset_entry delta e, by simp [cont, List.getElem?_map, hk],
      offset_entry_text delta e, (offset_entry_range delta e).1, (offset_entry_range delta e).2, ?_⟩
    intro ho
    have := hsec e (List.getElem?_mem hk)
    exact offset_entry_seconds delta e (by omega) ho

theorem offset_all_command_witness :
    sample_session.started = true ∧ (∀ e ∈ sample_session.entries, 0 ≤ e.seconds) ∧
    sample_session.entries ≠ [] ∧
    ((step sample_session ⟨offset_all_line (-15), 0, true⟩).stop = false ∧
      (step sample_session ⟨offset_all_line (-15), 0, true⟩).st.entries.length
        = sample_session.entries.length ∧
      ∀ (k : Nat) (e : TagEntry), sample_session.entries[k]? = some e →
        ∃ e1, (step sample_session ⟨offset_all_line (-15), 0, true⟩).st.entries[k]? = some e1 ∧
          e1.text = e.text ∧ 0 ≤ e1.seconds ∧ e1.seconds ≤ 2147483647 ∧
          (e.seconds + (-15) ≤ 2147483647 →
            e1.seconds = if e.seconds + (-15) < 0 then 0 else e.seconds + (-15))) :=
  ⟨rfl, by decide, by decide,
    (offset_all_command sample_session (-15) 0 true rfl (by decide) (by decide)).2 (by decide)⟩

set_option maxRecDepth 100000 in
/-- Claim C5, counterexample. On a tag stamped `2147483647` the line `!offset all +1` gives a
sum `2147483648` that is not negative, yet the entry's seconds become `0`, where the claim
says they become `s + delta`. -/
theorem offset_all_overflow_counterexample :
    overflow_session.entries = [⟨2147483647, ['x']⟩] ∧ ¬ ((2147483647 : Int) + 1 < 0) ∧
    (step overflow_session ⟨offset_all_line 1, 0, true⟩).st.entries = [⟨0, ['x']⟩] := by
  decide

/-! ## Theorems: the invariant of the Tag Store -/

theorem StoreInv_nil : StoreInv [] := by
  refine ⟨by simp, ?_⟩
  intro e he
  cases he

theorem StoreInv_set (es : List TagEntry) (k : Nat) (x : TagEntry) (h : StoreInv es)
    (hx : 0 ≤ x.seconds ∧ x.seconds ≤ 2147483647 ∧ x.text.length ≤ MAX_LINE - 1) :
    StoreInv (es.set k x) := by
  refine ⟨by rw [List.length_set]; exact h.1, ?_⟩
  intro e he
  rcases List.mem_or_eq_of_mem_set he with h1 | h1
  · exact h.2 e h1
  · rw [h1]; exact hx

theorem StoreInv_append (es : List TagEntry) (x : TagEntry) (h : StoreInv es)
    (hl : es.length < MAX_ENTRIES)
    (hx : 0 ≤ x.seconds ∧ x.seconds ≤ 2147483647 ∧ x.text.length ≤ MAX_LINE - 1) :
    StoreInv (es ++ [x]) := by
  refine ⟨by simp only [List.length_append, List.length_singleton]; omega, ?_⟩
  intro e he
  rcases List.mem_append.1 he with h1 | h1
  · exact h.2 e h1
  · simp only [List.mem_singleton] at h1
    rw [h1]; exact hx

theorem elapsed_at_range (now start_time paused_duration : Int) :
    0 ≤ elapsed_at now start_time paused_duration ∧
      elapsed_at now start_time paused_duration ≤ 2147483647 := by
  have := wrap32_range (wrap64 (wrap64 (now - start_time) - paused_duration))
  unfold elapsed_at
  simp only
  split <;> omega

theorem take_length_le (l : List Char) : (l.take (MAX_LINE - 1)).length ≤ MAX_LINE - 1 := by
  rw [List.length_take]
  exact Nat.min_le_left _ _

theorem handle_start_entries (st : Session) (t : List Char) (now : Int) :
    (handle_start st t now).st.entries = st.entries := by
  unfold handle_start
  split
  · rfl
  · rfl
  · rfl
  · split <;> rfl

theorem handle_pause_entries (st : Session) (now : Int) :
    (handle_pause st now).st.entries = st.entries := by
  unfold handle_pause
  split
  · rfl
  · split <;> rfl

theorem handle_resume_entries (st : Session) (now : Int) :
    (handle_resume st now).st.entries = st.entries := by
  unfold handle_resume
  split
  · rfl
  · split <;> rfl

theorem handle_offset_inv (st : Session) (t : List Char) (v : OffsetVars) (ok : Bool)
    (h : StoreInv st.entries) : StoreInv (handle_offset st t v ok).st.entries := by
  unfold handle_offset
  simp only
  generalize (if v.sign = '-' then wrap32 (-v.adj) else v.adj) = delta
  generalize (if t.take 7 = cmd_offset ∧ v.offset_type = [] then wrap32 (v.n - 1)
    else (st.entries.length : Int) - 1) = index
  by_cases c1 : t.take 7 = cmd_offset ∧ v.offset_type = word_all
  · rw [if_pos c1]
    by_cases c2 : st.entries.length = 0
    · rw [if_pos c2]; exact h
    · rw [if_neg c2]
      simp only [cont, autosave_entries]
      refine ⟨by rw [List.length_map]; exact h.1, ?_⟩
      intro e he
      obtain ⟨e0, h0, rfl⟩ := List.mem_map.1 he
      have r := offset_entry_range delta e0
      refine ⟨r.1, r.2, ?_⟩
      rw [offset_entry_text]
      exact (h.2 e0 h0).2.2
  · rw [if_neg c1]
    by_cases c2 : index < 0 ∨ index ≥ st.entries.length
    · rw [if_pos c2]; exact h
    · rw [if_neg c2]
      by_cases c3 : wrap32 ((st.entries.getD index.toNat default).seconds + delta) < 0
      · rw [if_pos c3]; exact h
      · rw [if_neg c3]
        simp only [cont, autosave_entries]
        apply StoreInv_set _ _ _ h
        have r := wrap32_range ((st.entries.getD index.toNat default).seconds + delta)
        refine ⟨?_, r.2, ?_⟩
        · show 0 ≤ wrap32 ((st.entries.getD index.toNat default).seconds + delta)
          omega
        · exact (h.2 _ (getD_mem st.entries _ (by omega))).2.2

theorem handle_edit_inv (st : Session) (t : List Char) (ok : Bool)
    (h : StoreInv st.entries) : StoreInv (handle_edit st t ok).st.entries := by
  unfold handle_edit
  simp only
  split
  · exact h
  · split
    · exact h
    · rename_i hidx
      simp only [cont, autosave_entries]
      apply StoreInv_set _ _ _ h
      have hm := h.2 _ (getD_mem st.entries (edit_target st.entries.length t).1.toNat (by omega))
      exact ⟨hm.1, hm.2.1, take_length_le _⟩

theorem handle_delete_inv (st : Session) (t : List Char) (ok : Bool)
    (h : StoreInv st.entries) : StoreInv (handle_delete st t ok).st.entries := by
  unfold handle_delete
  split
  · simp only
    split
    · exact h
    · rename_i hidx
      simp only [cont, autosave_entries]
      rw [delete_at_eq_eraseIdx _ _ (by omega)]
      refine ⟨le_trans (List.eraseIdx_sublist _ _).length_le h.1, ?_⟩
      intro e he
      exact h.2 e (List.mem_of_mem_eraseIdx he)
  · exact h

theorem handle_append_inv (st : Session) (t : List Char) (now : Int) (ok : Bool)
    (h : StoreInv st.entries) : StoreInv (handle_append st t now ok).st.entries := by
  unfold handle_append
  simp only
  split
  · exact h
  · rename_i hlen
    simp only [cont, autosave_entries]
    apply StoreInv_append _ _ h (by omega)
    have r := elapsed_at_range now st.start_time
      (if st.paused = true then wrap32 (st.paused_duration + wrap32 (wrap64 (now - st.pause_time)))
        else st.paused_duration)
    exact ⟨r.1, r.2, take_length_le _⟩

theorem dispatch_inv (st : Session) (t : List Char) (now : Int) (ok : Bool)
    (h : StoreInv st.entries) : StoreInv (dispatch st t now ok).st.entries := by
  unfold dispatch
  split
  · exact handle_offset_inv st t _ ok h
  · split
    · exact handle_edit_inv st t ok h
    · split
      · exact handle_delete_inv st t ok h
      · split
        · exact h
        · exact handle_append_inv st t now ok h

/-- One iteration of the loop preserves the invariant of the Tag Store. -/
theorem step_inv (st : Session) (inp : Input) (h : StoreInv st.entries) :
    StoreInv (step st inp).st.entries := by
  unfold step
  simp only
  split
  · exact h
  · split
    · exact h
    · split
      · exact h
      · split
        · rw [handle_start_entries]; exact h
        · split
          · rw [handle_pause_entries]; exact h
          · split
            · rw [handle_resume_entries]; exact h
            · split
              · exact h
              · exact dispatch_inv st _ inp.now inp.temp_ok h

theorem run_inv (inps : List Input) : ∀ st : Session, StoreInv st.entries →
    StoreInv (run st inps).entries := by
  induction inps with
  | nil => intro st h; exact h
  | cons inp inps ih =>
    intro st h
    rw [run]
    split
    · exact step_inv st inp h
    · exact ih _ (step_inv st inp h)

theorem scan_d_range (inp rest : List Char) (v : Int) (h : scan_d inp = some (v, rest)) :
    -2147483648 ≤ v ∧ v ≤ 2147483647 := by
  unfold scan_d at h
  split at h
  · rename_i w r _
    simp only [Option.some.injEq, Prod.mk.injEq] at h
    rw [← h.1]
    exact wrap32_range w
  · cases h

theorem sscanf_hms_range (ts : List Char) (h m s : Int)
    (hsc : sscanf fmt_hms ts = [Val.int h, Val.int m, Val.int s]) :
    -2147483648 ≤ h ∧ h ≤ 2147483647 := by
  rw [fmt_hms, sscanf] at hsc
  split at hsc
  · rename_i v rest hv
    simp only [List.cons.injEq, Val.int.injEq] at hsc
    rw [← hsc.1]
    exact scan_d_range ts rest v hv
  · cases hsc

theorem load_validate_ok_range (h m s v : Int) (hh : -2147483648 ≤ h ∧ h ≤ 2147483647)
    (hv : load_validate h m s = TsResult.ok v) : 0 ≤ v ∧ v ≤ 2147483647 := by
  rw [load_validate_eq h m s hh] at hv
  split at hv
  · cases hv
  · split at hv
    · cases hv
    · injection hv with hv
      omega

theorem load_timestamp_ok_range (ts : List Char) (v : Int)
    (hv : load_timestamp ts = some (TsResult.ok v)) : 0 ≤ v ∧ v ≤ 2147483647 := by
  unfold load_timestamp at hv
  split at hv
  · rename_i h m s hsc
    simp only [Option.some.injEq] at hv
    exact load_validate_ok_range h m s v (sscanf_hms_range ts h m s hsc) hv
  · cases hv

theorem load_line_inv (line : List Char) (es : List TagEntry) (h : StoreInv es)
    (hl : es.length < MAX_ENTRIES) : StoreInv (load_line line es) := by
  unfold load_line
  split
  · split
    · rename_i seconds hts
      have r := load_timestamp_ok_range _ seconds hts
      exact StoreInv_append es _ h hl ⟨r.1, r.2, take_length_le _⟩
    · exact h
  · exact h

theorem load_loop_inv (fuel : Nat) : ∀ (inp : List Char) (es : List TagEntry), StoreInv es →
    StoreInv (load_loop fuel inp es) := by
  induction fuel with
  | zero => intro inp es h; exact h
  | succ fuel ih =>
    intro inp es h
    rw [load_loop]
    split
    · exact h
    · split
      · rename_i hl
        exact ih _ _ (load_line_inv _ es h hl)
      · exact h

/-- Whatever the file holds, `load_from_file` returns a store that satisfies the invariant. -/
theorem load_from_file_inv (file : Option (List Char)) : StoreInv (load_from_file file) := by
  unfold load_from_file
  split
  · exact StoreInv_nil
  · exact load_loop_inv _ _ _ StoreInv_nil

/-- Claim C6. Tag Store invariant. Starting from the empty store, or from the store that
`load_from_file` returns for any file content (or for a file that cannot be opened), after
any finite sequence of input lines, taken with any clock values and any success or failure
of the autosave, the store holds at most 1000 entries, every entry's seconds lie in
`[0, 2^31-1]` and every text has at most 1023 characters. All `int` arithmetic of the
loop, the offset sums included, is modelled with wraparound modulo 2^32. -/
theorem store_invariant (file : Option (List Char)) (inps : List Input) :
    StoreInv (run (initial []) inps).entries ∧
    StoreInv (run (initial (load_from_file file)) inps).entries ∧
    (run (initial (load_from_file file)) inps).entries.length ≤ 1000 ∧
    ∀ e ∈ (run (initial (load_from_file file)) inps).entries,
      0 ≤ e.seconds ∧ e.seconds ≤ 2147483647 ∧ e.text.length ≤ 1023 := by
  have h1 := run_inv inps (initial []) StoreInv_nil
  have h2 := run_inv inps (initial (load_from_file file)) (load_from_file_inv file)
  exact ⟨h1, h2, h2.1, h2.2⟩

/-! ## Theorems: append -/

theorem dropWhile_length_le (p : Char → Bool) (l : List Char) :
    (l.dropWhile p).length ≤ l.length := by
  induction l with
  | nil => simp
  | cons c cs ih =>
    rw [List.dropWhile_cons]
    split
    · simp only [List.length_cons]; omega
    · exact le_refl _

theorem rstrip_length_le (l : List Char) : (rstrip l).length ≤ l.length := by
  unfold rstrip
  rw [List.length_reverse]
  have := dropWhile_length_le isspace l.reverse
  rw [List.length_reverse] at this
  exact this

theorem trim_whitespace_length_le (l : List Char) : (trim_whitespace l).length ≤ l.length := by
  have h := dropWhile_length_le isspace l
  unfold trim_whitespace
  split
  · simp
  · rename_i c cs hc
    rw [hc] at h
    have := rstrip_length_le cs
    simp only [List.length_cons] at h ⊢
    omega

theorem trimmed_input_length (line : List Char) :
    (trim_whitespace (line.take (MAX_LINE - 1))).length ≤ MAX_LINE - 1 :=
  le_trans (trim_whitespace_length_le _) (take_length_le line)

theorem dispatch_free_text (st : Session) (c : Char) (cs : List Char) (now : Int) (ok : Bool)
    (hc : c ≠ '!') : dispatch st (c :: cs) now ok = handle_append st (c :: cs) now ok := by
  have e : scan_offset (c :: cs) = none := by
    simp [scan_offset, sscanf, fmt_offset_n, fmt_p, fmt_previous, fmt_offset_s, hc]
  rw [dispatch, e]
  simp only
  rw [if_neg (by cases cs <;> simp [cmd_e, hc]), if_neg (by simp [cmd_delete, hc]),
    if_neg (by simp [hc])]

/-- A started session passes a trimmed line that does not begin with `!` to the code that
adds a tag (lines 387-408). -/
theorem step_free_text (st : Session) (inp : Input) (c : Char) (cs : List Char)
    (hs : st.started = true) (ht : trim_whitespace (inp.line.take (MAX_LINE - 1)) = c :: cs)
    (hc : c ≠ '!') : step st inp = handle_append st (c :: cs) inp.now inp.temp_ok := by
  rw [step_eq_dispatch st inp (c :: cs) ht hs (by simp) (by simp [cmd_help, hc])
    (by simp [cmd_end, hc]) (by simp [cmd_start, hc]) (by simp [cmd_pause, hc])
    (by simp [cmd_resume, hc]), dispatch_free_text st c cs inp.now inp.temp_ok hc]

/-- Claim C7. Append at capacity is rejected and terminal. In a started session, take a
free-text line: its trimmed form `c :: cs` is not empty and does not begin with `!`. When
the store already holds 1000 entries (or more) the state is unchanged and the loop is
left. When it holds fewer, the loop goes on and the store is the old one followed by
exactly one new entry, whose text is the trimmed line and whose seconds are the elapsed
time computed at lines 388-396. -/
theorem append_at_capacity (st : Session) (inp : Input) (c : Char) (cs : List Char)
    (hs : st.started = true) (ht : trim_whitespace (inp.line.take (MAX_LINE - 1)) = c :: cs)
    (hc : c ≠ '!') :
    (st.entries.length ≥ MAX_ENTRIES →
      (step st inp).st = st ∧ (step st inp).stop = true) ∧
    (st.entries.length < MAX_ENTRIES →
      (step st inp).stop = false ∧
      (step st inp).st.entries = st.entries ++
        [⟨elapsed_at inp.now st.start_time
            (if st.paused then wrap32 (st.paused_duration + wrap32 (wrap64 (inp.now - st.pause_time)))
              else st.paused_duration),
          c :: cs⟩]) := by
  rw [step_free_text st inp c cs hs ht hc]
  have hlen : (c :: cs).take (MAX_LINE - 1) = c :: cs := by
    apply List.take_of_length_le
    rw [← ht]
    exact trimmed_input_length inp.line
  constructor
  · intro h
    simp only [handle_append, if_pos h, and_self]
  · intro h
    have h2 : ¬ st.entries.length ≥ MAX_ENTRIES := by omega
    simp only [handle_append, if_neg h2, cont, autosave_entries, hlen, true_and]

theorem append_at_capacity_witness :
    sample_session.started = true ∧
    trim_whitespace ((⟨[' ', 'o', 'k', ' '], 7, true⟩ : Input).line.take (MAX_LINE - 1)) = ['o', 'k'] ∧
    'o' ≠ '!' ∧
    (sample_session.entries.length < MAX_ENTRIES →
      (step sample_session ⟨[' ', 'o', 'k', ' '], 7, true⟩).stop = false ∧
      (step sample_session ⟨[' ', 'o', 'k', ' '], 7, true⟩).st.entries = sample_session.entries ++
        [⟨elapsed_at 7 sample_session.start_time
            (if sample_session.paused then
              wrap32 (sample_session.paused_duration + wrap32 (wrap64 (7 - sample_session.pause_time)))
              else sample_session.paused_duration),
          ['o', 'k']⟩]) :=
  ⟨rfl, by decide, by decide,
    (append_at_capacity sample_session ⟨[' ', 'o', 'k', ' '], 7, true⟩ 'o' ['k'] rfl (by decide)
      (by decide)).2⟩

/-! ## Theorems: edit -/

theorem lt_max_line (k : Nat) (h : k < 1023) : k < MAX_LINE - 1 := h

theorem le_max_line (k : Nat) (h : k ≤ 1023) : k ≤ MAX_LINE - 1 := h

/-- While the composed text stays below `MAX_LINE - 1` characters, the loop of lines
341-351 appends exactly the composed text. -/
theorem edit_loop_eq_compose (original : List Char) (n : Nat) :
    ∀ (rest new_text : List Char), rest.length ≤ n →
      (new_text ++ compose original rest).length ≤ 1022 →
      edit_loop original rest new_text = new_text ++ compose original rest := by
  induction n with
  | zero =>
    intro rest new_text hr _
    have : rest = [] := List.length_eq_zero.1 (by omega)
    subst this
    simp [edit_loop, compose]
  | succ n ih =>
    intro rest new_text hr hl
    match rest, hr, hl with
    | [], _, _ => simp [edit_loop, compose]
    | [c], _, hl =>
      simp only [compose] at hl ⊢
      by_cases hc : c = DOLLAR
      · simp only [hc, if_true, List.length_append] at hl ⊢
        rw [edit_loop, if_pos (lt_max_line _ (by omega)), if_pos ⟨rfl, lt_max_line _ (by omega)⟩]
      · simp only [hc, if_false, List.length_append, List.length_singleton] at hl ⊢
        rw [edit_loop, if_pos (lt_max_line _ (by omega)), if_neg (by simp [hc])]
    | c :: d :: cs, hr, hl =>
      simp only [List.length_cons] at hr
      rw [compose] at hl ⊢
      by_cases h1 : c = BACKSLASH ∧ d = DOLLAR
      · rw [if_pos h1] at hl ⊢
        have hl2 : ((new_text ++ [DOLLAR]) ++ compose original cs).length ≤ 1022 := by
          simpa using hl
        simp only [List.length_append, List.length_cons] at hl
        rw [edit_loop, if_pos (lt_max_line _ (by omega)), if_pos h1, ih cs _ (by omega) hl2]
        simp
      · rw [if_neg h1] at hl ⊢
        by_cases h2 : c = DOLLAR
        · rw [if_pos h2] at hl ⊢
          have hl2 : ((new_text ++ original) ++ compose original (d :: cs)).length
              ≤ 1022 := by
            simpa using hl
          simp only [List.length_append] at hl
          rw [edit_loop, if_pos (lt_max_line _ (by omega)), if_neg h1,
            if_pos ⟨h2, lt_max_line _ (by omega)⟩,
            ih (d :: cs) _ (by simp; omega) hl2]
          simp
        · rw [if_neg h2] at hl ⊢
          have hl2 : ((new_text ++ [c]) ++ compose original (d :: cs)).length
              ≤ 1022 := by
            simpa using hl
          simp only [List.length_append, List.length_cons] at hl
          rw [edit_loop, if_pos (lt_max_line _ (by omega)), if_neg h1, if_neg (by simp [h2]),
            ih (d :: cs) _ (by simp; omega) hl2]
          simp

/-- The text composed by the loop of lines 341-351 never exceeds the buffer. -/
theorem edit_loop_length (original : List Char) (n : Nat) :
    ∀ (rest new_text : List Char), rest.length ≤ n → new_text.length ≤ 1023 →
      (edit_loop original rest new_text).length ≤ 1023 := by
  induction n with
  | zero =>
    intro rest new_text hr h
    have : rest = [] := List.length_eq_zero.1 (by omega)
    subst this
    simpa [edit_loop] using h
  | succ n ih =>
    intro rest new_text hr h
    match rest, hr with
    | [], _ => simpa [edit_loop] using h
    | [c], _ =>
      rw [edit_loop]
      split
      · rename_i h1
        have h1 : new_text.length < 1023 := h1
        split
        · rename_i h2
          have h2 : new_text.length + original.length < 1023 := h2.2
          simp only [List.length_append]
          omega
        · simp only [List.length_append, List.length_singleton]
          omega
      · exact h
    | c :: d :: cs, hr =>
      simp only [List.length_cons] at hr
      rw [edit_loop]
      split
      · rename_i h1
        have h1 : new_text.length < 1023 := h1
        split
        · apply ih cs _ (by omega)
          simp only [List.length_append, List.length_singleton]
          omega
        · split
          · rename_i h3
            have h3 : new_text.length + original.length < 1023 := h3.2
            apply ih (d :: cs) _ (by simp; omega)
            simp only [List.length_append]
            omega
          · apply ih (d :: cs) _ (by simp; omega)
            simp only [List.length_append, List.length_singleton]
            omega
      · exact h

theorem printf_d_plain_nonneg (n : Int) (h : 0 ≤ n) : printf_d false 0 n = natDigits n.toNat := by
  have hn : ¬ n < 0 := by omega
  have habs : n.natAbs = n.toNat := by omega
  simp [printf_d, hn, habs]

theorem natDigits_cons (n : Nat) : ∃ c cs, natDigits n = c :: cs ∧ isdigit c = true := by
  obtain ⟨c, cs, h, hd⟩ := paddedDigits_cons 0 n
  exact ⟨c, cs, by simpa [paddedDigits] using h, hd⟩

theorem getLast_append_cons (pre : List Char) (c : Char) (cs : List Char) :
    (pre ++ c :: cs).getLast? = (c :: cs).getLast? := by
  rw [List.getLast?_append]
  cases h : (c :: cs).getLast? with
  | none => simp at h
  | some x => simp

theorem trim_whitespace_blank (l : List Char) : trim_whitespace (' ' :: l) = trim_whitespace l := by
  have hsp : isspace ' ' = true := by rfl
  unfold trim_whitespace
  rw [List.dropWhile_cons, if_pos hsp]

theorem not_isdigit_blank (l : List Char) :
    ∀ c, (' ' :: l).head? = some c → isdigit c = false := by
  intro c hc
  simp only [List.head?_cons, Option.some.injEq] at hc
  subst hc
  rfl

/-- Lines 319-326 on the line `!e <n> <r>`: the index is `n - 1` and the replacement `r`. -/
theorem edit_target_edit_line (count : Nat) (n : Int) (c : Char) (cs : List Char)
    (hn : 1 ≤ n ∧ n ≤ 2147483647) (hc : isspace c = false)
    (hlast : ∀ x, (c :: cs).getLast? = some x → isspace x = false) :
    edit_target count (edit_line n (c :: cs)) = (n - 1, c :: cs) := by
  obtain ⟨d, ds, hd, hdd⟩ := natDigits_cons n.toNat
  have hp := printf_d_plain_nonneg n (by omega)
  have hr : trim_whitespace ((edit_line n (c :: cs)).drop 2) = d :: (ds ++ ' ' :: c :: cs) := by
    have e : (edit_line n (c :: cs)).drop 2 = ' ' :: d :: (ds ++ ' ' :: c :: cs) := by
      simp [edit_line, cmd_e, hp, hd]
    rw [e, trim_whitespace_blank]
    apply trim_whitespace_id d _ (isdigit_not_space d hdd)
    rw [getLast_append_cons ds ' ' (c :: cs)]
    simpa [List.getLast?_cons_cons] using hlast
  have hs : strtol (d :: (ds ++ ' ' :: c :: cs)) = (n, ' ' :: c :: cs) := by
    have := scan_long_printf_d false 0 n (' ' :: c :: cs) (not_isdigit_blank _)
    rw [hp, hd, List.cons_append] at this
    rw [strtol, this, clampLong_id n (by unfold LONG_MIN; omega) (by unfold LONG_MAX; omega)]
  have ht : trim_whitespace (' ' :: c :: cs) = c :: cs := by
    rw [trim_whitespace_blank]
    apply trim_whitespace_id c cs hc
    intro x hx
    apply hlast x
    cases cs with
    | nil => simp at hx
    | cons a as => simpa [List.getLast?_cons_cons] using hx
  simp only [edit_target, hr, hdd, if_true, hs, ht]
  rw [wrap32_id _ (by omega) (by omega)]

/-- Lines 319-326 on the line `!e <r>` when `r` does not begin with a digit: the index is
that of the last entry. -/
theorem edit_target_edit_last_line (count : Nat) (c : Char) (cs : List Char)
    (hc : isspace c = false) (hd : isdigit c = false)
    (hlast : ∀ x, (c :: cs).getLast? = some x → isspace x = false) :
    edit_target count (edit_last_line (c :: cs)) = ((count : Int) - 1, c :: cs) := by
  have hr : trim_whitespace ((edit_last_line (c :: cs)).drop 2) = c :: cs := by
    have e : (edit_last_line (c :: cs)).drop 2 = ' ' :: c :: cs := by
      simp [edit_last_line, cmd_e]
    rw [e, trim_whitespace_blank]
    apply trim_whitespace_id c cs hc
    intro x hx
    apply hlast x
    cases cs with
    | nil => simp at hx
    | cons a as => simpa [List.getLast?_cons_cons] using hx
  simp only [edit_target, hr, hd, Bool.false_eq_true, if_false]

theorem dispatch_edit (st : Session) (l : List Char) (now : Int) (ok : Bool) :
    dispatch st ('!' :: 'e' :: l) now ok = handle_edit st ('!' :: 'e' :: l) ok := by
  simp [dispatch, scan_offset, sscanf, fmt_offset_n, fmt_p, fmt_previous, fmt_offset_s, cmd_e]

/-- In a started session a trimmed line `!e <blank>...` reaches lines 318-358. -/
theorem step_edit (st : Session) (l : List Char) (now : Int) (ok : Bool)
    (hs : st.started = true) (hlen : ('!' :: 'e' :: ' ' :: l).length ≤ 1023)
    (hlast : ∀ x, ('e' :: ' ' :: l).getLast? = some x → isspace x = false) :
    step st ⟨'!' :: 'e' :: ' ' :: l, now, ok⟩ = handle_edit st ('!' :: 'e' :: ' ' :: l) ok := by
  have ht : trim_whitespace (('!' :: 'e' :: ' ' :: l).take (MAX_LINE - 1)) =
      '!' :: 'e' :: ' ' :: l := by
    rw [List.take_of_length_le (le_max_line _ hlen)]
    exact trim_whitespace_id '!' _ (by rfl) hlast
  rw [step_eq_dispatch st _ _ ht hs (by simp) (by simp [cmd_help]) (by simp [cmd_end])
    (by simp [cmd_start]) (by simp [cmd_pause]) (by simp [cmd_resume]), dispatch_edit]

/-- The body of lines 328-357 once the target index and the replacement are known, when
the composed text has at most 1022 characters. -/
theorem handle_edit_compose (st : Session) (t : List Char) (ok : Bool) (k : Nat) (r : List Char)
    (ht : edit_target st.entries.length t = ((k : Int), r)) (hr : r ≠ [])
    (hk : k < st.entries.length)
    (hcomp : (compose (st.entries.getD k default).text r).length ≤ 1022) :
    handle_edit st t ok =
      cont (autosave (with_text st k (compose (st.entries.getD k default).text r)) ok)
        [Msg.edited ((k : Int) + 1)] := by
  have hloop := edit_loop_eq_compose (st.entries.getD k default).text r.length r [] (le_refl _)
    (by simpa using hcomp)
  have hidx : ¬ ((k : Int) < 0 ∨ (k : Int) ≥ st.entries.length) := by omega
  simp only [handle_edit, ht, hr, if_false, hidx, Int.toNat_ofNat, hloop, List.nil_append]
  rw [List.take_of_length_le (le_max_line _ (by omega))]
  rfl

/-- Claim C9. Edit substitution. In a started session, let `r = c :: cs` be a replacement
text that neither starts nor ends with white space, and let `compose prior r` be `r` read
left to right with each backslash-dollar pair replaced by `$` and each other `$` replaced
by the prior text. Whenever the composed text has at most 1022 characters and the line
fits the input buffer, the line `!e <n> <r>` with `1 ≤ n ≤ count` stores exactly the
composed text in entry `n`, and the line `!e <r>` (for `r` not starting with a digit) does
so in the last entry; the seconds of that entry and all other entries are unchanged. -/
theorem edit_substitution (st : Session) (n : Int) (c : Char) (cs : List Char) (now : Int)
    (ok : Bool) (hs : st.started = true) (hcnt : st.entries.length ≤ MAX_ENTRIES)
    (hc : isspace c = false)
    (hlast : ∀ x, (c :: cs).getLast? = some x → isspace x = false) :
    (1 ≤ n ∧ n ≤ st.entries.length → (edit_line n (c :: cs)).length ≤ 1023 →
      (compose (st.entries.getD (n - 1).toNat default).text (c :: cs)).length ≤ 1022 →
      step st ⟨edit_line n (c :: cs), now, ok⟩ =
        cont (autosave (with_text st (n - 1).toNat
            (compose (st.entries.getD (n - 1).toNat default).text (c :: cs))) ok)
          [Msg.edited n]) ∧
    (isdigit c = false → 1 ≤ st.entries.length → (edit_last_line (c :: cs)).length ≤ 1023 →
      (compose (st.entries.getD (st.entries.length - 1) default).text (c :: cs)).length ≤ 1022 →
      step st ⟨edit_last_line (c :: cs), now, ok⟩ =
        cont (autosave (with_text st (st.entries.length - 1)
            (compose (st.entries.getD (st.entries.length - 1) default).text (c :: cs))) ok)
          [Msg.edited st.entries.length]) := by
  simp only [MAX_ENTRIES] at hcnt
  constructor
  · intro hn hlen hcomp
    have e : edit_line n (c :: cs) = '!' :: 'e' :: ' ' :: (printf_d false 0 n ++ ' ' :: c :: cs) := by
      simp [edit_line, cmd_e]
    have hl2 : ∀ x, ('e' :: ' ' :: (printf_d false 0 n ++ ' ' :: c :: cs)).getLast? = some x →
        isspace x = false := by
      intro x hx
      apply hlast x
      rw [← hx]
      exact (getLast_append_cons ('e' :: ' ' :: (printf_d false 0 n ++ [' '])) c cs).symm.trans
        (by simp)
    have ht := edit_target_edit_line st.entries.length n c cs ⟨hn.1, by omega⟩ hc hlast
    have hk : (n - 1).toNat < st.entries.length := by omega
    have hcast : (((n - 1).toNat : Nat) : Int) = n - 1 := by omega
    rw [← hcast] at ht
    rw [e] at hlen ht ⊢
    rw [step_edit st _ now ok hs hlen hl2,
      handle_edit_compose st _ ok (n - 1).toNat (c :: cs) ht (by simp) hk hcomp, hcast]
    have e3 : n - 1 + 1 = n := by omega
    rw [e3]
  · intro hd hne hlen hcomp
    have e : edit_last_line (c :: cs) = '!' :: 'e' :: ' ' :: c :: cs := by
      simp [edit_last_line, cmd_e]
    have hl2 : ∀ x, ('e' :: ' ' :: c :: cs).getLast? = some x → isspace x = false := by
      intro x hx
      apply hlast x
      rw [← hx]
      simp [List.getLast?_cons_cons]
    have ht := edit_target_edit_last_line st.entries.length c cs hc hd hlast
    have hcast : (((st.entries.length - 1 : Nat)) : Int) = (st.entries.length : Int) - 1 := by
      omega
    rw [← hcast] at ht
    rw [e] at hlen ht ⊢
    rw [step_edit st _ now ok hs hlen hl2,
      handle_edit_compose st _ ok (st.entries.length - 1) (c :: cs) ht (by simp) (by omega) hcomp,
      hcast]
    have e3 : (st.entries.length : Int) - 1 + 1 = st.entries.length := by omega
    rw [e3]

set_option maxRecDepth 100000 in
theorem edit_substitution_witness :
    sample_session.started = true ∧ isspace 'n' = false ∧
    (1 ≤ (2 : Int) ∧ (2 : Int) ≤ sample_session.entries.length) ∧
    edit_line 2 ['n', 'e', 'w', ' ', '$'] = ['!', 'e', ' ', '2', ' ', 'n', 'e', 'w', ' ', '$'] ∧
    compose ['w', 'o', 'r', 'l', 'd'] ['n', 'e', 'w', ' ', '$'] =
      ['n', 'e', 'w', ' ', 'w', 'o', 'r', 'l', 'd'] ∧
    step sample_session ⟨edit_line 2 ['n', 'e', 'w', ' ', '$'], 0, true⟩ =
      cont (autosave (with_text sample_session ((2 : Int) - 1).toNat
          (compose (sample_session.entries.getD ((2 : Int) - 1).toNat default).text
            ['n', 'e', 'w', ' ', '$'])) true)
        [Msg.edited 2] ∧
    (with_text sample_session ((2 : Int) - 1).toNat
        (compose (sample_session.entries.getD ((2 : Int) - 1).toNat default).text
          ['n', 'e', 'w', ' ', '$'])).entries =
      [⟨10, ['h', 'i']⟩, ⟨20, ['n', 'e', 'w', ' ', 'w', 'o', 'r', 'l', 'd']⟩, ⟨30, ['x']⟩] :=
  ⟨rfl, by decide, by decide, by decide, by decide,
    (edit_substitution sample_session 2 'n' ['e', 'w', ' ', '$'] 0 true rfl (by decide)
      (by decide) (by decide)).1 (by decide) (by decide) (by decide), by decide⟩

theorem compose_guarded_extends (original : List Char) (n : Nat) :
    ∀ (rest sofar : List Char), rest.length ≤ n →
      ∃ suffix, compose_guarded original rest sofar = sofar ++ suffix := by
  induction n with
  | zero =>
    intro rest sofar hr
    have : rest = [] := List.length_eq_zero.1 (by omega)
    subst this
    exact ⟨[], by simp [compose_guarded]⟩
  | succ n ih =>
    intro rest sofar hr
    match rest, hr with
    | [], _ => exact ⟨[], by simp [compose_guarded]⟩
    | [c], _ =>
      rw [compose_guarded]
      split
      · exact ⟨_, rfl⟩
      · exact ⟨_, rfl⟩
    | c :: d :: cs, hr =>
      simp only [List.length_cons] at hr
      rw [compose_guarded]
      split
      · obtain ⟨s, hs⟩ := ih cs (sofar ++ [DOLLAR]) (by omega)
        exact ⟨[DOLLAR] ++ s, by rw [hs, List.append_assoc]⟩
      · split
        · obtain ⟨s, hs⟩ := ih (d :: cs) (sofar ++ original) (by simp; omega)
          exact ⟨original ++ s, by rw [hs, List.append_assoc]⟩
        · obtain ⟨s, hs⟩ := ih (d :: cs) (sofar ++ [c]) (by simp; omega)
          exact ⟨[c] ++ s, by rw [hs, List.append_assoc]⟩

theorem compose_guarded_take_full (original rest sofar : List Char) (h : sofar.length = 1023) :
    (compose_guarded original rest sofar).take 1023 = sofar := by
  obtain ⟨s, hs⟩ := compose_guarded_extends original rest.length rest sofar (le_refl _)
  rw [hs, ← h, List.take_left]

/-- The loop of lines 341-351 stops where the buffer is full: its result is the guarded
composition cut to 1023 characters. -/
theorem edit_loop_eq_take (original : List Char) (n : Nat) :
    ∀ (rest sofar : List Char), rest.length ≤ n → sofar.length ≤ 1023 →
      edit_loop original rest sofar = (compose_guarded original rest sofar).take 1023 := by
  induction n with
  | zero =>
    intro rest sofar hr h
    have : rest = [] := List.length_eq_zero.1 (by omega)
    subst this
    rw [edit_loop, compose_guarded, List.take_of_length_le h]
  | succ n ih =>
    intro rest sofar hr h
    by_cases hfull : sofar.length = 1023
    · rw [compose_guarded_take_full original rest sofar hfull]
      have hn : ¬ sofar.length < MAX_LINE - 1 := by
        intro hlt
        have hlt : sofar.length < 1023 := hlt
        omega
      match rest with
      | [] => rw [edit_loop]
      | [c] => rw [edit_loop, if_neg hn]
      | c :: d :: cs => rw [edit_loop, if_neg hn]
    · have hlt : sofar.length < 1023 := by omega
      match rest, hr with
      | [], _ => rw [edit_loop, compose_guarded, List.take_of_length_le h]
      | [c], _ =>
        rw [edit_loop, compose_guarded, if_pos (lt_max_line _ hlt)]
        by_cases hc : c = DOLLAR ∧ sofar.length + original.length < 1023
        · have hc2 : c = DOLLAR ∧ sofar.length + original.length < MAX_LINE - 1 := hc
          rw [if_pos hc, if_pos hc2, List.take_of_length_le]
          simp only [List.length_append]
          omega
        · have hc2 : ¬ (c = DOLLAR ∧ sofar.length + original.length < MAX_LINE - 1) := hc
          rw [if_neg hc, if_neg hc2, List.take_of_length_le]
          simp only [List.length_append, List.length_singleton]
          omega
      | c :: d :: cs, hr =>
        simp only [List.length_cons] at hr
        rw [edit_loop, compose_guarded, if_pos (lt_max_line _ hlt)]
        by_cases h1 : c = BACKSLASH ∧ d = DOLLAR
        · rw [if_pos h1, if_pos h1]
          apply ih cs _ (by omega)
          simp only [List.length_append, List.length_singleton]
          omega
        · rw [if_neg h1, if_neg h1]
          by_cases hc : c = DOLLAR ∧ sofar.length + original.length < 1023
          · have hc2 : c = DOLLAR ∧ sofar.length + original.length < MAX_LINE - 1 := hc
            rw [if_pos hc, if_pos hc2]
            apply ih (d :: cs) _ (by simp; omega)
            simp only [List.length_append]
            omega
          · have hc2 : ¬ (c = DOLLAR ∧ sofar.length + original.length < MAX_LINE - 1) := hc
            rw [if_neg hc, if_neg hc2]
            apply ih (d :: cs) _ (by simp; omega)
            simp only [List.length_append, List.length_singleton]
            omega

/-- The body of lines 328-357 once the target index and the replacement are known. -/
theorem handle_edit_guarded (st : Session) (t : List Char) (ok : Bool) (k : Nat) (r : List Char)
    (ht : edit_target st.entries.length t = ((k : Int), r)) (hr : r ≠ [])
    (hk : k < st.entries.length) :
    handle_edit st t ok =
      cont (autosave (with_text st k
          ((compose_guarded (st.entries.getD k default).text r []).take 1023)) ok)
        [Msg.edited ((k : Int) + 1)] := by
  have hloop := edit_loop_eq_take (st.entries.getD k default).text r.length r [] (le_refl _)
    (by simp)
  have hidx : ¬ ((k : Int) < 0 ∨ (k : Int) ≥ st.entries.length) := by omega
  simp only [handle_edit, ht, hr, if_false, hidx, Int.toNat_ofNat, hloop]
  rw [List.take_of_length_le (le_max_line _ (by simp))]
  rfl

/-- Claim C10, amended. Edit truncation. In a started session, for a replacement text
`r = c :: cs` that neither starts nor ends with white space and a line that fits the input
buffer, the text stored by `!e <n> <r>` (with `1 ≤ n ≤ count`), and by `!e <r>` in the
last entry (for `r` not starting with a digit), is the first 1023 characters of the
guarded composition: backslash-dollar gives `$`, and an unescaped `$` gives the prior text
only when the text composed so far plus the prior text is shorter than 1023 characters,
and otherwise stays a literal `$`. -/
theorem edit_truncation (st : Session) (n : Int) (c : Char) (cs : List Char) (now : Int)
    (ok : Bool) (hs : st.started = true) (hcnt : st.entries.length ≤ MAX_ENTRIES)
    (hc : isspace c = false)
    (hlast : ∀ x, (c :: cs).getLast? = some x → isspace x = false) :
    (1 ≤ n ∧ n ≤ st.entries.length → (edit_line n (c :: cs)).length ≤ 1023 →
      step st ⟨edit_line n (c :: cs), now, ok⟩ =
        cont (autosave (with_text st (n - 1).toNat
            ((compose_guarded (st.entries.getD (n - 1).toNat default).text (c :: cs) []).take
              1023)) ok)
          [Msg.edited n]) ∧
    (isdigit c = false → 1 ≤ st.entries.length → (edit_last_line (c :: cs)).length ≤ 1023 →
      step st ⟨edit_last_line (c :: cs), now, ok⟩ =
        cont (autosave (with_text st (st.entries.length - 1)
            ((compose_guarded (st.entries.getD (st.entries.length - 1) default).text (c :: cs)
              []).take 1023)) ok)
          [Msg.edited st.entries.length]) := by
  simp only [MAX_ENTRIES] at hcnt
  constructor
  · intro hn hlen
    have e : edit_line n (c :: cs) = '!' :: 'e' :: ' ' :: (printf_d false 0 n ++ ' ' :: c :: cs) := by
      simp [edit_line, cmd_e]
    have hl2 : ∀ x, ('e' :: ' ' :: (printf_d false 0 n ++ ' ' :: c :: cs)).getLast? = some x →
        isspace x = false := by
      intro x hx
      apply hlast x
      rw [← hx]
      exact (getLast_append_cons ('e' :: ' ' :: (printf_d false 0 n ++ [' '])) c cs).symm.trans
        (by simp)
    have ht := edit_target_edit_line st.entries.length n c cs ⟨hn.1, by omega⟩ hc hlast
    have hk : (n - 1).toNat < st.entries.length := by omega
    have hcast : (((n - 1).toNat : Nat) : Int) = n - 1 := by omega
    rw [← hcast] at ht
    rw [e] at hlen ht ⊢
    rw [step_edit st _ now ok hs hlen hl2,
      handle_edit_guarded st _ ok (n - 1).toNat (c :: cs) ht (by simp) hk, hcast]
    have e3 : n - 1 + 1 = n := by omega
    rw [e3]
  · intro hd hne hlen
    have e : edit_last_line (c :: cs) = '!' :: 'e' :: ' ' :: c :: cs := by
      simp [edit_last_line, cmd_e]
    have hl2 : ∀ x, ('e' :: ' ' :: c :: cs).getLast? = some x → isspace x = false := by
      intro x hx
      apply hlast x
      rw [← hx]
      simp [List.getLast?_cons_cons]
    have ht := edit_target_edit_last_line st.entries.length c cs hc hd hlast
    have hcast : (((st.entries.length - 1 : Nat)) : Int) = (st.entries.length : Int) - 1 := by
      omega
    rw [← hcast] at ht
    rw [e] at hlen ht ⊢
    rw [step_edit st _ now ok hs hlen hl2,
      handle_edit_guarded st _ ok (st.entries.length - 1) (c :: cs) ht (by simp) (by omega),
      hcast]
    have e3 : (st.entries.length : Int) - 1 + 1 = st.entries.length := by omega
    rw [e3]

set_option maxRecDepth 1000000 in
theorem edit_truncation_witness :
    long_session.started = true ∧ isspace '$' = false ∧
    (1 ≤ (1 : Int) ∧ (1 : Int) ≤ long_session.entries.length) ∧
    step long_session ⟨edit_line 1 ['$', '$'], 0, true⟩ =
      cont (autosave (with_text long_session ((1 : Int) - 1).toNat
          ((compose_guarded (long_session.entries.getD ((1 : Int) - 1).toNat default).text
            ['$', '$'] []).take 1023)) true)
        [Msg.edited 1] :=
  ⟨rfl, by decide, by decide,
    (edit_truncation long_session 1 '$' ['$'] 0 true rfl (by decide) (by decide)
      (by decide)).1 (by decide) (by decide)⟩

set_option maxRecDepth 1000000 in
/-- Claim C10, counterexample. On an entry whose text is 600 times `a`, the line `!e 1 $$`
stores the 601 characters `a...a$`: the second `$` does not fit and is kept literally.
The fully composed string is 1200 times `a`, and its first 1023 characters are not what
is stored. -/
theorem edit_truncation_counterexample :
    ((step long_session ⟨edit_line 1 ['$', '$'], 0, true⟩).st.entries.getD 0 default).text =
      List.replicate 600 'a' ++ ['$'] ∧
    (compose (List.replicate 600 'a') ['$', '$']).take 1023 = List.replicate 1023 'a' ∧
    ((step long_session ⟨edit_line 1 ['$', '$'], 0, true⟩).st.entries.getD 0 default).text ≠
      (compose (List.replicate 600 'a') ['$', '$']).take 1023 := by
  decide

/-! ## Theorems: saving and loading -/

theorem fgets_line (body : List Char) : ∀ (k : Nat) (rest : List Char), NEWLINE ∉ body →
    body.length < k → fgets k (body ++ NEWLINE :: rest) = (body ++ [NEWLINE], rest) := by
  induction body with
  | nil =>
    intro k rest _ hk
    obtain ⟨k, rfl⟩ : ∃ j, k = j + 1 := ⟨k - 1, by simp at hk; omega⟩
    simp [fgets]
  | cons c cs ih =>
    intro k rest hn hk
    obtain ⟨k, rfl⟩ : ∃ j, k = j + 1 := ⟨k - 1, by simp at hk; omega⟩
    have hc : c ≠ NEWLINE := by
      intro e
      exact hn (by simp [e])
    have hcs : NEWLINE ∉ cs := by
      intro e
      exact hn (List.mem_cons_of_mem _ e)
    simp only [List.length_cons] at hk
    rw [List.cons_append, fgets, if_neg hc, ih k rest hcs (by omega)]
    simp

theorem takeWhile_append_stop (p : Char → Bool) (l1 : List Char) (x : Char) (l2 : List Char)
    (h1 : ∀ c ∈ l1, p c = true) (hx : p x = false) :
    (l1 ++ x :: l2).takeWhile p = l1 := by
  induction l1 with
  | nil => simp [List.takeWhile, hx]
  | cons c cs ih =>
    rw [List.cons_append, List.takeWhile_cons, h1 c (by simp), if_pos rfl,
      ih (fun d hd => h1 d (List.mem_cons_of_mem _ hd))]

theorem takeWhile_all (p : Char → Bool) (l : List Char) (h : ∀ c ∈ l, p c = true) :
    l.takeWhile p = l := by
  induction l with
  | nil => rfl
  | cons c cs ih =>
    rw [List.takeWhile_cons, h c (by simp), if_pos rfl,
      ih (fun d hd => h d (List.mem_cons_of_mem _ hd))]

theorem paddedDigits_isdigit (b n : Nat) : ∀ c ∈ paddedDigits b n, isdigit c = true := by
  intro c hc
  rcases List.mem_append.1 hc with h | h
  · rw [List.eq_of_mem_replicate h]; rfl
  · exact natDigits_isdigit n c h

theorem printf_d_zero_eq (v : Int) (h : 0 ≤ v) :
    ∃ b, printf_d true 2 v = paddedDigits b v.toNat := by
  obtain ⟨a, b, e⟩ := printf_d_nonneg true 2 v h
  have hn : ¬ v < 0 := by omega
  have habs : v.natAbs = v.toNat := by omega
  exact ⟨2 - (0 + (natDigits v.toNat).length), by simp [printf_d, hn, habs, paddedDigits]⟩

theorem isdigit_ne_newline (c : Char) (h : isdigit c = true) : c ≠ NEWLINE := by
  intro e; subst e; revert h; decide

/-- The characters of a formatted timestamp are digits and colons. -/
theorem format_time_chars (seconds : Int) (h0 : 0 ≤ seconds) (h1 : seconds ≤ 2147483647) :
    ∀ c ∈ format_time seconds 16, isdigit c = true ∨ c = ':' := by
  obtain ⟨b1, e1⟩ := printf_d_zero_eq (seconds / 3600) (by omega)
  obtain ⟨b2, e2⟩ := printf_d_zero_eq (seconds % 3600 / 60) (by omega)
  obtain ⟨b3, e3⟩ := printf_d_zero_eq (seconds % 60) (by omega)
  rw [format_time_eq seconds h0 h1, e1, e2, e3]
  intro c hc
  simp only [List.mem_append, List.mem_cons] at hc
  rcases hc with h | h | h | h | h
  · exact Or.inl (paddedDigits_isdigit _ _ c h)
  · exact Or.inr h
  · exact Or.inl (paddedDigits_isdigit _ _ c h)
  · exact Or.inr h
  · exact Or.inl (paddedDigits_isdigit _ _ c h)

theorem format_time_cons (seconds : Int) (h0 : 0 ≤ seconds) (h1 : seconds ≤ 2147483647) :
    ∃ c cs, format_time seconds 16 = c :: cs ∧ isdigit c = true := by
  obtain ⟨b1, e1⟩ := printf_d_zero_eq (seconds / 3600) (by omega)
  obtain ⟨c, cs, hc, hd⟩ := paddedDigits_cons b1 (seconds / 3600).toNat
  rw [format_time_eq seconds h0 h1, e1, hc]
  exact ⟨c, _, rfl, hd⟩

theorem format_time_length (seconds : Int) : (format_time seconds 16).length ≤ 15 := by
  simp only [format_time, snprintf, List.length_take]
  exact Nat.min_le_left _ _

theorem format_time_not_space (seconds : Int) (h0 : 0 ≤ seconds) (h1 : seconds ≤ 2147483647) :
    ∀ c ∈ format_time seconds 16, (!isspace c) = true := by
  intro c hc
  rcases format_time_chars seconds h0 h1 c hc with h | h
  · rw [isdigit_not_space c h]; rfl
  · rw [h]; rfl

theorem format_time_not_newline (seconds : Int) (h0 : 0 ≤ seconds) (h1 : seconds ≤ 2147483647) :
    NEWLINE ∉ format_time seconds 16 := by
  intro hc
  rcases format_time_chars seconds h0 h1 _ hc with h | h
  · exact isdigit_ne_newline _ h rfl
  · revert h; decide

/-- The characters of a printed non-negative number are blanks and digits. -/
theorem printf_d_not_newline (zero : Bool) (width : Nat) (v : Int) (h : 0 ≤ v) :
    NEWLINE ∉ printf_d zero width v := by
  obtain ⟨a, b, e⟩ := printf_d_nonneg zero width v h
  rw [e]
  intro hc
  rcases List.mem_append.1 hc with h | h
  · have := List.eq_of_mem_replicate h
    revert this; decide
  · exact isdigit_ne_newline _ (paddedDigits_isdigit _ _ _ h) rfl

theorem not_isdigit_dot (l : List Char) :
    ∀ c, ('.' :: l).head? = some c → isdigit c = false := by
  intro c hc
  simp only [List.head?_cons, Option.some.injEq] at hc
  subst hc
  rfl

/-- The first `sscanf` of line 66 on a line written in the indexed format. -/
theorem sscanf_indexed_line (i : Nat) (e : TagEntry) (hi : i < 2147483647) (h : LineOK i e) :
    sscanf fmt_indexed (save_line true i e) =
      [Val.int ((i : Int) + 1), Val.str (format_time e.seconds 16), Val.str e.text] := by
  obtain ⟨h0, h1, ⟨c, cs, htext, hc⟩, hnl, _⟩ := h
  have hsp : isspace ' ' = true := by rfl
  obtain ⟨d, ds, hts, hd⟩ := format_time_cons e.seconds h0 h1
  have hdsp := isdigit_not_space d hd
  have hns := format_time_not_space e.seconds h0 h1
  have hlen := format_time_length e.seconds
  -- the index
  have e1 := scan_d_printf_d false 2 ((i : Int) + 1)
    ('.' :: ' ' :: (format_time e.seconds 16 ++ (' ' :: (e.text ++ [NEWLINE]))))
    (by omega) (by omega) (not_isdigit_dot _)
  -- the timestamp token
  have e2 : ((format_time e.seconds 16 ++ (' ' :: (e.text ++ [NEWLINE]))).takeWhile
      (fun x => !isspace x)).take 15 = format_time e.seconds 16 := by
    rw [takeWhile_append_stop _ _ ' ' _ hns (by rfl), List.take_of_length_le hlen]
  have e3 : (format_time e.seconds 16 ++ (' ' :: (e.text ++ [NEWLINE]))).dropWhile isspace =
      format_time e.seconds 16 ++ (' ' :: (e.text ++ [NEWLINE])) := by
    rw [hts, List.cons_append]
    exact dropWhile_isspace_cons d _ hdsp
  have e4 : format_time e.seconds 16 ≠ [] := by rw [hts]; simp
  -- the text
  have e5 : (e.text ++ [NEWLINE]).dropWhile isspace = e.text ++ [NEWLINE] := by
    rw [htext, List.cons_append]
    exact dropWhile_isspace_cons c _ hc
  have e6 : (e.text ++ [NEWLINE]).takeWhile (fun x => decide (x ≠ NEWLINE)) = e.text := by
    apply takeWhile_append_stop
    · intro x hx
      simp only [decide_eq_true_eq]
      intro hxe
      exact hnl (hxe ▸ hx)
    · simp
  have e7 : e.text ≠ [] := by rw [htext]; simp
  simp only [save_line, if_true, fmt_indexed, sscanf, e1, List.dropWhile_cons, hsp, e3, e2, e4,
    if_false, List.drop_left, e5, e6, e7, List.drop_left']

theorem load_line_save_line (i : Nat) (e : TagEntry) (acc : List TagEntry)
    (hi : i < 2147483647) (h : LineOK i e) :
    load_line (save_line true i e) acc = acc ++ [e] := by
  have hsc := sscanf_indexed_line i e hi h
  obtain ⟨h0, h1, _, _, hlen⟩ := h
  have htl : e.text.length ≤ 1023 := by
    simp only [save_line, if_true, List.length_append, List.length_cons] at hlen
    omega
  simp only [load_line, scan_line, hsc, load_timestamp_format_time e.seconds h0 h1]
  rw [List.take_of_length_le (le_max_line _ htl)]

theorem save_line_split (i : Nat) (e : TagEntry) (h : LineOK i e) :
    ∃ body, save_line true i e = body ++ [NEWLINE] ∧ NEWLINE ∉ body := by
  obtain ⟨h0, h1, _, hnl, _⟩ := h
  refine ⟨printf_d false 2 ((i : Int) + 1) ++
    ('.' :: ' ' :: (format_time e.seconds 16 ++ (' ' :: e.text))), by simp [save_line], ?_⟩
  intro hc
  simp only [List.mem_append, List.mem_cons] at hc
  rcases hc with h | h | h | h | h | h
  · exact printf_d_not_newline false 2 _ (by omega) h
  · revert h; decide
  · revert h; decide
  · exact format_time_not_newline e.seconds h0 h1 h
  · revert h; decide
  · exact hnl h

/-- The loop of `load_from_file` on the lines written by the loop of `save_to_file`. -/
theorem load_loop_save_loop (es : List TagEntry) : ∀ (acc : List TagEntry) (fuel : Nat),
    es.length ≤ fuel → acc.length + es.length ≤ MAX_ENTRIES →
    (∀ (j : Nat) (e : TagEntry), es[j]? = some e → LineOK (acc.length + j) e) →
    load_loop fuel (save_loop true acc.length es) acc = acc ++ es := by
  induction es with
  | nil =>
    intro acc fuel _ _ _
    cases fuel <;> simp [save_loop, load_loop]
  | cons e es ih =>
    intro acc fuel hf hcap hok
    simp only [List.length_cons] at hf hcap
    simp only [MAX_ENTRIES] at hcap
    obtain ⟨fuel, rfl⟩ : ∃ f, fuel = f + 1 := ⟨fuel - 1, by omega⟩
    have he : LineOK acc.length e := by
      have := hok 0 e (by simp)
      simpa using this
    obtain ⟨body, hb, hnb⟩ := save_line_split acc.length e he
    have hbl : body.length < MAX_LINE - 1 := by
      have := he.2.2.2.2
      rw [hb] at this
      simp only [List.length_append, List.length_singleton] at this
      exact lt_max_line _ (by omega)
    have hfg : fgets (MAX_LINE - 1) (save_line true acc.length e ++ save_loop true (acc.length + 1) es)
        = (save_line true acc.length e, save_loop true (acc.length + 1) es) := by
      rw [hb, List.append_assoc, List.singleton_append, fgets_line body _ _ hnb hbl]
    have hne : save_line true acc.length e ++ save_loop true (acc.length + 1) es ≠ [] := by
      rw [hb]; simp
    have hlt : acc.length < MAX_ENTRIES := by simp only [MAX_ENTRIES]; omega
    rw [save_loop, load_loop, if_neg hne, if_pos hlt, hfg]
    simp only
    rw [load_line_save_line acc.length e acc (by omega) he]
    have hl : (acc ++ [e]).length = acc.length + 1 := by simp
    rw [← hl, ih (acc ++ [e]) fuel (by omega) (by simp [MAX_ENTRIES]; omega)]
    · simp
    · intro j e1 hj
      have := hok (j + 1) e1 (by simpa using hj)
      rw [hl]
      have e2 : acc.length + 1 + j = acc.length + (j + 1) := by omega
      rw [e2]
      exact this

theorem save_loop_length (es : List TagEntry) : ∀ i, es.length ≤ (save_loop true i es).length := by
  induction es with
  | nil => intro i; simp [save_loop]
  | cons e es ih =>
    intro i
    have := ih (i + 1)
    simp only [save_loop, save_line, if_true, List.length_append, List.length_cons]
    omega

/-- Round trip of a store whose lines fit the line buffer. For any store of at most 1000
entries whose seconds lie in `[0, 2^31-1]`, whose texts are not empty, do not begin with
white space and contain no newline, and whose lines in the indexed format have at most 1023
characters (newline included), writing the store with `save_to_file` in the indexed format
and reading the file back with `load_from_file` yields exactly the same sequence of
entries. -/
theorem resume_roundtrip (entries : List TagEntry) (h : Resumable entries) :
    load_from_file (some (save_to_file entries true)) = entries := by
  have := load_loop_save_loop entries [] (save_to_file entries true).length
    (save_loop_length entries 0) (by simpa using h.1)
    (by intro j e hj; simpa using h.2 j e hj)
  simpa [load_from_file, save_to_file] using this

theorem sample_resumable : Resumable sample_session.entries := by
  refine ⟨by decide, ?_⟩
  intro i e h
  match i, h with
  | 0, h =>
    simp only [sample_session, List.getElem?_cons_zero, Option.some.injEq] at h
    subst h
    exact ⟨by decide, by decide, ⟨'h', ['i'], rfl, by rfl⟩, by decide, by decide⟩
  | 1, h =>
    simp only [sample_session, List.getElem?_cons_succ, List.getElem?_cons_zero,
      Option.some.injEq] at h
    subst h
    exact ⟨by decide, by decide, ⟨'w', ['o', 'r', 'l', 'd'], rfl, by rfl⟩, by decide, by decide⟩
  | 2, h =>
    simp only [sample_session, List.getElem?_cons_succ, List.getElem?_cons_zero,
      Option.some.injEq] at h
    subst h
    exact ⟨by decide, by decide, ⟨'x', [], rfl, by rfl⟩, by decide, by decide⟩
  | n + 3, h =>
    simp [sample_session] at h

theorem resume_roundtrip_witness :
    Resumable sample_session.entries ∧
    load_from_file (some (save_to_file sample_session.entries true)) = sample_session.entries :=
  ⟨sample_resumable, resume_roundtrip sample_session.entries sample_resumable⟩

set_option maxRecDepth 1000000 in
/-- Claim C8, failing input. A started session in which the user enters one tag of 1011
characters holds the store `[(0, text)]`, which the claim covers (one entry, seconds 0, a
text of at most 1023 characters without newline), and the autosave writes it to the scratch
file as one line of 1025 characters. Reading that file back with `load_from_file` yields a
text of 1010 characters: `fgets` reads at most 1023 characters of a line into
`line[MAX_LINE]` and the rest of the line is read as a line of its own. When that rest
looks like an entry, here `7. 0:0:9 g` at the end of a tag of 1020 characters, it comes
back as a second entry. A text of 1010 characters, whose line has 1024 characters, is the
longest that comes back whole at an index below 100. -/
theorem resume_long_line_cut :
    (run (initial []) [⟨cmd_start, 0, true⟩, ⟨List.replicate 1011 'a', 0, true⟩]).entries =
      [⟨0, List.replicate 1011 'a'⟩] ∧
    (run (initial []) [⟨cmd_start, 0, true⟩, ⟨List.replicate 1011 'a', 0, true⟩]).temp_file =
      some (save_to_file [⟨0, List.replicate 1011 'a'⟩] true) ∧
    (save_to_file [⟨0, List.replicate 1011 'a'⟩] true).length = 1025 ∧
    load_from_file (some (save_to_file [⟨0, List.replicate 1011 'a'⟩] true)) =
      [⟨0, List.replicate 1010 'a'⟩] ∧
    load_from_file (some (save_to_file [⟨0, List.replicate 1011 'a'⟩] true)) ≠
      [⟨0, List.replicate 1011 'a'⟩] ∧
    load_from_file (some (save_to_file
        [⟨0, List.replicate 1010 'a' ++ ['7', '.', ' ', '0', ':', '0', ':', '9', ' ', 'g']⟩]
        true)) =
      [⟨0, List.replicate 1010 'a'⟩, ⟨9, ['g']⟩] ∧
    load_from_file (some (save_to_file [⟨0, List.replicate 1010 'a'⟩] true)) =
      [⟨0, List.replicate 1010 'a'⟩] := by
  decide

/-! ## Theorems: the shape of formatted timestamps -/

theorem digitChar_eq (d : Nat) (h : d < 10) : digitChar d = Nat.digitChar d := by
  interval_cases d <;> rfl

theorem natDigitsAux_eq_toDigitsCore (fuel : Nat) : ∀ (n : Nat) (acc : List Char),
    natDigitsAux fuel n acc = Nat.toDigitsCore 10 fuel n acc := by
  induction fuel with
  | zero => intro n acc; rfl
  | succ fuel ih =>
    intro n acc
    rw [natDigitsAux, Nat.toDigitsCore]
    by_cases h : n < 10
    · have h0 : n / 10 = 0 := by omega
      have h1 : n % 10 = n := by omega
      simp only [h, if_true, h0, h1, digitChar_eq n h]
    · have h0 : ¬ n / 10 = 0 := by omega
      simp only [h, if_false, h0, ih, digitChar_eq (n % 10) (Nat.mod_lt _ (by decide))]

/-- The digits written by the model of `printf` are the standard decimal digits. -/
theorem natDigits_eq_toDigits (n : Nat) : natDigits n = Nat.toDigits 10 n :=
  natDigitsAux_eq_toDigitsCore (n + 1) n []

theorem printf_d_hours (v : Int) (h : 0 ≤ v) : printf_d true 2 v = hours_field v.toNat := by
  have hn : ¬ v < 0 := by omega
  have habs : v.natAbs = v.toNat := by omega
  simp [printf_d, hn, habs, hours_field, natDigits_eq_toDigits]

theorem printf_d_two_digits (v : Int) (h0 : 0 ≤ v) (h1 : v < 100) :
    printf_d true 2 v = two_digits v.toNat := by
  have hn : ¬ v < 0 := by omega
  have habs : v.natAbs = v.toNat := by omega
  by_cases c : v.toNat < 10
  · have e0 : v.toNat / 10 = 0 := by omega
    have e1 : v.toNat % 10 = v.toNat := by omega
    simp [printf_d, hn, habs, two_digits, natDigits_lt _ c, e0, e1, digitChar_eq _ c]
    rfl
  · have c2 : v.toNat / 10 < 10 := by omega
    have c3 : v.toNat % 10 < 10 := Nat.mod_lt _ (by decide)
    have c4 : 10 ≤ v.toNat := by omega
    rw [printf_d]
    simp only [hn, if_false, habs, if_true, natDigits_ge _ c4, natDigits_lt _ c2, two_digits,
      digitChar_eq _ c2, digitChar_eq _ c3]
    simp

theorem format_time_clamp (seconds : Int) : format_time seconds 16 = format_time (max seconds 0) 16 := by
  by_cases h : seconds < 0
  · have e : max seconds 0 = 0 := by omega
    simp [format_time, h, e]
  · have e : max seconds 0 = seconds := by omega
    rw [e]

/-- Claim C18. Shape of formatted timestamps. For every 32-bit `seconds`, with
`t = max(seconds, 0)`, `format_time` writes the hours `t / 3600` in decimal, padded with
zeros to at least two digits and not reduced modulo 24, a colon, the minutes
`t % 3600 / 60` as exactly two digits, a colon, and the seconds `t % 60` as exactly two
digits; minutes and seconds are at most 59, and a negative input gives `00:00:00`. -/
theorem format_time_shape (seconds : Int)
    (h : -2147483648 ≤ seconds ∧ seconds ≤ 2147483647) :
    format_time seconds 16 =
      hours_field ((max seconds 0).toNat / 3600) ++
        (':' :: (two_digits ((max seconds 0).toNat % 3600 / 60) ++
          (':' :: two_digits ((max seconds 0).toNat % 60)))) ∧
    (max seconds 0).toNat % 3600 / 60 ≤ 59 ∧ (max seconds 0).toNat % 60 ≤ 59 ∧
    (seconds < 0 → format_time seconds 16 = ['0', '0', ':', '0', '0', ':', '0', '0']) := by
  refine ⟨?_, by omega, by omega, ?_⟩
  · rw [format_time_clamp, format_time_eq _ (by omega) (by omega),
      printf_d_hours _ (by omega), printf_d_two_digits _ (by omega) (by omega),
      printf_d_two_digits _ (by omega) (by omega)]
    have e1 : (max seconds 0 / 3600).toNat = (max seconds 0).toNat / 3600 := by omega
    have e2 : (max seconds 0 % 3600 / 60).toNat = (max seconds 0).toNat % 3600 / 60 := by omega
    have e3 : (max seconds 0 % 60).toNat = (max seconds 0).toNat % 60 := by omega
    rw [e1, e2, e3]
  · intro hneg
    have e : max seconds 0 = 0 := by omega
    rw [format_time_clamp, e]
    decide

theorem format_time_shape_witness :
    (-2147483648 ≤ (90061 : Int) ∧ (90061 : Int) ≤ 2147483647) ∧
    format_time 90061 16 = ['2', '5', ':', '0', '1', ':', '0', '1'] ∧
    format_time 90061 16 =
      hours_field ((max (90061 : Int) 0).toNat / 3600) ++
        (':' :: (two_digits ((max (90061 : Int) 0).toNat % 3600 / 60) ++
          (':' :: two_digits ((max (90061 : Int) 0).toNat % 60)))) :=
  ⟨by decide, by decide, (format_time_shape 90061 (by decide)).1⟩

/-! ## Theorems: the final save and the autosave -/

theorem save_loop_plain (es : List TagEntry) : ∀ i, save_loop false i es = plain_format es := by
  induction es with
  | nil => intro i; rfl
  | cons e es ih =>
    intro i
    simp only [save_loop, save_line, plain_format, List.map_cons, List.flatten_cons] at ih ⊢
    rw [ih (i + 1)]
    simp [plain_format]

theorem save_line_indexed (i : Nat) (e : TagEntry) : save_line true i e = indexed_line i e := by
  have hn : ¬ ((i : Int) + 1 < 0) := by omega
  have habs : ((i : Int) + 1).natAbs = i + 1 := by omega
  simp [save_line, indexed_line, pad_left, printf_d, hn, habs, natDigits_eq_toDigits]

theorem save_loop_indexed (es : List TagEntry) : ∀ i,
    save_loop true i es = ((es.enumFrom i).map fun p => indexed_line p.1 p.2).flatten := by
  induction es with
  | nil => intro i; rfl
  | cons e es ih =>
    intro i
    rw [save_loop, ih (i + 1), save_line_indexed]
    simp [List.enumFrom_cons]

/-- What `save_to_file` writes with `include_index` is the indexed serialization. -/
theorem save_to_file_indexed (es : List TagEntry) : save_to_file es true = indexed_format es := by
  rw [save_to_file, save_loop_indexed]
  rfl

/-- Claim C17, amended. Final save. When the loop has ended, however it ended, and the
destination can be opened: if the final store is not empty the destination's content is
exactly the plain serialization of the final store (for each entry in order `HH:MM:SS`,
one space, the text, a newline), whatever the file held before; if the final store is
empty the destination is not written and keeps what it held before. -/
theorem final_save_commits (loaded : List TagEntry) (inps : List Input)
    (previous : Option (List Char)) :
    final_save (run (initial loaded) inps) true previous =
      if (run (initial loaded) inps).entries = [] then previous
      else some (plain_format (run (initial loaded) inps).entries) := by
  generalize run (initial loaded) inps = st
  unfold final_save
  by_cases h : st.entries = []
  · simp [h]
  · have hl : st.entries.length > 0 := List.length_pos.2 h
    simp only [hl, if_true, h, if_false, save_to_file, save_loop_plain]

set_option maxRecDepth 100000 in
/-- Claim C17, counterexample. A session that ends with an empty store, here by `!end` as
the first line, leaves a destination that held `old` untouched: its content is not the
plain serialization of the empty store, which is the empty text. -/
theorem final_save_empty_counterexample :
    (run (initial []) [⟨cmd_end, 0, true⟩]).entries = [] ∧
    plain_format (run (initial []) [⟨cmd_end, 0, true⟩]).entries = [] ∧
    final_save (run (initial []) [⟨cmd_end, 0, true⟩]) true (some ['o', 'l', 'd']) =
      some ['o', 'l', 'd'] ∧
    final_save (run (initial []) [⟨cmd_end, 0, true⟩]) true (some ['o', 'l', 'd']) ≠
      some (plain_format (run (initial []) [⟨cmd_end, 0, true⟩]).entries) := by
  decide

theorem shape_same (st st1 : Session) (ok stop : Bool) (out : List Msg)
    (h1 : st1.entries = st.entries) (h2 : st1.temp_file = st.temp_file)
    (h3 : out.any reports_mutation = false) : StepShape st ok ⟨st1, stop, out⟩ :=
  Or.inl ⟨h1, h2, h3⟩

theorem autosave_temp_file (st : Session) (ok : Bool) :
    (autosave st ok).temp_file = if ok then some (save_to_file st.entries true) else st.temp_file := by
  unfold autosave
  cases ok <;> simp

theorem shape_saved (st : Session) (es : List TagEntry) (ok : Bool) (out : List Msg)
    (h : out.any reports_mutation = true ∨ es.length = st.entries.length + 1) :
    StepShape st ok (cont (autosave { st with entries := es } ok) out) := by
  refine Or.inr ⟨?_, ?_⟩
  · simp only [cont, autosave_temp_file, autosave_entries]
  · simpa [cont] using h

theorem handle_start_shape (st : Session) (t : List Char) (now : Int) (ok : Bool) :
    StepShape st ok (handle_start st t now) := by
  unfold handle_start
  split
  · exact shape_same st _ ok _ _ rfl rfl rfl
  · exact shape_same st _ ok _ _ rfl rfl rfl
  · exact shape_same st _ ok _ _ rfl rfl rfl
  · split
    · exact shape_same st _ ok _ _ rfl rfl rfl
    · exact shape_same st _ ok _ _ rfl rfl rfl

theorem handle_pause_shape (st : Session) (now : Int) (ok : Bool) :
    StepShape st ok (handle_pause st now) := by
  unfold handle_pause
  split
  · exact shape_same st _ ok _ _ rfl rfl rfl
  · split
    · exact shape_same st _ ok _ _ rfl rfl rfl
    · exact shape_same st _ ok _ _ rfl rfl rfl

theorem handle_resume_shape (st : Session) (now : Int) (ok : Bool) :
    StepShape st ok (handle_resume st now) := by
  unfold handle_resume
  split
  · exact shape_same st _ ok _ _ rfl rfl rfl
  · split
    · exact shape_same st _ ok _ _ rfl rfl rfl
    · exact shape_same st _ ok _ _ rfl rfl rfl

theorem handle_offset_shape (st : Session) (t : List Char) (v : OffsetVars) (ok : Bool) :
    StepShape st ok (handle_offset st t v ok) := by
  unfold handle_offset
  simp only
  generalize (if v.sign = '-' then wrap32 (-v.adj) else v.adj) = delta
  generalize (if t.take 7 = cmd_offset ∧ v.offset_type = [] then wrap32 (v.n - 1)
    else (st.entries.length : Int) - 1) = index
  by_cases c1 : t.take 7 = cmd_offset ∧ v.offset_type = word_all
  · rw [if_pos c1]
    by_cases c2 : st.entries.length = 0
    · rw [if_pos c2]; exact shape_same st _ ok _ _ rfl rfl rfl
    · rw [if_neg c2]
      exact shape_saved st _ ok _ (Or.inl (by simp [reports_mutation]))
  · rw [if_neg c1]
    by_cases c2 : index < 0 ∨ index ≥ st.entries.length
    · rw [if_pos c2]; exact shape_same st _ ok _ _ rfl rfl rfl
    · rw [if_neg c2]
      by_cases c3 : wrap32 ((st.entries.getD index.toNat default).seconds + delta) < 0
      · rw [if_pos c3]; exact shape_same st _ ok _ _ rfl rfl rfl
      · rw [if_neg c3]
        exact shape_saved st _ ok _ (Or.inl (by simp [reports_mutation]))

theorem handle_edit_shape (st : Session) (t : List Char) (ok : Bool) :
    StepShape st ok (handle_edit st t ok) := by
  unfold handle_edit
  simp only
  split
  · exact shape_same st _ ok _ _ rfl rfl rfl
  · split
    · exact shape_same st _ ok _ _ rfl rfl rfl
    · exact shape_saved st _ ok _ (Or.inl (by simp [reports_mutation]))

theorem handle_delete_shape (st : Session) (t : List Char) (ok : Bool) :
    StepShape st ok (handle_delete st t ok) := by
  unfold handle_delete
  split
  · simp only
    split
    · exact shape_same st _ ok _ _ rfl rfl rfl
    · exact shape_saved st _ ok _ (Or.inl (by simp [reports_mutation]))
  · exact shape_same st _ ok _ _ rfl rfl rfl

theorem handle_append_shape (st : Session) (t : List Char) (now : Int) (ok : Bool) :
    StepShape st ok (handle_append st t now ok) := by
  unfold handle_append
  simp only
  split
  · apply shape_same st _ ok _ _ rfl rfl
    cases st.paused <;> simp [reports_mutation]
  · exact shape_saved st _ ok _ (Or.inr (by simp))

theorem dispatch_shape (st : Session) (t : List Char) (now : Int) (ok : Bool) :
    StepShape st ok (dispatch st t now ok) := by
  unfold dispatch
  split
  · exact handle_offset_shape st t _ ok
  · split
    · exact handle_edit_shape st t ok
    · split
      · exact handle_delete_shape st t ok
      · split
        · exact shape_same st _ ok _ _ rfl rfl rfl
        · exact handle_append_shape st t now ok

/-- Every iteration of the loop has one of the two shapes. -/
theorem step_shape (st : Session) (inp : Input) : StepShape st inp.temp_ok (step st inp) := by
  unfold step
  simp only
  split
  · exact shape_same st _ _ _ _ rfl rfl rfl
  · split
    · exact shape_same st _ _ _ _ rfl rfl rfl
    · split
      · exact shape_same st _ _ _ _ rfl rfl rfl
      · split
        · exact handle_start_shape st _ inp.now inp.temp_ok
        · split
          · exact handle_pause_shape st inp.now inp.temp_ok
          · split
            · exact handle_resume_shape st inp.now inp.temp_ok
            · split
              · exact shape_same st _ _ _ _ rfl rfl rfl
              · exact dispatch_shape st _ inp.now inp.temp_ok

/-- Claim C16, amended. Autosave after every successful mutation. An iteration that
performed a successful append, edit, delete or offset command and could open the scratch
file leaves a scratch file whose whole content is the indexed serialization of the new
store: for each entry in order its 1-based index padded with blanks on the left to width
2 (right-aligned), then `. `, the `HH:MM:SS` form of its seconds, one space, its text and
a newline. Every other iteration, a rejected command included, leaves the store and the
scratch file unchanged, and so does an autosave that cannot open the file. -/
theorem autosave_after_mutation (st : Session) (inp : Input) :
    (succeeded st (step st inp) → inp.temp_ok = true →
      (step st inp).st.temp_file = some (indexed_format (step st inp).st.entries)) ∧
    (¬ succeeded st (step st inp) →
      (step st inp).st.entries = st.entries ∧ (step st inp).st.temp_file = st.temp_file) ∧
    (inp.temp_ok = false → (step st inp).st.temp_file = st.temp_file) := by
  rcases step_shape st inp with ⟨h1, h2, h3⟩ | ⟨h1, h2⟩
  · refine ⟨?_, fun _ => ⟨h1, h2⟩, fun _ => h2⟩
    intro hs _
    rcases hs with hs | hs
    · rw [h3] at hs; cases hs
    · rw [h1] at hs; omega
  · refine ⟨?_, ?_, ?_⟩
    · intro _ hok
      rw [h1, if_pos hok, save_to_file_indexed]
    · intro hn
      exact absurd h2 hn
    · intro hok
      rw [h1, hok]
      simp

set_option maxRecDepth 100000 in
theorem autosave_after_mutation_witness :
    succeeded sample_session (step sample_session ⟨offset_line 1 1, 0, true⟩) ∧
    (⟨offset_line 1 1, 0, true⟩ : Input).temp_ok = true ∧
    (step sample_session ⟨offset_line 1 1, 0, true⟩).st.temp_file =
      some (indexed_format (step sample_session ⟨offset_line 1 1, 0, true⟩).st.entries) :=
  ⟨Or.inl (by decide), rfl,
    (autosave_after_mutation sample_session ⟨offset_line 1 1, 0, true⟩).1 (Or.inl (by decide))
      rfl⟩

set_option maxRecDepth 100000 in
/-- Claim C16, counterexample. After the successful command `!offset 1 +1` on the sample
store the first line of the scratch file starts with a blank and the digit 1, the index
padded on the left; the serialization with the index padded on the right would start with
the digit 1 and a blank, and is not what the file holds. -/
theorem autosave_padding_counterexample :
    (step sample_session ⟨offset_line 1 1, 0, true⟩).out =
      [Msg.adjusted 1 ['0', '0', ':', '0', '0', ':', '1', '1']] ∧
    ((step sample_session ⟨offset_line 1 1, 0, true⟩).st.temp_file.map fun f => f.take 4) =
      some [' ', '1', '.', ' '] ∧
    (indexed_format_right_padded
      (step sample_session ⟨offset_line 1 1, 0, true⟩).st.entries).take 4 = ['1', ' ', '.', ' '] ∧
    (step sample_session ⟨offset_line 1 1, 0, true⟩).st.temp_file ≠
      some (indexed_format_right_padded
        (step sample_session ⟨offset_line 1 1, 0, true⟩).st.entries) := by
  decide

/-! ## Theorems: the session clock -/

theorem wrap32_wrap64 (x : Int) : wrap32 (wrap64 x) = wrap32 x := by
  unfold wrap32 wrap64
  omega

theorem wrap32_add_wrap32 (a b : Int) : wrap32 (a + wrap32 b) = wrap32 (a + b) := by
  unfold wrap32
  omega

/-- The stamp of a tag added while paused does not depend on the current instant: the
pause in progress is subtracted again, and what is left is the elapsed time at the pause
instant. -/
theorem elapsed_paused (now start_time pause_time paused_duration : Int) :
    elapsed_at now start_time
        (wrap32 (paused_duration + wrap32 (wrap64 (now - pause_time)))) =
      elapsed_at pause_time start_time paused_duration := by
  have e : wrap32 (wrap64 (wrap64 (now - start_time) -
        wrap32 (paused_duration + wrap32 (wrap64 (now - pause_time))))) =
      wrap32 (wrap64 (wrap64 (pause_time - start_time) - paused_duration)) := by
    unfold wrap32 wrap64
    omega
  unfold elapsed_at
  simp only [e]

theorem step_pause (st : Session) (now : Int) (ok : Bool) :
    step st ⟨cmd_pause, now, ok⟩ = handle_pause st now := by
  have ht : trim_whitespace (cmd_pause.take (MAX_LINE - 1)) = cmd_pause := by decide
  simp only [step, ht]
  rw [if_neg (by decide), if_neg (by decide), if_neg (by decide), if_neg (by decide),
    if_pos trivial]

theorem step_resume (st : Session) (now : Int) (ok : Bool) :
    step st ⟨cmd_resume, now, ok⟩ = handle_resume st now := by
  have ht : trim_whitespace (cmd_resume.take (MAX_LINE - 1)) = cmd_resume := by decide
  simp only [step, ht]
  rw [if_neg (by decide), if_neg (by decide), if_neg (by decide), if_neg (by decide),
    if_neg (by decide), if_pos trivial]

theorem step_bare_start (st : Session) (now : Int) (ok : Bool) :
    step st ⟨cmd_start, now, ok⟩ =
      cont { st with start_time := wrap64 (now - 0), started := true } [Msg.startedFrom 0] := by
  have ht : trim_whitespace (cmd_start.take (MAX_LINE - 1)) = cmd_start := by decide
  have hts : start_timestamp cmd_start = none := by decide
  simp only [step, ht]
  rw [if_neg (by decide), if_neg (by decide), if_neg (by decide), if_pos (by decide)]
  simp only [handle_start, hts]
  rw [if_neg (by simp)]

theorem format_time_getLast (o : Int) (h0 : 0 ≤ o) (h1 : o ≤ 2147483647) (pre : List Char) :
    ∀ x, (pre ++ format_time o 16).getLast? = some x → isspace x = false := by
  obtain ⟨c, cs, hc, _⟩ := format_time_cons o h0 h1
  intro x hx
  rw [hc, getLast_append_cons pre c cs, ← hc] at hx
  have hm := List.mem_of_getLast?_eq_some hx
  have := format_time_not_space o h0 h1 x hm
  simpa using this

theorem start_line_trim (o : Int) (h0 : 0 ≤ o) (h1 : o ≤ 2147483647) :
    trim_whitespace ((start_line o).take (MAX_LINE - 1)) = start_line o := by
  have hl := format_time_length o
  rw [List.take_of_length_le (by simp [start_line, cmd_start]; omega)]
  exact trim_whitespace_id '!' _ (by rfl)
    (format_time_getLast o h0 h1 ['s', 't', 'a', 'r', 't', ' '])

/-- The line `!start HH:MM:SS` with a valid offset `o` sets the reference instant to
`now - o` and starts the session, whatever the state. -/
theorem step_start_line (st : Session) (o now : Int) (ok : Bool) (h0 : 0 ≤ o)
    (h1 : o ≤ 2147483647) :
    step st ⟨start_line o, now, ok⟩ =
      cont { st with start_time := wrap64 (now - o), started := true } [Msg.startedFrom o] := by
  have hts := start_timestamp_format_time o h0 h1
  simp only [step, start_line_trim o h0 h1]
  rw [if_neg (by simp [start_line, cmd_start]), if_neg (by simp [start_line, cmd_start, cmd_help]),
    if_neg (by simp [start_line, cmd_start, cmd_end]),
    if_pos (by rw [start_line, List.take_left' (by rfl)])]
  simp only [handle_start, start_line, hts]

theorem run_cons_cont (st : Session) (inp : Input) (inps : List Input)
    (h : (step st inp).stop = false) : run st (inp :: inps) = run (step st inp).st inps := by
  rw [run, h]
  simp

/-- A running session after completed pause/resume pairs: still running, with the same
store and reference instant, and a paused duration that has grown by the total of the
pauses (as a 32-bit value). -/
theorem run_pause_resume (prs : List (Int × Int)) : ∀ st : Session, st.started = true →
    st.paused = false →
    ∃ pt pd, run st (pause_resume_inputs prs) =
        { st with pause_time := pt, paused_duration := pd } ∧
      wrap32 pd = wrap32 (st.paused_duration + paused_total prs) := by
  induction prs with
  | nil =>
    intro st _ _
    exact ⟨st.pause_time, st.paused_duration, by simp [pause_resume_inputs, run],
      by simp [paused_total]⟩
  | cons pr rest ih =>
    intro st hs hp
    obtain ⟨p, r⟩ := pr
    have e1 : step st ⟨cmd_pause, p, true⟩ =
        cont { st with pause_time := p, paused := true }
          [Msg.pausedAt (elapsed_at p st.start_time st.paused_duration)] := by
      rw [step_pause]
      simp [handle_pause, hs, hp]
    have e2 : step { st with pause_time := p, paused := true } ⟨cmd_resume, r, true⟩ =
        cont { st with pause_time := p,
                       paused_duration := wrap32 (st.paused_duration + wrap32 (wrap64 (r - p))) }
          [Msg.resumedAt (elapsed_at r st.start_time
            (wrap32 (st.paused_duration + wrap32 (wrap64 (r - p)))))] := by
      rw [step_resume]
      cases st
      simp_all [handle_resume, cont]
    rw [pause_resume_inputs, run_cons_cont _ _ _ (by rw [e1]; rfl), e1]
    simp only [cont]
    rw [run_cons_cont _ _ _ (by rw [e2]; rfl), e2]
    simp only [cont]
    have hw : wrap32 (wrap32 (st.paused_duration + wrap32 (wrap64 (r - p)))) =
        wrap32 (st.paused_duration + (r - p)) := by
      unfold wrap32 wrap64
      omega
    generalize wrap32 (st.paused_duration + wrap32 (wrap64 (r - p))) = pd2 at *
    obtain ⟨pt, pd, h1, h2⟩ := ih { st with pause_time := p, paused_duration := pd2 } hs hp
    refine ⟨pt, pd, by rw [h1], ?_⟩
    rw [h2]
    simp only [paused_total]
    unfold wrap32 at hw ⊢
    omega

/-- The elapsed time of a running session whose paused duration is congruent to `total`:
the exact value `now - start - total`, floored at zero, when that fits in an `int`. -/
theorem elapsed_at_exact (now t0 o pd total : Int) (hpd : wrap32 pd = wrap32 total)
    (hv : -2147483648 ≤ o + (now - t0) - total ∧ o + (now - t0) - total ≤ 2147483647) :
    elapsed_at now (wrap64 (t0 - o)) pd = max 0 (o + (now - t0) - total) := by
  have e : wrap32 (wrap64 (wrap64 (now - wrap64 (t0 - o)) - pd)) = o + (now - t0) - total := by
    unfold wrap32 wrap64 at *
    omega
  unfold elapsed_at
  simp only [e]
  by_cases h : o + (now - t0) - total < 0
  · rw [if_pos h, max_eq_left (by omega)]
  · rw [if_neg h, max_eq_right (by omega)]

/-- Claim C11, amended. Elapsed time excludes paused intervals. Start a session at instant
`t0` with a valid initial offset `o`, let any number of completed pause/resume pairs
`(p_i, r_i)` follow, and then enter a free-text line at instant `now` while the store has
room. Provided the value `o + (now - t0) - sum (r_i - p_i)` fits in a 32-bit `int`, the
appended tag is stamped with the maximum of 0 and that value. -/
theorem elapsed_excludes_pauses (loaded : List TagEntry) (o t0 now : Int)
    (prs : List (Int × Int)) (line : List Char) (c : Char) (cs : List Char) (ok0 ok : Bool)
    (ho : 0 ≤ o ∧ o ≤ 2147483647) (hl : loaded.length < MAX_ENTRIES)
    (ht : trim_whitespace (line.take (MAX_LINE - 1)) = c :: cs) (hc : c ≠ '!')
    (hv : -2147483648 ≤ o + (now - t0) - paused_total prs ∧
      o + (now - t0) - paused_total prs ≤ 2147483647) :
    (step (run (initial loaded) (⟨start_line o, t0, ok0⟩ :: pause_resume_inputs prs))
        ⟨line, now, ok⟩).st.entries =
      loaded ++ [⟨max 0 (o + (now - t0) - paused_total prs), c :: cs⟩] := by
  have e1 := step_start_line (initial loaded) o t0 ok0 ho.1 ho.2
  rw [run_cons_cont _ _ _ (by rw [e1]; rfl), e1]
  simp only [cont]
  obtain ⟨pt, pd, h1, h2⟩ := run_pause_resume prs
    { initial loaded with start_time := wrap64 (t0 - o), started := true } rfl rfl
  rw [h1]
  have h3 : wrap32 pd = wrap32 (paused_total prs) := by
    rw [h2]
    simp [initial]
  have hlen : (c :: cs).take (MAX_LINE - 1) = c :: cs := by
    apply List.take_of_length_le
    rw [← ht]
    exact trimmed_input_length line
  rw [step_free_text _ ⟨line, now, ok⟩ c cs rfl ht hc]
  have hcap : ¬ (initial loaded).entries.length ≥ MAX_ENTRIES := by
    simp only [initial]
    omega
  simp only [handle_append, initial, cont, autosave_entries, hlen] at hcap ⊢
  rw [if_neg hcap]
  simp only [autosave_entries, Bool.false_eq_true, if_false]
  rw [elapsed_at_exact now t0 o pd (paused_total prs) h3 hv]

theorem elapsed_excludes_pauses_witness :
    ((0 : Int) ≤ 10 ∧ (10 : Int) ≤ 2147483647) ∧ ([] : List TagEntry).length < MAX_ENTRIES ∧
    trim_whitespace ((['w', 'o', 'r', 'l', 'd'] : List Char).take (MAX_LINE - 1)) =
      ['w', 'o', 'r', 'l', 'd'] ∧
    paused_total [(100, 105), (200, 230)] = 35 ∧
    (step (run (initial []) (⟨start_line 10, 100, true⟩ ::
          pause_resume_inputs [(100, 105), (200, 230)]))
        ⟨['w', 'o', 'r', 'l', 'd'], 300, true⟩).st.entries =
      [] ++ [⟨max 0 (10 + (300 - 100) - paused_total [(100, 105), (200, 230)]),
        ['w', 'o', 'r', 'l', 'd']⟩] :=
  ⟨by decide, by decide, by decide, by decide,
    elapsed_excludes_pauses [] 10 100 300 [(100, 105), (200, 230)] ['w', 'o', 'r', 'l', 'd']
      'w' ['o', 'r', 'l', 'd'] true true (by decide) (by decide) (by decide) (by decide)
      (by decide)⟩

set_option maxRecDepth 100000 in
/-- Claim C11, counterexample. A session started at instant 0 with the largest valid
offset, `!start 596523:14:07`, and a tag entered one second later with no pause: the
claim gives the stamp `2147483647 + 1 = 2147483648`, the tag is stamped `0`. -/
theorem elapsed_overflow_counterexample :
    start_line 2147483647 =
      ['!', 's', 't', 'a', 'r', 't', ' ', '5', '9', '6', '5', '2', '3', ':', '1', '4', ':',
        '0', '7'] ∧
    max 0 ((2147483647 : Int) + (1 - 0) - paused_total []) = 2147483648 ∧
    (step (run (initial []) (⟨start_line 2147483647, 0, true⟩ :: pause_resume_inputs []))
        ⟨['x'], 1, true⟩).st.entries = [⟨0, ['x']⟩] := by
  decide

/-- Claim C12, amended. Tagging while Paused. A free-text line received while the session
is Paused and the store has room is accepted with a warning and appended, and its stamp
is the elapsed time frozen at the pause instant, `pause instant - reference instant -
accumulated paused duration` floored at zero (the value that `!pause` printed), whatever
the current instant is: the pause in progress is counted as paused time. Two tags
appended during the same pause get the same stamp. -/
theorem tag_while_paused (st : Session) (inp : Input) (c : Char) (cs : List Char)
    (hs : st.started = true) (hp : st.paused = true)
    (ht : trim_whitespace (inp.line.take (MAX_LINE - 1)) = c :: cs) (hc : c ≠ '!')
    (hl : st.entries.length < MAX_ENTRIES) :
    (step st inp).stop = false ∧ (step st inp).out = [Msg.pausedWarning] ∧
    (step st inp).st.entries = st.entries ++
      [⟨elapsed_at st.pause_time st.start_time st.paused_duration, c :: cs⟩] ∧
    (step st inp).st.paused = true ∧ (step st inp).st.pause_time = st.pause_time ∧
    (step st inp).st.start_time = st.start_time ∧
    (step st inp).st.paused_duration = st.paused_duration := by
  have hlen : (c :: cs).take (MAX_LINE - 1) = c :: cs := by
    apply List.take_of_length_le
    rw [← ht]
    exact trimmed_input_length inp.line
  have hcap : ¬ st.entries.length ≥ MAX_ENTRIES := by omega
  rw [step_free_text st inp c cs hs ht hc]
  simp only [handle_append, hp, if_true, if_neg hcap, cont, autosave_entries, hlen,
    elapsed_paused, List.nil_append, true_and]
  unfold autosave
  cases inp.temp_ok <;> simp [hp]

set_option maxRecDepth 100000 in
theorem tag_while_paused_witness :
    paused_session.started = true ∧ paused_session.paused = true ∧
    trim_whitespace ((⟨['a'], 105, true⟩ : Input).line.take (MAX_LINE - 1)) = ['a'] ∧
    'a' ≠ '!' ∧ paused_session.entries.length < MAX_ENTRIES ∧
    (step paused_session ⟨['a'], 105, true⟩).st.entries = paused_session.entries ++
      [⟨elapsed_at paused_session.pause_time paused_session.start_time
        paused_session.paused_duration, ['a']⟩] :=
  ⟨by decide, by decide, by decide, by decide, by decide,
    (tag_while_paused paused_session ⟨['a'], 105, true⟩ 'a' [] (by decide) (by decide)
      (by decide) (by decide) (by decide)).2.2.1⟩

set_option maxRecDepth 100000 in
/-- Claim C12, counterexample. In the session started at instant 0 and paused at instant
100 the Paused elapsed-time value is 100. A tag entered at instant 105 is stamped 100,
which is not greater than 100, and a second tag entered at instant 110 is stamped 100
as well: the two stamps are equal. -/
theorem tag_while_paused_counterexample :
    paused_session.paused = true ∧
    paused_session.pause_time - paused_session.start_time - paused_session.paused_duration
      = 100 ∧
    (step paused_session ⟨['a'], 105, true⟩).st.entries = [⟨100, ['a']⟩] ∧
    ¬ (((step paused_session ⟨['a'], 105, true⟩).st.entries.getD 0 default).seconds >
      paused_session.pause_time - paused_session.start_time - paused_session.paused_duration) ∧
    (step (step paused_session ⟨['a'], 105, true⟩).st ⟨['b'], 110, true⟩).st.entries =
      [⟨100, ['a']⟩, ⟨100, ['b']⟩] := by
  decide

/-! ## Theorems: the session state machine -/

theorem handle_start_started (st : Session) (t : List Char) (now : Int)
    (h : st.started = true) : (handle_start st t now).st.started = true := by
  unfold handle_start
  split
  · exact h
  · exact h
  · rfl
  · split
    · exact h
    · rfl

theorem handle_pause_started (st : Session) (now : Int) :
    (handle_pause st now).st.started = st.started := by
  unfold handle_pause
  split
  · rfl
  · split <;> rfl

theorem handle_resume_started (st : Session) (now : Int) :
    (handle_resume st now).st.started = st.started := by
  unfold handle_resume
  split
  · rfl
  · split <;> rfl

theorem autosave_started (st : Session) (ok : Bool) : (autosave st ok).started = st.started := by
  unfold autosave
  split <;> rfl

theorem handle_offset_started (st : Session) (t : List Char) (v : OffsetVars) (ok : Bool) :
    (handle_offset st t v ok).st.started = st.started := by
  unfold handle_offset
  simp only
  split_ifs <;> first | rfl | simp only [cont, autosave_started]

theorem handle_edit_started (st : Session) (t : List Char) (ok : Bool) :
    (handle_edit st t ok).st.started = st.started := by
  unfold handle_edit
  simp only
  split
  · rfl
  · split
    · rfl
    · simp only [cont, autosave_started]

theorem handle_delete_started (st : Session) (t : List Char) (ok : Bool) :
    (handle_delete st t ok).st.started = st.started := by
  unfold handle_delete
  split
  · simp only
    split
    · rfl
    · simp only [cont, autosave_started]
  · rfl

theorem handle_append_started (st : Session) (t : List Char) (now : Int) (ok : Bool) :
    (handle_append st t now ok).st.started = st.started := by
  unfold handle_append
  simp only
  split
  · rfl
  · simp only [cont, autosave_started]

theorem dispatch_started (st : Session) (t : List Char) (now : Int) (ok : Bool) :
    (dispatch st t now ok).st.started = st.started := by
  unfold dispatch
  split
  · exact handle_offset_started st t _ ok
  · split
    · exact handle_edit_started st t ok
    · split
      · exact handle_delete_started st t ok
      · split
        · rfl
        · exact handle_append_started st t now ok

/-- No iteration of the loop takes a started session back to NotStarted. -/
theorem step_started (st : Session) (inp : Input) (h : st.started = true) :
    (step st inp).st.started = true := by
  unfold step
  simp only
  split
  · exact h
  · split
    · exact h
    · split
      · exact h
      · split
        · exact handle_start_started st _ inp.now h
        · split
          · rw [handle_pause_started]; exact h
          · split
            · rw [handle_resume_started]; exact h
            · split
              · exact h
              · rw [dispatch_started]; exact h

theorem run_started (inps : List Input) : ∀ st : Session, st.started = true →
    (run st inps).started = true := by
  induction inps with
  | nil => intro st h; exact h
  | cons inp inps ih =>
    intro st h
    rw [run]
    split
    · exact step_started st inp h
    · exact ih _ (step_started st inp h)

theorem resume_sum (pd now pt : Int) :
    wrap32 (pd + wrap32 (wrap64 (now - pt))) = wrap32 (pd + (now - pt)) := by
  unfold wrap32 wrap64
  omega

/-- Claim C13. Session state machine. The line `!pause` moves a Running session to Paused
and records the pause instant; in NotStarted or Paused it leaves the whole state
unchanged. The line `!resume` moves a Paused session to Running and adds
`now - pause instant` to the accumulated paused duration, a 32-bit `int` (the sum is exact
whenever it fits); in NotStarted or Running it leaves the whole state unchanged. From a
started session no line and no sequence of lines reaches NotStarted again. -/
theorem session_state_machine (st : Session) (now : Int) (ok : Bool) :
    (st.started = true → st.paused = false →
      (step st ⟨cmd_pause, now, ok⟩).st = { st with pause_time := now, paused := true }) ∧
    (st.started = false ∨ st.paused = true → (step st ⟨cmd_pause, now, ok⟩).st = st) ∧
    (st.started = true → st.paused = true →
      (step st ⟨cmd_resume, now, ok⟩).st =
        { st with paused_duration := wrap32 (st.paused_duration + (now - st.pause_time)),
                  paused := false } ∧
      (-2147483648 ≤ st.paused_duration + (now - st.pause_time) ∧
          st.paused_duration + (now - st.pause_time) ≤ 2147483647 →
        (step st ⟨cmd_resume, now, ok⟩).st.paused_duration =
          st.paused_duration + (now - st.pause_time))) ∧
    (st.started = false ∨ st.paused = false → (step st ⟨cmd_resume, now, ok⟩).st = st) ∧
    (st.started = true → ∀ inps : List Input,
      (run st inps).started = true ∧ ∀ inp : Input, (step st inp).st.started = true) := by
  refine ⟨?_, ?_, ?_, ?_, ?_⟩
  · intro hs hp
    rw [step_pause]
    simp [handle_pause, hs, hp, cont]
  · intro h
    rw [step_pause]
    rcases h with h | h
    · simp [handle_pause, h, cont]
    · cases hs : st.started <;> simp [handle_pause, h, hs, cont]
  · intro hs hp
    rw [step_resume]
    have e : (handle_resume st now).st =
        { st with paused_duration := wrap32 (st.paused_duration + (now - st.pause_time)),
                  paused := false } := by
      simp [handle_resume, hs, hp, cont, resume_sum]
    refine ⟨e, ?_⟩
    intro hr
    rw [e]
    exact wrap32_id _ hr.1 hr.2
  · intro h
    rw [step_resume]
    rcases h with h | h
    · simp [handle_resume, h, cont]
    · cases hs : st.started <;> simp [handle_resume, h, hs, cont]
  · intro hs inps
    exact ⟨run_started inps st hs, fun inp => step_started st inp hs⟩

set_option maxRecDepth 100000 in
theorem session_state_machine_witness :
    sample_session.started = true ∧ sample_session.paused = false ∧
    (step sample_session ⟨cmd_pause, 50, true⟩).st =
      { sample_session with pause_time := 50, paused := true } ∧
    paused_session.started = true ∧ paused_session.paused = true ∧
    (step paused_session ⟨cmd_resume, 130, true⟩).st =
      { paused_session with
        paused_duration := wrap32 (paused_session.paused_duration +
          (130 - paused_session.pause_time)),
        paused := false } ∧
    (step paused_session ⟨cmd_resume, 130, true⟩).st.paused_duration = 30 :=
  ⟨rfl, rfl, (session_state_machine sample_session 50 true).1 rfl rfl, by decide, by decide,
    ((session_state_machine paused_session 130 true).2.2.1 (by decide) (by decide)).1,
    by decide⟩

theorem step_start_family (st : Session) (inp : Input)
    (h6 : (trim_whitespace (inp.line.take (MAX_LINE - 1))).take 6 = cmd_start) :
    step st inp = handle_start st (trim_whitespace (inp.line.take (MAX_LINE - 1))) inp.now := by
  obtain ⟨t, ht⟩ : ∃ t, trim_whitespace (inp.line.take (MAX_LINE - 1)) = t := ⟨_, rfl⟩
  rw [ht] at h6 ⊢
  have h0 : t ≠ [] := by
    intro e; rw [e] at h6; revert h6; decide
  have h1 : t ≠ cmd_help := by
    intro e; rw [e] at h6; revert h6; decide
  have h2 : t ≠ cmd_end := by
    intro e; rw [e] at h6; revert h6; decide
  simp only [step, ht]
  rw [if_neg h0, if_neg h1, if_neg h2, if_pos h6]

theorem with_started (st : Session) (x : Int) (hs : st.started = true) :
    { st with start_time := x, started := true } = { st with start_time := x } := by
  cases st
  simp_all

/-- In a started session a `!start...` line either only replaces the reference instant
or changes nothing. -/
theorem handle_start_restart (st : Session) (t : List Char) (now : Int)
    (hs : st.started = true) :
    (∃ o1, handle_start st t now =
        cont { st with start_time := wrap64 (now - o1) } [Msg.startedFrom o1]) ∨
    (∃ m, (m = Msg.invalidTimestamp ∨ m = Msg.timestampTooLarge ∨ m = Msg.invalidStartFormat) ∧
      handle_start st t now = cont st [m]) := by
  unfold handle_start
  split
  · exact Or.inr ⟨_, Or.inl rfl, rfl⟩
  · exact Or.inr ⟨_, Or.inr (Or.inl rfl), rfl⟩
  · rename_i o1 _
    exact Or.inl ⟨o1, by rw [with_started st _ hs]⟩
  · split
    · exact Or.inr ⟨_, Or.inr (Or.inr rfl), rfl⟩
    · exact Or.inl ⟨0, by rw [with_started st _ hs]⟩

/-- Claim C20. Restart keeps pause bookkeeping. In a started session the lines
`!start HH:MM:SS` (for a valid offset `o`) and `!start` replace only the reference
instant, by `now - o` (by `now` for the bare form): the paused flag, the pause instant, the
accumulated paused duration, the store and the scratch file stay as they were, so a Paused
session stays Paused and the paused duration accumulated before is still subtracted from
the stamp of a later tag. Every line that begins with `!start` either does that, with
the acknowledgement "Started tagging from", or prints a diagnostic and changes nothing at
all. -/
theorem restart_keeps_pause_bookkeeping (st : Session) (o now : Int) (ok : Bool)
    (hs : st.started = true) (ho : 0 ≤ o ∧ o ≤ 2147483647) :
    step st ⟨start_line o, now, ok⟩ =
      cont { st with start_time := wrap64 (now - o) } [Msg.startedFrom o] ∧
    step st ⟨cmd_start, now, ok⟩ =
      cont { st with start_time := wrap64 (now - 0) } [Msg.startedFrom 0] ∧
    (-9223372036854775808 + 2147483647 ≤ now ∧ now ≤ 9223372036854775807 →
      wrap64 (now - o) = now - o) ∧
    (∀ inp : Input, (trim_whitespace (inp.line.take (MAX_LINE - 1))).take 6 = cmd_start →
      (∃ o1, step st inp =
          cont { st with start_time := wrap64 (inp.now - o1) } [Msg.startedFrom o1]) ∨
      (∃ m, (m = Msg.invalidTimestamp ∨ m = Msg.timestampTooLarge ∨
          m = Msg.invalidStartFormat) ∧ step st inp = cont st [m])) ∧
    (∀ (inp : Input) (c : Char) (cs : List Char),
      trim_whitespace (inp.line.take (MAX_LINE - 1)) = c :: cs → c ≠ '!' →
      st.paused = false → st.entries.length < MAX_ENTRIES →
      (step (step st ⟨start_line o, now, ok⟩).st inp).st.entries = st.entries ++
        [⟨elapsed_at inp.now (wrap64 (now - o)) st.paused_duration, c :: cs⟩]) := by
  have e1 : step st ⟨start_line o, now, ok⟩ =
      cont { st with start_time := wrap64 (now - o) } [Msg.startedFrom o] := by
    rw [step_start_line st o now ok ho.1 ho.2, with_started st _ hs]
  refine ⟨e1, ?_, ?_, ?_, ?_⟩
  · rw [step_bare_start, with_started st _ hs]
  · intro hn
    exact wrap64_id _ (by omega) (by omega)
  · intro inp h6
    rw [step_start_family st inp h6]
    exact handle_start_restart st _ inp.now hs
  · intro inp c cs ht hc hp hl
    rw [e1]
    simp only [cont]
    have hlen : (c :: cs).take (MAX_LINE - 1) = c :: cs := by
      apply List.take_of_length_le
      rw [← ht]
      exact trimmed_input_length inp.line
    rw [step_free_text { st with start_time := wrap64 (now - o) } inp c cs hs ht hc]
    have hcap : ¬ st.entries.length ≥ MAX_ENTRIES := by omega
    simp only [handle_append, hp, Bool.false_eq_true, if_false, if_neg hcap, cont,
      autosave_entries, hlen]

set_option maxRecDepth 100000 in
theorem restart_keeps_pause_bookkeeping_witness :
    paused_session.started = true ∧ ((0 : Int) ≤ 10 ∧ (10 : Int) ≤ 2147483647) ∧
    step paused_session ⟨start_line 10, 500, true⟩ =
      cont { paused_session with start_time := wrap64 (500 - 10) } [Msg.startedFrom 10] ∧
    (step paused_session ⟨start_line 10, 500, true⟩).st.paused = true ∧
    (step paused_session ⟨start_line 10, 500, true⟩).st.pause_time = 100 ∧
    step paused_session
        ⟨['!', 's', 't', 'a', 'r', 't', ' ', '0', '0', ':', '6', '1', ':', '0', '0'], 500, true⟩ =
      cont paused_session [Msg.invalidTimestamp] :=
  ⟨by decide, by decide,
    (restart_keeps_pause_bookkeeping paused_session 10 500 true (by decide) (by decide)).1,
    by decide, by decide, by decide⟩

/-! ## Theorems: before the start -/

theorem handle_start_temp_file (st : Session) (t : List Char) (now : Int) :
    (handle_start st t now).st.temp_file = st.temp_file := by
  unfold handle_start
  split
  · rfl
  · rfl
  · rfl
  · split <;> rfl

theorem handle_pause_not_started (st : Session) (now : Int) (hs : st.started = false) :
    handle_pause st now = cont st [Msg.sessionNotStarted] := by
  simp [handle_pause, hs]

theorem handle_resume_not_started (st : Session) (now : Int) (hs : st.started = false) :
    handle_resume st now = cont st [Msg.sessionNotStarted] := by
  simp [handle_resume, hs]

/-- Claim C19, amended. Nothing mutates the store before start. While the session is
NotStarted no input line changes the Tag Store or the scratch file. Every line that is
not blank and is none of `!help`, `!end`, a line beginning with `!start`, `!pause` and
`!resume` is answered with the start-first diagnostic and leaves the whole state
unchanged; `!pause` and `!resume` are answered with "Session not started yet." and
change nothing either. -/
theorem nothing_before_start (st : Session) (inp : Input) (hs : st.started = false) :
    (step st inp).st.entries = st.entries ∧ (step st inp).st.temp_file = st.temp_file ∧
    (trim_whitespace (inp.line.take (MAX_LINE - 1)) ≠ [] →
      trim_whitespace (inp.line.take (MAX_LINE - 1)) ≠ cmd_help →
      trim_whitespace (inp.line.take (MAX_LINE - 1)) ≠ cmd_end →
      (trim_whitespace (inp.line.take (MAX_LINE - 1))).take 6 ≠ cmd_start →
      trim_whitespace (inp.line.take (MAX_LINE - 1)) ≠ cmd_pause →
      trim_whitespace (inp.line.take (MAX_LINE - 1)) ≠ cmd_resume →
      step st inp = cont st [Msg.startFirst]) ∧
    (trim_whitespace (inp.line.take (MAX_LINE - 1)) = cmd_pause ∨
        trim_whitespace (inp.line.take (MAX_LINE - 1)) = cmd_resume →
      step st inp = cont st [Msg.sessionNotStarted]) := by
  obtain ⟨t, ht⟩ : ∃ t, trim_whitespace (inp.line.take (MAX_LINE - 1)) = t := ⟨_, rfl⟩
  rw [ht]
  have hstep : step st inp =
      if t = [] then cont st []
      else if t = cmd_help then cont st [Msg.help]
      else if t = cmd_end then ⟨st, true, []⟩
      else if t.take 6 = cmd_start then handle_start st t inp.now
      else if t = cmd_pause then cont st [Msg.sessionNotStarted]
      else if t = cmd_resume then cont st [Msg.sessionNotStarted]
      else cont st [Msg.startFirst] := by
    simp only [step, ht, hs, handle_pause_not_started st inp.now hs,
      handle_resume_not_started st inp.now hs, Bool.not_false, if_true]
  refine ⟨?_, ?_, ?_, ?_⟩
  · rw [hstep]
    split_ifs <;> first | rfl | exact handle_start_entries st t inp.now
  · rw [hstep]
    split_ifs <;> first | rfl | exact handle_start_temp_file st t inp.now
  · intro h0 h1 h2 h3 h4 h5
    rw [hstep, if_neg h0, if_neg h1, if_neg h2, if_neg h3, if_neg h4, if_neg h5]
  · intro h
    rw [hstep]
    rcases h with h | h
    · rw [h]
      rw [if_neg (by decide), if_neg (by decide), if_neg (by decide), if_neg (by decide),
        if_pos rfl]
    · rw [h]
      rw [if_neg (by decide), if_neg (by decide), if_neg (by decide), if_neg (by decide),
        if_neg (by decide), if_pos rfl]

set_option maxRecDepth 100000 in
theorem nothing_before_start_witness :
    (initial sample_session.entries).started = false ∧
    trim_whitespace ((⟨cmd_delete ++ ['1'], 0, true⟩ : Input).line.take (MAX_LINE - 1)) =
      cmd_delete ++ ['1'] ∧
    step (initial sample_session.entries) ⟨cmd_delete ++ ['1'], 0, true⟩ =
      cont (initial sample_session.entries) [Msg.startFirst] :=
  ⟨rfl, by decide,
    (nothing_before_start (initial sample_session.entries) ⟨cmd_delete ++ ['1'], 0, true⟩
      rfl).2.2.1 (by decide) (by decide) (by decide) (by decide) (by decide) (by decide)⟩

set_option maxRecDepth 100000 in
/-- Claim C19, counterexample. Before the start, a blank line (here two blanks) is none of
`!help`, `!end`, a `!start` line, `!pause`, `!resume`, and it is not answered with the
start-first diagnostic: nothing is printed. -/
theorem blank_line_counterexample :
    (initial sample_session.entries).started = false ∧
    ([' ', ' '] : List Char) ≠ cmd_help ∧ ([' ', ' '] : List Char) ≠ cmd_end ∧
    ([' ', ' '] : List Char).take 6 ≠ cmd_start ∧ ([' ', ' '] : List Char) ≠ cmd_pause ∧
    ([' ', ' '] : List Char) ≠ cmd_resume ∧
    step (initial sample_session.entries) ⟨[' ', ' '], 0, true⟩ =
      cont (initial sample_session.entries) [] ∧
    (step (initial sample_session.entries) ⟨[' ', ' '], 0, true⟩).out ≠ [Msg.startFirst] := by
  decide

/-! ## Theorems: unknown commands and the bare offset -/

/-- Ordinary characters at the head of a format must be the head of the input. -/
theorem sscanf_lits (l : List Char) (fmt : List Dir) : ∀ t : List Char,
    sscanf (l.map Dir.lit ++ fmt) t =
      if t.take l.length = l then sscanf fmt (t.drop l.length) else [] := by
  induction l with
  | nil => intro t; simp
  | cons c l ih =>
    intro t
    cases t with
    | nil => simp [sscanf]
    | cons x xs =>
      rw [List.map_cons, List.cons_append, sscanf]
      simp only [List.length_cons, List.take_succ_cons, List.drop_succ_cons, List.cons.injEq]
      by_cases hx : x = c
      · simp only [hx, if_true, true_and, ih xs]
      · simp only [hx, if_false, false_and]

/-- A line that begins neither with `!offset` nor with `!p` matches none of the four offset
formats. -/
theorem scan_offset_none (t : List Char) (hp : t.take 2 ≠ ['!', 'p'])
    (ho : t.take 7 ≠ cmd_offset) : scan_offset t = none := by
  have e1 : sscanf fmt_offset_n t = [] := by
    have := sscanf_lits cmd_offset [Dir.ws, Dir.d, Dir.ws, Dir.c, Dir.d] t
    rw [show (cmd_offset.length) = 7 from rfl, if_neg ho] at this
    exact this
  have e2 : sscanf fmt_p t = [] := by
    have := sscanf_lits ['!', 'p'] [Dir.ws, Dir.c, Dir.d] t
    rw [show (['!', 'p'] : List Char).length = 2 from rfl, if_neg hp] at this
    exact this
  have e3 : sscanf fmt_previous t = [] := by
    have := sscanf_lits ['!', 'p']
      ([Dir.lit 'r', Dir.lit 'e', Dir.lit 'v', Dir.lit 'i', Dir.lit 'o', Dir.lit 'u',
        Dir.lit 's', Dir.ws, Dir.c, Dir.d]) t
    rw [show (['!', 'p'] : List Char).length = 2 from rfl, if_neg hp] at this
    exact this
  have e4 : sscanf fmt_offset_s t = [] := by
    have := sscanf_lits cmd_offset [Dir.ws, Dir.s 15, Dir.ws, Dir.c, Dir.d] t
    rw [show (cmd_offset.length) = 7 from rfl, if_neg ho] at this
    exact this
  simp only [scan_offset, e1, e2, e3, e4]

/-- In a started session, a trimmed line that begins with `!`, is not one of the session
commands, is not taken for an edit or a delete and matches no offset format is answered
with the unknown-command diagnostic and changes nothing. -/
theorem step_unknown (st : Session) (inp : Input) (t : List Char)
    (hs : st.started = true) (ht : trim_whitespace (inp.line.take (MAX_LINE - 1)) = t)
    (hb : t.head? = some '!') (hh : t ≠ cmd_help) (hpa : t ≠ cmd_pause) (hr : t ≠ cmd_resume)
    (he : t.take 2 ≠ cmd_e) (hst : t.take 6 ≠ cmd_start) (hd : t.take 8 ≠ cmd_delete)
    (hsc : scan_offset t = none) : step st inp = cont st [Msg.unknownCommand t] := by
  have h0 : t ≠ [] := by
    intro e; rw [e] at hb; cases hb
  have h2 : t ≠ cmd_end := by
    intro e; rw [e] at he; exact he rfl
  rw [step_eq_dispatch st inp t ht hs h0 hh h2 hst hpa hr, dispatch, hsc]
  simp only
  rw [if_neg he, if_neg hd, if_pos hb]

/-- Claim C14, amended. Unknown commands do not mutate. In a started session, every
trimmed input line that begins with `!`, is neither `!help` nor `!resume`, and begins with
none of `!e`, `!p`, `!offset`, `!start` and `!delete` followed by a blank, is rejected as
an unknown command and leaves the Tag Store and the session state unchanged. The same
holds for a line that begins with `!p` or `!offset` when it is not `!pause` and none of
the four offset formats matches it. -/
theorem unknown_command_no_mutation (st : Session) (inp : Input) (t : List Char)
    (hs : st.started = true) (ht : trim_whitespace (inp.line.take (MAX_LINE - 1)) = t)
    (hb : t.head? = some '!') (hh : t ≠ cmd_help) (hr : t ≠ cmd_resume)
    (he : t.take 2 ≠ cmd_e) (hst : t.take 6 ≠ cmd_start) (hd : t.take 8 ≠ cmd_delete) :
    (t.take 2 ≠ ['!', 'p'] → t.take 7 ≠ cmd_offset →
      step st inp = cont st [Msg.unknownCommand t]) ∧
    (t ≠ cmd_pause → scan_offset t = none → step st inp = cont st [Msg.unknownCommand t]) := by
  constructor
  · intro hp ho
    have hpa : t ≠ cmd_pause := by
      intro e; rw [e] at hp; exact hp rfl
    exact step_unknown st inp t hs ht hb hh hpa hr he hst hd (scan_offset_none t hp ho)
  · intro hpa hsc
    exact step_unknown st inp t hs ht hb hh hpa hr he hst hd hsc

set_option maxRecDepth 100000 in
theorem unknown_command_no_mutation_witness :
    sample_session.started = true ∧
    trim_whitespace ((⟨['!', 'f', 'o', 'o', ' ', '1'], 0, true⟩ : Input).line.take
      (MAX_LINE - 1)) = ['!', 'f', 'o', 'o', ' ', '1'] ∧
    step sample_session ⟨['!', 'f', 'o', 'o', ' ', '1'], 0, true⟩ =
      cont sample_session [Msg.unknownCommand ['!', 'f', 'o', 'o', ' ', '1']] :=
  ⟨rfl, by decide,
    (unknown_command_no_mutation sample_session ⟨['!', 'f', 'o', 'o', ' ', '1'], 0, true⟩
      ['!', 'f', 'o', 'o', ' ', '1'] rfl (by decide) (by decide) (by decide) (by decide)
      (by decide) (by decide) (by decide)).1 (by decide) (by decide)⟩

set_option maxRecDepth 100000 in
/-- Claim C14, counterexample. In a started session the line `!edit x` begins with `!` and
its command word `!edit` is none of the ten commands, yet it is not rejected: it begins
with `!e`, is taken for an edit of the last tag, and replaces its text by `dit x`. The
line `!p+5`, with command word `!p+5`, adjusts the last tag by 5 seconds. -/
theorem unknown_command_counterexample :
    command_word ['!', 'e', 'd', 'i', 't', ' ', 'x'] = ['!', 'e', 'd', 'i', 't'] ∧
    command_word ['!', 'e', 'd', 'i', 't', ' ', 'x'] ∉ known_commands ∧
    step sample_session ⟨['!', 'e', 'd', 'i', 't', ' ', 'x'], 0, false⟩ =
      cont (with_text sample_session 2 ['d', 'i', 't', ' ', 'x']) [Msg.edited 3] ∧
    (step sample_session ⟨['!', 'e', 'd', 'i', 't', ' ', 'x'], 0, false⟩).st.entries ≠
      sample_session.entries ∧
    command_word ['!', 'p', '+', '5'] ∉ known_commands ∧
    (step sample_session ⟨['!', 'p', '+', '5'], 0, false⟩).st.entries =
      [⟨10, ['h', 'i']⟩, ⟨20, ['w', 'o', 'r', 'l', 'd']⟩, ⟨35, ['x']⟩] := by
  decide

theorem signed_text_eq (delta : Int) :
    signed_text delta = (if delta < 0 then '-' else '+') :: paddedDigits 0 delta.natAbs := by
  have h := printf_d_plain_nonneg (delta.natAbs : Int) (by omega)
  simp only [signed_text, h, paddedDigits, Int.toNat_ofNat, List.replicate_zero, List.nil_append]

theorem scan_d_signed_text (delta : Int) (h1 : -2147483647 ≤ delta) (h2 : delta ≤ 2147483647) :
    scan_d (signed_text delta) = some (delta, []) := by
  rw [signed_text_eq]
  by_cases h : delta < 0
  · have := scan_long_minus 0 delta.natAbs [] not_isdigit_nil
    simp only [List.append_nil] at this
    simp only [h, if_true, scan_d, this]
    rw [clampLong_id _ (by unfold LONG_MIN; omega) (by unfold LONG_MAX; omega),
      wrap32_id _ (by omega) (by omega)]
    congr 2
    omega
  · have := scan_unsigned_padded false 0 delta.natAbs [] not_isdigit_nil
    simp only [List.append_nil, Bool.false_eq_true, if_false] at this
    simp only [h, if_false, scan_d]
    rw [scan_long_cons '+' _ (by rfl), if_neg (by decide), if_pos rfl, this]
    simp only
    rw [clampLong_id _ (by unfold LONG_MIN; omega) (by unfold LONG_MAX; omega),
      wrap32_id _ (by omega) (by omega)]
    congr 2
    omega

theorem signed_text_not_space (delta : Int) :
    ∀ c ∈ signed_text delta, (!isspace c) = true := by
  rw [signed_text_eq]
  intro c hc
  rcases List.mem_cons.1 hc with h | h
  · rw [h]
    split <;> rfl
  · rw [isdigit_not_space c (paddedDigits_isdigit _ _ c h)]
    rfl

/-- None of the four offset formats matches the bare line `!offset <±n>`. -/
theorem scan_offset_bare (delta : Int) (h1 : -2147483647 ≤ delta) (h2 : delta ≤ 2147483647) :
    scan_offset (bare_offset_line delta) = none := by
  have hsp : isspace ' ' = true := by rfl
  have hlen := signed_text_length delta h1 h2
  have hne : signed_text delta ≠ [] := by simp [signed_text]
  have e1 : sscanf fmt_offset_n (bare_offset_line delta) = [Val.int delta] := by
    have := sscanf_lits cmd_offset [Dir.ws, Dir.d, Dir.ws, Dir.c, Dir.d] (bare_offset_line delta)
    rw [show (cmd_offset.length) = 7 from rfl, bare_offset_line, List.take_left' (by rfl),
      if_pos rfl, List.drop_left' (by rfl)] at this
    rw [bare_offset_line]
    refine this.trans ?_
    rw [sscanf_ws_d, sscanf, ← scan_d_dropWhile, List.dropWhile_cons, if_pos hsp,
      scan_d_dropWhile, scan_d_signed_text delta h1 h2]
    simp [sscanf]
  have e2 : sscanf fmt_p (bare_offset_line delta) = [] := by
    simp [fmt_p, bare_offset_line, cmd_offset, sscanf]
  have e3 : sscanf fmt_previous (bare_offset_line delta) = [] := by
    simp [fmt_previous, bare_offset_line, cmd_offset, sscanf]
  have e4 : sscanf fmt_offset_s (bare_offset_line delta) = [Val.str (signed_text delta)] := by
    have := sscanf_lits cmd_offset [Dir.ws, Dir.s 15, Dir.ws, Dir.c, Dir.d]
      (bare_offset_line delta)
    rw [show (cmd_offset.length) = 7 from rfl, bare_offset_line, List.take_left' (by rfl),
      if_pos rfl, List.drop_left' (by rfl)] at this
    rw [bare_offset_line]
    refine this.trans ?_
    have hd : (signed_text delta).dropWhile isspace = signed_text delta :=
      signed_text_dropWhile delta
    have htok : ((signed_text delta).takeWhile fun x => !isspace x).take 15 =
        signed_text delta := by
      rw [takeWhile_all _ _ (signed_text_not_space delta), List.take_of_length_le (by omega)]
    simp only [sscanf, List.dropWhile_cons, hsp, if_true, hd, htok, hne, if_false,
      List.drop_length, List.dropWhile_nil]
  simp only [scan_offset, e1, e2, e3, e4]

theorem bare_offset_line_trim (delta : Int) (h1 : -2147483647 ≤ delta)
    (h2 : delta ≤ 2147483647) :
    trim_whitespace ((bare_offset_line delta).take (MAX_LINE - 1)) = bare_offset_line delta := by
  have hl2 := signed_text_length delta h1 h2
  rw [List.take_of_length_le (by simp [bare_offset_line, cmd_offset]; omega)]
  exact trim_whitespace_id '!' _ (by rfl)
    (signed_text_getLast delta ['o', 'f', 'f', 's', 'e', 't', ' '])

/-- Claim C15, amended. The bare offset is not dispatched as OffsetLast. In a started
session the line `!offset <±n>`, with a signed amount of at most `2^31-1` in absolute value
and no target token, matches none of the offset formats: it is rejected as an unknown
command and leaves the store and the session state unchanged, whatever the store holds. -/
theorem bare_offset_unknown (st : Session) (delta now : Int) (ok : Bool)
    (hs : st.started = true) (hd : -2147483647 ≤ delta ∧ delta ≤ 2147483647) :
    step st ⟨bare_offset_line delta, now, ok⟩ =
      cont st [Msg.unknownCommand (bare_offset_line delta)] := by
  exact step_unknown st _ _ hs (bare_offset_line_trim delta hd.1 hd.2)
    (by simp [bare_offset_line, cmd_offset]) (by simp [bare_offset_line, cmd_offset, cmd_help])
    (by simp [bare_offset_line, cmd_offset, cmd_pause])
    (by simp [bare_offset_line, cmd_offset, cmd_resume])
    (by simp [bare_offset_line, cmd_offset, cmd_e])
    (by simp [bare_offset_line, cmd_offset, cmd_start])
    (by simp [bare_offset_line, cmd_offset, cmd_delete])
    (scan_offset_bare delta hd.1 hd.2)

set_option maxRecDepth 100000 in
theorem bare_offset_unknown_witness :
    sample_session.started = true ∧ (-2147483647 ≤ (5 : Int) ∧ (5 : Int) ≤ 2147483647) ∧
    bare_offset_line 5 = ['!', 'o', 'f', 'f', 's', 'e', 't', ' ', '+', '5'] ∧
    step sample_session ⟨bare_offset_line 5, 0, true⟩ =
      cont sample_session [Msg.unknownCommand (bare_offset_line 5)] :=
  ⟨rfl, by decide, by decide, bare_offset_unknown sample_session 5 0 true rfl (by decide)⟩

set_option maxRecDepth 100000 in
/-- Claim C15, counterexample. On the sample store, whose last entry is stamped 30, the
line `!offset +5` leaves every entry as it was, while `!p +5` and `!previous +5` move the
last entry to 35: the bare offset does not have the effect of `!previous` and `!p`. -/
theorem bare_offset_counterexample :
    sample_session.started = true ∧ sample_session.entries ≠ [] ∧
    (step sample_session ⟨bare_offset_line 5, 0, true⟩).st.entries = sample_session.entries ∧
    (step sample_session ⟨p_line 5, 0, true⟩).st.entries =
      [⟨10, ['h', 'i']⟩, ⟨20, ['w', 'o', 'r', 'l', 'd']⟩, ⟨35, ['x']⟩] ∧
    (step sample_session ⟨previous_line 5, 0, true⟩).st.entries =
      [⟨10, ['h', 'i']⟩, ⟨20, ['w', 'o', 'r', 'l', 'd']⟩, ⟨35, ['x']⟩] ∧
    (step sample_session ⟨bare_offset_line 5, 0, true⟩).st.entries ≠
      (step sample_session ⟨p_line 5, 0, true⟩).st.entries := by
  decide

end Eepytagger
